import Mathlib

/-! # Fleet datastore: query result rows and label membership

A shallow embedding of `server/datastore/mysql/labels.go` and of the query
result helpers of `server/datastore/mysql/query_results_test.go`.

Tables are lists of rows in insertion order.  Identifiers (`uint`) and
timestamps (`time.Time`) are natural numbers; no arithmetic is performed on
them by the embedded code.  A statement executed through `ExecContext` either
takes effect or fails; which statements fail is a parameter of every operation.
-/

namespace Fleet

/-! ## Query result rows -/

/-- The struct `fleet.ScheduledQueryResultRow`; `Data` is a `*json.RawMessage`,
`none` standing for the nil pointer (a placeholder row). -/
structure ScheduledQueryResultRow where
  QueryID : Nat
  HostID : Nat
  LastFetched : Nat
  Data : Option String
deriving DecidableEq, Repr

/-- The table `query_results`, in insertion order (the order of its
auto-generated identifier). -/
abbrev QueryResults := List ScheduledQueryResultRow

/-- An error returned by the storage layer for a statement. -/
inductive StorageError where
  | execFailed
deriving DecidableEq, Repr

/-- The statement `INSERT INTO query_results (query_id, host_id, last_fetched, data) VALUES ...`:
one stored row per value tuple, appended in order. -/
def insertQueryResults (table : QueryResults)
    (valueArgs : List (Nat × Nat × Nat × Option String)) : QueryResults :=
  table ++ valueArgs.map (fun a => ⟨a.1, a.2.1, a.2.2.1, a.2.2.2⟩)

/-- The function `SaveQueryResultRows` of `query_results_test.go`.  `execErr` is the
error, if any, that `ExecContext` returns for the insert statement.  The result is
the stored table, or the error (the table is then unchanged). -/
def SaveQueryResultRows (execErr : Option StorageError) (table : QueryResults)
    (rows : List ScheduledQueryResultRow) : Except StorageError QueryResults :=
  if rows.length = 0 then
    .ok table
  else
    let valueArgs := rows.map (fun row => (row.QueryID, row.HostID, row.LastFetched, row.Data))
    match execErr with
    | some err => .error err
    | none => .ok (insertQueryResults table valueArgs)

/-- Modelled from the spec: `QueryResultRowsForHost` (RowsForHost) is called by the
tests but its body is not among the sources.  Spec 4.3: all rows, payload-bearing
and placeholder, of the (query, host) pair, ordered by insertion. -/
def QueryResultRowsForHost (table : QueryResults) (queryID hostID : Nat) :
    List ScheduledQueryResultRow :=
  table.filter (fun r => r.QueryID == queryID && r.HostID == hostID)

/-- Modelled from the spec: `ResultCountForQuery` (CountForQuery) is called by the
tests but its body is not among the sources.  Spec 4.3: counts only
payload-bearing rows of the query; 0 when there is none. -/
def ResultCountForQuery (table : QueryResults) (queryID : Nat) : Nat :=
  (table.filter (fun r => r.QueryID == queryID && r.Data.isSome)).length

/-- Modelled from the spec: `ResultCountForQueryAndHost` (CountForQueryAndHost) is
called by the tests but its body is not among the sources.  Spec 4.3: counts only
payload-bearing rows of the (query, host) pair. -/
def ResultCountForQueryAndHost (table : QueryResults) (queryID hostID : Nat) : Nat :=
  (table.filter (fun r => r.QueryID == queryID && r.HostID == hostID && r.Data.isSome)).length

/-- Modelled from the spec: the Capacity Governor of spec 4.1, whose code is not
among the sources.  Given the configured maximum, the current payload-bearing
count of the query and the number of candidate payload-bearing rows, the number
admitted: 0 when the query is at or over the maximum, and never more than keeps the
count within the maximum. -/
def governorAdmit (maxRows current candidates : Nat) : Nat :=
  min candidates (maxRows - current)

/-- Modelled from the spec: the rows of a list that the Capacity Governor lets
through (spec 4.1) when `budget` payload-bearing rows may still be admitted: rows
with absent payload are always admitted and cost nothing, payload-bearing rows are
admitted in input order while the budget lasts, the others are dropped. -/
def admitRows : Nat → List ScheduledQueryResultRow → List ScheduledQueryResultRow
  | _, [] => []
  | budget, r :: rs =>
    if r.Data.isSome then
      if 0 < budget then r :: admitRows (budget - 1) rs else admitRows budget rs
    else r :: admitRows budget rs

/-- The (query, host) pair of a row. -/
def rowPair (r : ScheduledQueryResultRow) : Nat × Nat := (r.QueryID, r.HostID)

/-- Modelled from the spec: the distinct (query, host) pairs of the rows given to
Overwrite (spec 4.2), in order of first appearance, after the pairs `seen`. -/
def touchedPairs (seen : List (Nat × Nat)) : List ScheduledQueryResultRow → List (Nat × Nat)
  | [] => seen
  | r :: rs =>
    if rowPair r ∈ seen then touchedPairs seen rs else touchedPairs (seen ++ [rowPair r]) rs

/-- Modelled from the spec: what Overwrite (spec 4.2) does for one (query, host)
pair `k` of its input: the Governor is enforced against the query's current
payload-bearing count minus the rows about to be replaced for that host, the
existing rows of the pair are deleted, and the admitted rows of the pair are
inserted. -/
def overwritePair (maxRows : Nat) (rows : List ScheduledQueryResultRow)
    (table : QueryResults) (k : Nat × Nat) : QueryResults :=
  let current := ResultCountForQuery table k.1 - ResultCountForQueryAndHost table k.1 k.2
  let admitted := admitRows (maxRows - current) (rows.filter (fun r => rowPair r == k))
  table.filter (fun r => !(rowPair r == k)) ++ admitted

/-- Modelled from the spec: `OverwriteQueryResultRows` (Overwrite) is called by the
tests but its body is not among the sources.  Spec 4.2: every distinct
(query, host) pair of the input is processed on its own, all inside one atomic
transaction; a storage error (`txErr`) aborts the whole transaction and leaves the
table unchanged; dropping rows for capacity is not an error.  `maxRows` is the
constant `fleet.MaxQueryReportRows`, which is not among the sources. -/
def OverwriteQueryResultRows (maxRows : Nat) (txErr : Option StorageError)
    (table : QueryResults) (rows : List ScheduledQueryResultRow) :
    Except StorageError QueryResults :=
  match txErr with
  | some err => .error err
  | none => .ok ((touchedPairs [] rows).foldl (overwritePair maxRows rows) table)

/-- A call of the Result Ingestor, with the storage error it meets, if any. -/
inductive IngestCall where
  | save (execErr : Option StorageError) (rows : List ScheduledQueryResultRow)
  | overwrite (txErr : Option StorageError) (rows : List ScheduledQueryResultRow)
deriving DecidableEq, Repr

/-- The table after one call: the table the call stored, or the old table when the
call returned an error. -/
def IngestCall.apply (maxRows : Nat) (table : QueryResults) : IngestCall → QueryResults
  | .save execErr rows =>
    match SaveQueryResultRows execErr table rows with
    | .ok t => t
    | .error _ => table
  | .overwrite txErr rows =>
    match OverwriteQueryResultRows maxRows txErr table rows with
    | .ok t => t
    | .error _ => table

/-- The table after a sequence of calls, started from `table`. -/
def runCalls (maxRows : Nat) (table : QueryResults) (calls : List IngestCall) : QueryResults :=
  calls.foldl (IngestCall.apply maxRows) table

/-- The number of payload-bearing rows of `rows` that belong to the query. -/
def payloadRowsFor (queryID : Nat) (rows : List ScheduledQueryResultRow) : Nat :=
  (rows.filter (fun r => r.QueryID == queryID && r.Data.isSome)).length

/-- The number of payload-bearing rows of the query that the Save calls of a
sequence stored (a Save that met a storage error stored none). -/
def savedPayloadRows (queryID : Nat) : List IngestCall → Nat
  | [] => 0
  | .save none rows :: cs => payloadRowsFor queryID rows + savedPayloadRows queryID cs
  | _ :: cs => savedPayloadRows queryID cs

/-! ## Labels and label membership -/

/-- The constants `fleet.LabelTypeRegular` and `fleet.LabelTypeBuiltIn`. -/
inductive LabelType where
  | regular
  | builtIn
deriving DecidableEq, Repr

/-- The constants `fleet.LabelMembershipTypeDynamic` and
`fleet.LabelMembershipTypeManual`. -/
inductive LabelMembershipType where
  | dynamic
  | manual
deriving DecidableEq, Repr

/-- A row of the table `labels`. -/
structure LabelRow where
  id : Nat
  name : String
  description : String
  query : String
  platform : String
  label_type : LabelType
  label_membership_type : LabelMembershipType
deriving DecidableEq, Repr

/-- A row of the table `hosts`, with the columns the label code reads or writes. -/
structure HostRow where
  id : Nat
  hostname : String
  label_updated_at : Nat
deriving DecidableEq, Repr

/-- A row of the table `label_membership`, in the column order of the membership
insert statement. -/
structure LabelMembershipRow where
  updated_at : Nat
  label_id : Nat
  host_id : Nat
deriving DecidableEq, Repr

/-- The tables the label code works on. -/
structure DB where
  labels : List LabelRow
  hosts : List HostRow
  label_membership : List LabelMembershipRow
deriving DecidableEq, Repr

/-- The fields of `fleet.Host` that the label code reads. -/
structure Host where
  ID : Nat
  Platform : String
  OSVersion : String
  LabelUpdatedAt : Nat
deriving DecidableEq, Repr

/-- A Go `map[uint]*bool`: its entries in the order a `range` loop meets them, the
keys pairwise distinct.  The value `none` is the nil pointer. -/
structure ResultsMap where
  entries : List (Nat × Option Bool)
  nodup : (entries.map Prod.fst).Nodup

/-- The keys of the map, in iteration order. -/
def ResultsMap.keys (results : ResultsMap) : List Nat :=
  results.entries.map Prod.fst

/-- The Go index expression `results[labelID]`: the stored pointer, or nil for a
key that is not in the map. -/
def ResultsMap.index (results : ResultsMap) (labelID : Nat) : Option Bool :=
  match results.entries.lookup labelID with
  | some ptr => ptr
  | none => none

/-- The call `sort.Slice(orderedIDs, func(i, j int) bool { return orderedIDs[i] < orderedIDs[j] })`
of the Go standard library: the identifiers in ascending order. -/
def sortSlice (orderedIDs : List Nat) : List Nat :=
  orderedIDs.insertionSort (fun a b => a ≤ b)

/-- The statements that `RecordLabelQueryExecutions` sends to the database, with
their bound arguments. -/
inductive Stmt where
  /-- The statement `INSERT INTO label_membership (updated_at, label_id, host_id) VALUES ... ON DUPLICATE KEY UPDATE updated_at = VALUES(updated_at)`. -/
  | upsertMembership (vals : List (Nat × Nat × Nat))
  /-- The statement `DELETE FROM label_membership WHERE host_id = ? AND label_id IN (?)`. -/
  | deleteMembership (hostID : Nat) (removes : List Nat)
  /-- The statement `UPDATE hosts SET label_updated_at = ? WHERE id=?`. -/
  | updateHostLabelUpdatedAt (labelUpdatedAt : Nat) (hostID : Nat)
deriving DecidableEq, Repr

/-- One value tuple of the membership insert: the row with the key
(label_id, host_id) gets the new `updated_at` when it exists, and is inserted
otherwise. -/
def upsertMembershipRow (table : List LabelMembershipRow) (v : Nat × Nat × Nat) :
    List LabelMembershipRow :=
  if table.any (fun r => r.label_id == v.2.1 && r.host_id == v.2.2) then
    table.map (fun r =>
      if r.label_id == v.2.1 && r.host_id == v.2.2 then { r with updated_at := v.1 } else r)
  else
    table ++ [⟨v.1, v.2.1, v.2.2⟩]

/-- The effect of a statement that succeeds. -/
def Stmt.run (db : DB) : Stmt → DB
  | .upsertMembership vals =>
    { db with label_membership := vals.foldl upsertMembershipRow db.label_membership }
  | .deleteMembership hostID removes =>
    { db with label_membership :=
        db.label_membership.filter (fun r => !(r.host_id == hostID && removes.contains r.label_id)) }
  | .updateHostLabelUpdatedAt labelUpdatedAt hostID =>
    { db with hosts :=
        db.hosts.map (fun h => if h.id == hostID then { h with label_updated_at := labelUpdatedAt } else h) }

/-- An open transaction: the tables as the transaction sees them and the
statements it has sent so far. -/
structure Tx where
  db : DB
  log : List Stmt
deriving DecidableEq, Repr

/-- The call `tx.ExecContext`: the statement is sent; it fails when `faults` says so
(the result is then `true` and the tables are untouched), and takes effect
otherwise. -/
def Tx.ExecContext (faults : Stmt → Bool) (tx : Tx) (s : Stmt) : Tx × Bool :=
  if faults s then ({ tx with log := tx.log ++ [s] }, true)
  else ({ db := s.run tx.db, log := tx.log ++ [s] }, false)

/-- The errors `RecordLabelQueryExecutions` returns, one per wrapping site. -/
inductive RecordError where
  /-- The error "insert label query executions". -/
  | insertLabelQueryExecutions
  /-- The error "delete label query executions". -/
  | deleteLabelQueryExecutions
  /-- The error "updating hosts label updated at". -/
  | updatingHostsLabelUpdatedAt
deriving DecidableEq, Repr

/-- What a call leaves behind: the committed tables, the statements the
transaction sent, and the error returned to the caller. -/
structure Outcome where
  db : DB
  log : List Stmt
  err : Option RecordError
deriving DecidableEq, Repr

/-- Modelled from the spec: `withRetryTxx` is called by `labels.go` but its body is
not among the sources.  Spec 1, 5 and 7: the function runs in one atomic
transaction; when it returns an error the transaction is aborted and no partial
state is committed, otherwise its effects are committed.  Transient failures, which
the substrate retries without the caller seeing them, are not faults of the
model: a fault is a failure that reaches the caller. -/
def withRetryTxx (db : DB) (fn : Tx → Tx × Option RecordError) : Outcome :=
  match fn { db := db, log := [] } with
  | (tx, none) => { db := tx.db, log := tx.log, err := none }
  | (tx, some err) => { db := db, log := tx.log, err := some err }

/-- The loop of `RecordLabelQueryExecutions` over the ordered identifiers: the
value tuples `vals` (one `(updated, labelID, host.ID)` per label that matched) and
the identifiers `removes` of the other labels. -/
def collectResults (host : Host) (results : ResultsMap) (updated : Nat)
    (orderedIDs : List Nat) : List (Nat × Nat × Nat) × List Nat :=
  orderedIDs.foldl
    (fun acc labelID =>
      match results.index labelID with
      | some true => (acc.1 ++ [(updated, labelID, host.ID)], acc.2)
      | _ => (acc.1, acc.2 ++ [labelID]))
    ([], [])

/-- The function passed to `withRetryTxx` by `RecordLabelQueryExecutions`. -/
def recordLabelQueryExecutionsTx (faults : Stmt → Bool) (host : Host)
    (vals : List (Nat × Nat × Nat)) (removes : List Nat) (tx : Tx) :
    Tx × Option RecordError :=
  -- Complete inserts if necessary
  let afterInsert : Tx × Bool :=
    if vals.length > 0 then tx.ExecContext faults (.upsertMembership vals) else (tx, false)
  if afterInsert.2 then (afterInsert.1, some .insertLabelQueryExecutions)
  else
    -- Complete deletions if necessary
    let afterDelete : Tx × Bool :=
      if removes.length > 0 then
        afterInsert.1.ExecContext faults (.deleteMembership host.ID removes)
      else (afterInsert.1, false)
    if afterDelete.2 then (afterDelete.1, some .deleteLabelQueryExecutions)
    else
      let afterUpdate :=
        afterDelete.1.ExecContext faults (.updateHostLabelUpdatedAt host.LabelUpdatedAt host.ID)
      if afterUpdate.2 then (afterUpdate.1, some .updatingHostsLabelUpdatedAt)
      else (afterUpdate.1, none)

/-- The function `RecordLabelQueryExecutions` of `labels.go`. -/
def RecordLabelQueryExecutions (faults : Stmt → Bool) (db : DB) (host : Host)
    (results : ResultsMap) (updated : Nat) : Outcome :=
  let orderedIDs := sortSlice results.keys
  let collected := collectResults host results updated orderedIDs
  withRetryTxx db (recordLabelQueryExecutionsTx faults host collected.1 collected.2)

/-- The `vals` of a call, as bound in the membership insert. -/
def insertVals (host : Host) (results : ResultsMap) (updated : Nat) : List (Nat × Nat × Nat) :=
  (collectResults host results updated (sortSlice results.keys)).1

/-- The label identifiers bound in the membership insert of a call. -/
def insertIDs (host : Host) (results : ResultsMap) (updated : Nat) : List Nat :=
  (insertVals host results updated).map (fun v => v.2.1)

/-- The label identifiers bound in the membership delete of a call. -/
def deleteIDs (host : Host) (results : ResultsMap) (updated : Nat) : List Nat :=
  (collectResults host results updated (sortSlice results.keys)).2

/-- The (label, host) pairs of the table `label_membership`. -/
def membershipPairs (db : DB) : List (Nat × Nat) :=
  db.label_membership.map (fun r => (r.label_id, r.host_id))

/-- The tables of the scenario of spec 8: host 7 exists, no membership yet. -/
def scenarioDB : DB := ⟨[], [⟨7, "host7", 0⟩], []⟩

/-- The host of the scenario of spec 8, with the `LabelUpdatedAt` the caller set. -/
def scenarioHost (labelUpdatedAt : Nat) : Host := ⟨7, "", "", labelUpdatedAt⟩

/-- The first map of the scenario of spec 8: `{1:true, 2:true, 3:false}`. -/
def scenarioResults1 : ResultsMap := ⟨[(1, some true), (2, some true), (3, some false)], by decide⟩

/-- The second map of the scenario of spec 8: `{1:false, 2:true, 4:true}`. -/
def scenarioResults2 : ResultsMap := ⟨[(1, some false), (2, some true), (4, some true)], by decide⟩

/-- Whether a statement is the membership insert. -/
def Stmt.isUpsert : Stmt → Bool
  | .upsertMembership _ => true
  | _ => false

/-- Whether a statement is the membership delete. -/
def Stmt.isDelete : Stmt → Bool
  | .deleteMembership _ _ => true
  | _ => false

/-- Whether a statement is the update of the host's `label_updated_at`. -/
def Stmt.isHostUpdate : Stmt → Bool
  | .updateHostLabelUpdatedAt _ _ => true
  | _ => false

/-- Modelled from the spec: `QueryResultRows` (RowsForQuery) is called by the tests
but its body is not among the sources.  Spec 4.3: all payload-bearing rows of the
query, ordered by insertion; rows with absent payload are excluded; an empty
result is not an error. -/
def QueryResultRows (table : QueryResults) (queryID : Nat) : List ScheduledQueryResultRow :=
  table.filter (fun r => r.QueryID == queryID && r.Data.isSome)

/-! ## Batching of host names -/

/-- The loop `for batchSize < len(hostnames) { ... }` of `batchHostnames`, followed
by the final `append(batches, hostnames)`.  `fuel` bounds the number of
iterations; the length of `hostnames` is enough when `batchSize` is positive,
since each iteration removes `batchSize` names. -/
def batchHostnamesLoop (batchSize : Nat) :
    Nat → List String → List (List String) → List (List String)
  | 0, hostnames, batches => batches ++ [hostnames]
  | fuel + 1, hostnames, batches =>
    if batchSize < hostnames.length then
      batchHostnamesLoop batchSize fuel (hostnames.drop batchSize)
        (batches ++ [hostnames.take batchSize])
    else
      batches ++ [hostnames]

/-- The body of `batchHostnames` for a given value of its constant `batchSize`. -/
def batchHostnamesOfSize (batchSize : Nat) (hostnames : List String) : List (List String) :=
  batchHostnamesLoop batchSize hostnames.length hostnames []

/-- The function `batchHostnames` of `labels.go`, whose `batchSize` is 50000. -/
def batchHostnames (hostnames : List String) : List (List String) :=
  batchHostnamesOfSize 50000 hostnames

/-! ## Orphan memberships -/

/-- The error of `CleanupOrphanLabelMembership`. -/
inductive CleanupError where
  /-- The error "cleaning orphan label_membership by label". -/
  | cleaningOrphanLabelMembership
deriving DecidableEq, Repr

/-- The function `CleanupOrphanLabelMembership` of `labels.go`: the statement
`DELETE FROM label_membership where not exists (select 1 from labels where id=label_id) or not exists (select 1 from hosts where id=host_id)`,
which fails when `execFails` says so. -/
def CleanupOrphanLabelMembership (execFails : Bool) (db : DB) : DB × Option CleanupError :=
  if execFails then (db, some .cleaningOrphanLabelMembership)
  else
    ({ db with label_membership :=
        db.label_membership.filter (fun m =>
          !(!(db.labels.any (fun l => l.id == m.label_id))
            || !(db.hosts.any (fun h => h.id == m.host_id)))) },
     none)

/-! ## The All Hosts label in search results -/

/-- The fields of `fleet.Label` that the label code reads or fills. -/
structure Label where
  ID : Nat
  Name : String
  Description : String
  Query : String
  Platform : String
  LabelType : LabelType
  LabelMembershipType : LabelMembershipType
  HostCount : Nat
deriving DecidableEq, Repr

/-- The error of `addAllHostsLabelToList`. -/
inductive SearchError where
  /-- The error "get all hosts label". -/
  | getAllHostsLabel
deriving DecidableEq, Repr

/-- The row selected by `SELECT *, (...) AS host_count FROM labels l WHERE label_type=? AND name = 'All Hosts' LIMIT 1`
with the argument `fleet.LabelTypeBuiltIn`, if there is one.  Names are compared
exactly. -/
def selectAllHostsLabel (db : DB) : Option LabelRow :=
  db.labels.find? (fun l => l.label_type == LabelType.builtIn && l.name == "All Hosts")

/-- The function `addAllHostsLabelToList` of `labels.go`.  `hostCount` gives the
`host_count` column of a label; its subquery depends on `whereFilterHostsByTeams`,
which is not among the sources.  `selectFails` says whether the query fails; it
also fails when no row is selected.  `omitIDs` is the variadic parameter `omit`. -/
def addAllHostsLabelToList (hostCount : Nat → Nat) (selectFails : Bool) (db : DB)
    (labels : List Label) (omitIDs : List Nat) : Except SearchError (List Label) :=
  if selectFails then .error .getAllHostsLabel
  else
    match selectAllHostsLabel db with
    | none => .error .getAllHostsLabel
    | some row =>
      let allHosts : Label :=
        ⟨row.id, row.name, row.description, row.query, row.platform, row.label_type,
          row.label_membership_type, hostCount row.id⟩
      if omitIDs.any (fun omission => omission == allHosts.ID) then .ok labels
      else if labels.any (fun label => label.ID == allHosts.ID) then .ok labels
      else .ok (labels ++ [allHosts])

/-! ## Label specs -/

/-- The struct `fleet.LabelSpec`, with the fields `ApplyLabelSpecs` reads. -/
structure LabelSpec where
  Name : String
  Description : String
  Query : String
  Platform : String
  LabelType : LabelType
  LabelMembershipType : LabelMembershipType
  Hosts : List String
deriving DecidableEq, Repr

/-- The identifier the auto-increment column `labels.id` gives to a new row: one
that no row of the table has. -/
def nextLabelID (labels : List LabelRow) : Nat :=
  (labels.map (fun l => l.id)).foldr max 0 + 1

/-- The statement `INSERT INTO labels (...) VALUES (?, ?, ?, ?, ?, ?) ON DUPLICATE KEY UPDATE ...`
of `ApplyLabelSpecs`: the row with the (unique) name gets the new values when it
exists, and a new row is inserted otherwise.  Names are compared exactly. -/
def upsertLabelRow (labels : List LabelRow) (s : LabelSpec) : List LabelRow :=
  if labels.any (fun l => l.name == s.Name) then
    labels.map (fun l =>
      if l.name == s.Name then
        { l with
          name := s.Name, description := s.Description, query := s.Query,
          platform := s.Platform, label_type := s.LabelType,
          label_membership_type := s.LabelMembershipType }
      else l)
  else
    labels ++ [⟨nextLabelID labels, s.Name, s.Description, s.Query, s.Platform, s.LabelType,
      s.LabelMembershipType⟩]

/-- The query `SELECT id from labels WHERE name = ?`, read into one value: the id of
the first row with the name, if there is one. -/
def selectLabelID (db : DB) (name : String) : Option Nat :=
  (db.labels.find? (fun l => l.name == name)).map (fun l => l.id)

/-- The statement `INSERT IGNORE INTO label_membership (label_id, host_id) (SELECT ?, id FROM hosts where hostname IN (?))`:
for every host whose hostname is in the list, the pair is inserted unless the
table already has it.  `now` is the default value of the timestamp column. -/
def insertIgnoreMembership (now labelID : Nat) (hosts : List HostRow) (hostnames : List String)
    (table : List LabelMembershipRow) : List LabelMembershipRow :=
  (hosts.filter (fun h => hostnames.contains h.hostname)).foldl
    (fun t h =>
      if t.any (fun r => r.label_id == labelID && r.host_id == h.id) then t
      else t ++ [⟨now, labelID, h.id⟩])
    table

namespace Specs

/-- The statements and queries that `ApplyLabelSpecs` sends to the database, with
their bound arguments. -/
inductive Stmt where
  /-- The prepared insert into `labels` for a spec. -/
  | upsertLabel (s : LabelSpec)
  /-- The query `SELECT id from labels WHERE name = ?`. -/
  | getLabelID (name : String)
  /-- The statement `DELETE FROM label_membership WHERE label_id = ?`. -/
  | clearMembership (labelID : Nat)
  /-- The insert into `label_membership` for one batch of host names. -/
  | insertMembership (labelID : Nat) (hostnames : List String)
deriving DecidableEq, Repr

/-- The effect of a statement that succeeds; `now` is the clock of the database. -/
def Stmt.run (now : Nat) (db : DB) : Stmt → DB
  | .upsertLabel s => { db with labels := upsertLabelRow db.labels s }
  | .getLabelID _ => db
  | .clearMembership labelID =>
    { db with label_membership := db.label_membership.filter (fun r => !(r.label_id == labelID)) }
  | .insertMembership labelID hostnames =>
    { db with label_membership :=
        insertIgnoreMembership now labelID db.hosts hostnames db.label_membership }

/-- An open transaction of `ApplyLabelSpecs`: the tables as the transaction sees
them and what it has sent so far. -/
structure Tx where
  db : DB
  log : List Stmt
deriving DecidableEq, Repr

/-- The call `ExecContext` on the transaction or on the prepared statement: the
statement is sent; it fails when `faults`, given what was sent before, says so
(the result is then `true` and the tables are untouched), and takes effect
otherwise. -/
def Tx.ExecContext (faults : List Stmt → Stmt → Bool) (now : Nat) (tx : Tx) (s : Stmt) :
    Tx × Bool :=
  if faults tx.log s then ({ tx with log := tx.log ++ [s] }, true)
  else ({ db := s.run now tx.db, log := tx.log ++ [s] }, false)

/-- The call `sqlx.GetContext(ctx, tx, &labelID, sql, s.Name)`: the id read, or
nothing when the query fails or selects no row. -/
def Tx.GetLabelID (faults : List Stmt → Stmt → Bool) (tx : Tx) (name : String) :
    Tx × Option Nat :=
  if faults tx.log (.getLabelID name) then ({ tx with log := tx.log ++ [.getLabelID name] }, none)
  else ({ tx with log := tx.log ++ [.getLabelID name] }, selectLabelID tx.db name)

/-- The errors `ApplyLabelSpecs` returns, one per site. -/
inductive Error where
  /-- The error "tx in ApplyLabelSpecs is not a sqlx.PreparerContext". -/
  | notPreparerContext
  /-- The error "prepare ApplyLabelSpecs insert". -/
  | prepareInsert
  /-- The error "label name must not be empty". -/
  | emptyName
  /-- The error "exec ApplyLabelSpecs insert". -/
  | execInsert
  /-- The error "get label ID". -/
  | getLabelID
  /-- The error "clear membership for ID". -/
  | clearMembership
  /-- The error "build membership IN statement". -/
  | buildMembershipIN
  /-- The error "execute membership INSERT". -/
  | executeMembershipInsert
deriving DecidableEq, Repr

/-- What a call leaves behind: the committed tables, what the transaction sent,
and the error returned to the caller. -/
structure Outcome where
  db : DB
  log : List Stmt
  err : Option Error
deriving DecidableEq, Repr

/-- Modelled from the spec: `withRetryTxx` is called by `labels.go` but its body is
not among the sources.  Spec 1, 5 and 7: the function runs in one atomic
transaction; when it returns an error the transaction is aborted and no partial
state is committed, otherwise its effects are committed.  A fault is a failure that
reaches the caller. -/
def withRetryTxx (db : DB) (fn : Tx → Tx × Option Error) : Outcome :=
  match fn { db := db, log := [] } with
  | (tx, none) => { db := tx.db, log := tx.log, err := none }
  | (tx, some err) => { db := db, log := tx.log, err := some err }

end Specs

/-- The loop `for _, hostnames := range batchHostnames(s.Hosts)` of
`ApplyLabelSpecs`: `sqlx.In` fails for an empty list of host names; each batch is
inserted by one statement. -/
def insertMembershipBatches (faults : List Specs.Stmt → Specs.Stmt → Bool) (now labelID : Nat) :
    Specs.Tx → List (List String) → Specs.Tx × Option Specs.Error
  | tx, [] => (tx, none)
  | tx, hostnames :: rest =>
    if hostnames.length = 0 then (tx, some .buildMembershipIN)
    else
      let afterInsert := tx.ExecContext faults now (.insertMembership labelID hostnames)
      if afterInsert.2 then (afterInsert.1, some .executeMembershipInsert)
      else insertMembershipBatches faults now labelID afterInsert.1 rest

/-- The body of the loop `for _, s := range specs` of `ApplyLabelSpecs`. -/
def applyLabelSpec (faults : List Specs.Stmt → Specs.Stmt → Bool) (now : Nat) (tx : Specs.Tx)
    (s : LabelSpec) : Specs.Tx × Option Specs.Error :=
  if s.Name = "" then (tx, some .emptyName)
  else
    let afterUpsert := tx.ExecContext faults now (.upsertLabel s)
    if afterUpsert.2 then (afterUpsert.1, some .execInsert)
    else if s.LabelType = LabelType.builtIn
        ∨ s.LabelMembershipType ≠ LabelMembershipType.manual then
      -- No need to update membership
      (afterUpsert.1, none)
    else
      match afterUpsert.1.GetLabelID faults s.Name with
      | (afterGet, none) => (afterGet, some .getLabelID)
      | (afterGet, some labelID) =>
        let afterClear := afterGet.ExecContext faults now (.clearMembership labelID)
        if afterClear.2 then (afterClear.1, some .clearMembership)
        else if s.Hosts.length = 0 then (afterClear.1, none)
        else insertMembershipBatches faults now labelID afterClear.1 (batchHostnames s.Hosts)

/-- The loop `for _, s := range specs` of `ApplyLabelSpecs`, left at the first
error. -/
def applyLabelSpecsLoop (faults : List Specs.Stmt → Specs.Stmt → Bool) (now : Nat) :
    Specs.Tx → List LabelSpec → Specs.Tx × Option Specs.Error
  | tx, [] => (tx, none)
  | tx, s :: rest =>
    match applyLabelSpec faults now tx s with
    | (tx', none) => applyLabelSpecsLoop faults now tx' rest
    | (tx', some err) => (tx', some err)

/-- The function `ApplyLabelSpecs` of `labels.go`.  `isPreparer` is the result of
the type assertion `tx.(sqlx.PreparerContext)`, `prepareFails` says whether
`PrepareContext` fails. -/
def ApplyLabelSpecs (faults : List Specs.Stmt → Specs.Stmt → Bool) (isPreparer : Bool)
    (prepareFails : Bool) (now : Nat) (db : DB) (specs : List LabelSpec) : Specs.Outcome :=
  Specs.withRetryTxx db (fun tx =>
    if !isPreparer then (tx, some .notPreparerContext)
    else if prepareFails then (tx, some .prepareInsert)
    else applyLabelSpecsLoop faults now tx specs)

/-! ## Label queries for a host -/

/-- Whether the characters `needle` occur in a row in `chars`, as in the call
`strings.Contains` of the Go standard library. -/
def containsChars (needle : List Char) : List Char → Bool
  | [] => needle.isEmpty
  | c :: cs => needle.isPrefixOf (c :: cs) || containsChars needle cs

/-- The function `platformForHost` of `labels.go`.  `strings.ToLower` is taken on
the ASCII letters, which are the only characters with a lower case among the
letters of "centos". -/
def platformForHost (host : Host) : String :=
  if host.Platform ≠ "rhel" then host.Platform
  else if containsChars "centos".toList (host.OSVersion.toList.map Char.toLower) then "centos"
  else host.Platform

/-- The errors of `LabelQueriesForHost`, one per wrapping site. -/
inductive LabelQueriesError where
  /-- The error "selecting label queries for host". -/
  | selectingLabelQueries
  /-- The error "scanning label queries for host". -/
  | scanningLabelQueries
  /-- The error "iterating over returned rows". -/
  | iteratingRows
deriving DecidableEq, Repr

/-- The rows selected by `SELECT id, query FROM labels WHERE platform = ? OR platform = '' AND label_membership_type = ?`.
In SQL `AND` binds more tightly than `OR`: a row is selected when its platform is
the first argument, or when its platform is empty and its membership type is the
second argument.  Platforms are compared exactly. -/
def selectLabelQueries (db : DB) (platform : String)
    (membershipType : LabelMembershipType) : List (Nat × String) :=
  (db.labels.filter (fun l =>
    l.platform == platform || (l.platform == "" && l.label_membership_type == membershipType))).map
    (fun l => (l.id, l.query))

/-- The function `LabelQueriesForHost` of `labels.go`: the entries of the returned
map, an id with its query, in the order of the rows.  `readErr` is the error, if
any, met while running the query or reading its rows. -/
def LabelQueriesForHost (readErr : Option LabelQueriesError) (db : DB) (host : Host) :
    Except LabelQueriesError (List (Nat × String)) :=
  let platform := platformForHost host
  match readErr with
  | some err => .error err
  | none => .ok (selectLabelQueries db platform LabelMembershipType.dynamic)

/-! ## Searching labels -/

/-- The errors of `SearchLabels`, `searchLabelsDefault` and `searchLabelsWithOmits`,
one per wrapping site. -/
inductive SearchLabelsError where
  /-- The error "selecting labels for search". -/
  | selectingLabelsForSearch
  /-- The error "adding all hosts label to matches". -/
  | addingAllHostsLabel
  /-- The error "building query for labels with omits". -/
  | buildingQueryWithOmits
  /-- The error "selecting labels with omits". -/
  | selectingLabelsWithOmits
  /-- The error "searching default labels rebound". -/
  | searchingDefaultLabelsRebound
  /-- The error "getting all host label". -/
  | gettingAllHostLabel
deriving DecidableEq, Repr

/-- The value of the column `label_type`: `fleet.LabelTypeRegular` is 0 and
`fleet.LabelTypeBuiltIn` is 1, so that the descending order puts the built-in
labels first, as the comment in `SearchLabels` says. -/
def labelTypeValue : LabelType → Nat
  | .regular => 0
  | .builtIn => 1

/-- The order `ORDER BY label_type DESC, id ASC`: whether row `a` may stand before
row `b`. -/
def orderedBefore (a b : LabelRow) : Bool :=
  decide (labelTypeValue b.label_type < labelTypeValue a.label_type) ||
    (decide (labelTypeValue a.label_type = labelTypeValue b.label_type) && decide (a.id ≤ b.id))

/-- The rows of a selection in the order `ORDER BY label_type DESC, id ASC`. -/
def orderLabels (rows : List LabelRow) : List LabelRow :=
  rows.insertionSort (fun a b => orderedBefore a b = true)

/-- A selected row of `labels` as a `fleet.Label`, with its `host_count`. -/
def labelOfRow (hostCount : Nat → Nat) (row : LabelRow) : Label :=
  ⟨row.id, row.name, row.description, row.query, row.platform, row.label_type,
    row.label_membership_type, hostCount row.id⟩

/-- The function `searchLabelsDefault` of `labels.go`: the rows whose id is not in
the omit list (none is left out when the list is empty, the id -1 being bound
then), ordered, and passed to `addAllHostsLabelToList`. -/
def searchLabelsDefault (hostCount : Nat → Nat) (selectFails allHostsFails : Bool) (db : DB)
    (omitIDs : List Nat) : Except SearchLabelsError (List Label) :=
  if selectFails then .error .searchingDefaultLabelsRebound
  else
    let labels :=
      (orderLabels (db.labels.filter (fun l => !(omitIDs.contains l.id)))).map
        (labelOfRow hostCount)
    match addAllHostsLabelToList hostCount allHostsFails db labels omitIDs with
    | .error _ => .error .gettingAllHostLabel
    | .ok found => .ok found

/-- The function `searchLabelsWithOmits` of `labels.go`.  `transformQuery` is not
among the sources and is a parameter; `matchesName q name` stands for
`MATCH(name) AGAINST(q IN BOOLEAN MODE)`.  `sqlx.In` fails for an empty omit list. -/
def searchLabelsWithOmits (transformQuery : String → String)
    (matchesName : String → String → Bool) (hostCount : Nat → Nat)
    (selectFails allHostsFails : Bool) (db : DB) (query : String) (omitIDs : List Nat) :
    Except SearchLabelsError (List Label) :=
  let transformedQuery := transformQuery query
  if omitIDs.length = 0 then .error .buildingQueryWithOmits
  else if selectFails then .error .selectingLabelsWithOmits
  else
    let found :=
      (orderLabels (db.labels.filter (fun l =>
        matchesName transformedQuery l.name && !(omitIDs.contains l.id)))).map
        (labelOfRow hostCount)
    match addAllHostsLabelToList hostCount allHostsFails db found omitIDs with
    | .error _ => .error .addingAllHostsLabel
    | .ok withAllHosts => .ok withAllHosts

/-- The function `SearchLabels` of `labels.go`.  `transformQuery` and
`queryMinLength` are not among the sources and are parameters; `matchesName q name`
stands for `MATCH(name) AGAINST(q IN BOOLEAN MODE)`; `selectFails` and
`allHostsFails` say whether the selection of the labels and the query for the All
Hosts label fail. -/
def SearchLabels (transformQuery : String → String) (queryMinLength : String → Bool)
    (matchesName : String → String → Bool) (hostCount : Nat → Nat)
    (selectFails allHostsFails : Bool) (db : DB) (query : String) (omitIDs : List Nat) :
    Except SearchLabelsError (List Label) :=
  let transformedQuery := transformQuery query
  if !queryMinLength transformedQuery then
    searchLabelsDefault hostCount selectFails allHostsFails db omitIDs
  else if omitIDs.length > 0 then
    searchLabelsWithOmits transformQuery matchesName hostCount selectFails allHostsFails db
      query omitIDs
  else if selectFails then .error .selectingLabelsForSearch
  else
    let found :=
      (orderLabels (db.labels.filter (fun l => matchesName transformedQuery l.name))).map
        (labelOfRow hostCount)
    match addAllHostsLabelToList hostCount allHostsFails db found omitIDs with
    | .error _ => .error .addingAllHostsLabel
    | .ok withAllHosts => .ok withAllHosts

/-- The id is that of the label with the name, or there is no label with the name
and no row of `labels` has the id (so that a label created later may get it). -/
def isIdOrFree (db : DB) (name : String) (labelID : Nat) : Prop :=
  selectLabelID db name = some labelID ∨
    (selectLabelID db name = none ∧ labelID ∉ db.labels.map (fun l => l.id))

end Fleet

/-! ## Lemmas on the query result table -/

namespace Fleet

theorem insertQueryResults_rows (table : QueryResults) (rows : List ScheduledQueryResultRow) :
    insertQueryResults table
      (rows.map (fun row => (row.QueryID, row.HostID, row.LastFetched, row.Data)))
      = table ++ rows := by
  simp only [insertQueryResults, List.map_map]
  congr 1
  exact List.map_id _

theorem resultCountForQuery_eq_countP (table : QueryResults) (q : Nat) :
    ResultCountForQuery table q = table.countP (fun r => r.QueryID == q && r.Data.isSome) := by
  simp [ResultCountForQuery, List.countP_eq_length_filter]

theorem resultCountForQueryAndHost_eq_countP (table : QueryResults) (q h : Nat) :
    ResultCountForQueryAndHost table q h
      = table.countP (fun r => r.QueryID == q && r.HostID == h && r.Data.isSome) := by
  simp [ResultCountForQueryAndHost, List.countP_eq_length_filter]

theorem resultCountForQuery_append (a b : QueryResults) (q : Nat) :
    ResultCountForQuery (a ++ b) q = ResultCountForQuery a q + ResultCountForQuery b q := by
  simp [ResultCountForQuery]

theorem admitRows_sublist (budget : Nat) (rows : List ScheduledQueryResultRow) :
    (admitRows budget rows).Sublist rows := by
  induction rows generalizing budget with
  | nil => simp [admitRows]
  | cons r rs ih =>
    simp only [admitRows]
    split
    · split
      · exact (ih _).cons₂ r
      · exact (ih _).cons r
    · exact (ih _).cons₂ r

theorem admitRows_payload_le (q budget : Nat) (rows : List ScheduledQueryResultRow) :
    ResultCountForQuery (admitRows budget rows) q ≤ budget := by
  induction rows generalizing budget with
  | nil => simp [admitRows, ResultCountForQuery]
  | cons r rs ih =>
    simp only [admitRows]
    split
    · split
      · have := ih (budget - 1)
        rw [resultCountForQuery_eq_countP] at this ⊢
        rw [List.countP_cons]
        split <;> omega
      · exact ih budget
    · rename_i hd
      have := ih budget
      rw [resultCountForQuery_eq_countP] at this ⊢
      rw [List.countP_cons]
      simpa [hd] using this

/-- The admitted rows carry exactly the number of payload-bearing rows that the
Governor admits. -/
theorem admitRows_payload_count (maxRows current : Nat) (rows : List ScheduledQueryResultRow) :
    (admitRows (maxRows - current) rows).countP (fun r => r.Data.isSome)
      = governorAdmit maxRows current (rows.countP (fun r => r.Data.isSome)) := by
  unfold governorAdmit
  generalize maxRows - current = budget
  induction rows generalizing budget with
  | nil => simp [admitRows]
  | cons r rs ih =>
    simp only [admitRows]
    by_cases hd : r.Data.isSome = true
    · by_cases hb : 0 < budget
      · simp only [hd, hb, if_true, List.countP_cons, ih (budget - 1)]
        omega
      · have hb0 : budget = 0 := by omega
        simp only [hd, hb, if_true, if_false, List.countP_cons, ih budget]
        omega
    · rw [if_neg hd, List.countP_cons, List.countP_cons, ih budget]
      simp [hd]

theorem countP_split_pair (table : QueryResults) (q h : Nat) :
    table.countP (fun r => (r.QueryID == q && r.Data.isSome) && !(rowPair r == (q, h)))
      + table.countP (fun r => r.QueryID == q && r.HostID == h && r.Data.isSome)
      = table.countP (fun r => r.QueryID == q && r.Data.isSome) := by
  induction table with
  | nil => simp
  | cons r rs ih =>
    rw [List.countP_cons, List.countP_cons, List.countP_cons, ← ih]
    generalize rs.countP _ = A
    generalize rs.countP _ = B
    by_cases hq : r.QueryID = q <;> by_cases hh : r.HostID = h <;> cases hd : r.Data <;>
      simp [hq, hh, hd, rowPair] <;> omega

theorem resultCountForQuery_split (table : QueryResults) (k : Nat × Nat) :
    ResultCountForQuery (table.filter (fun r => !(rowPair r == k))) k.1
      + ResultCountForQueryAndHost table k.1 k.2 = ResultCountForQuery table k.1 := by
  obtain ⟨q, h⟩ := k
  rw [resultCountForQuery_eq_countP, resultCountForQuery_eq_countP,
    resultCountForQueryAndHost_eq_countP, List.countP_filter]
  exact countP_split_pair table q h

theorem resultCountForQuery_filter_other (table : QueryResults) (k : Nat × Nat) (q : Nat)
    (hq : q ≠ k.1) :
    ResultCountForQuery (table.filter (fun r => !(rowPair r == k))) q
      = ResultCountForQuery table q := by
  obtain ⟨q', h⟩ := k
  rw [resultCountForQuery_eq_countP, resultCountForQuery_eq_countP, List.countP_filter]
  apply List.countP_congr
  intro r _
  simp only [rowPair, Bool.and_eq_true, beq_iff_eq, Bool.not_eq_true', beq_eq_false_iff_ne, ne_eq,
    Prod.mk.injEq, not_and]
  constructor
  · intro hr; exact hr.1
  · intro hr
    refine ⟨hr, fun h1 => ?_⟩
    exact absurd (hr.1.symm.trans h1) hq

end Fleet

namespace Fleet

theorem admitRows_other_query (budget : Nat) (rows : List ScheduledQueryResultRow)
    (k : Nat × Nat) (q : Nat) (hq : q ≠ k.1) :
    ResultCountForQuery (admitRows budget (rows.filter (fun r => rowPair r == k))) q = 0 := by
  have h1 := (admitRows_sublist budget (rows.filter (fun r => rowPair r == k))).countP_le
    (fun r => r.QueryID == q && r.Data.isSome)
  rw [resultCountForQuery_eq_countP]
  have h2 : (rows.filter (fun r => rowPair r == k)).countP
      (fun r => r.QueryID == q && r.Data.isSome) = 0 := by
    rw [List.countP_eq_zero]
    intro r hr
    have hk : rowPair r = k := by simpa using (List.mem_filter.mp hr).2
    have : r.QueryID ≠ q := by
      intro h
      apply hq
      rw [← h, ← hk]
      rfl
    simp [this]
  omega

theorem overwritePair_count_le (maxRows : Nat) (rows : List ScheduledQueryResultRow)
    (table : QueryResults) (k : Nat × Nat) (q bound : Nat) (hmax : maxRows ≤ bound)
    (h : ResultCountForQuery table q ≤ bound) :
    ResultCountForQuery (overwritePair maxRows rows table k) q ≤ bound := by
  unfold overwritePair
  rw [resultCountForQuery_append]
  by_cases hq : q = k.1
  · subst hq
    have h1 := resultCountForQuery_split table k
    have h2 := admitRows_payload_le k.1
      (maxRows - (ResultCountForQuery table k.1 - ResultCountForQueryAndHost table k.1 k.2))
      (rows.filter (fun r => rowPair r == k))
    omega
  · rw [resultCountForQuery_filter_other table k q hq, admitRows_other_query _ rows k q hq]
    omega

theorem overwritePairs_count_le (maxRows : Nat) (rows : List ScheduledQueryResultRow)
    (pairs : List (Nat × Nat)) (table : QueryResults) (q bound : Nat) (hmax : maxRows ≤ bound)
    (h : ResultCountForQuery table q ≤ bound) :
    ResultCountForQuery (pairs.foldl (overwritePair maxRows rows) table) q ≤ bound := by
  induction pairs generalizing table with
  | nil => simpa using h
  | cons k ks ih =>
    rw [List.foldl_cons]
    exact ih _ (overwritePair_count_le maxRows rows table k q bound hmax h)

theorem saveQueryResultRows_none (table : QueryResults) (rows : List ScheduledQueryResultRow) :
    SaveQueryResultRows none table rows = .ok (table ++ rows) := by
  cases rows with
  | nil => simp [SaveQueryResultRows]
  | cons r rs =>
    simp only [SaveQueryResultRows, insertQueryResults_rows]
    simp

theorem saveQueryResultRows_some (e : StorageError) (table : QueryResults)
    (rows : List ScheduledQueryResultRow) :
    SaveQueryResultRows (some e) table rows = .ok table ∨
      SaveQueryResultRows (some e) table rows = .error e := by
  cases rows with
  | nil => simp [SaveQueryResultRows]
  | cons r rs => simp [SaveQueryResultRows]

theorem ingestCall_count_le (maxRows : Nat) (table : QueryResults) (c : IngestCall)
    (q bound : Nat) (hmax : maxRows ≤ bound) (h : ResultCountForQuery table q ≤ bound) :
    ResultCountForQuery (c.apply maxRows table) q ≤ bound + savedPayloadRows q [c] := by
  cases c with
  | save execErr rows =>
    cases execErr with
    | some e =>
      have : (IngestCall.save (some e) rows).apply maxRows table = table := by
        rcases saveQueryResultRows_some e table rows with h1 | h1 <;>
          simp [IngestCall.apply, h1]
      rw [this]
      omega
    | none =>
      have : (IngestCall.save none rows).apply maxRows table = table ++ rows := by
        simp [IngestCall.apply, saveQueryResultRows_none]
      rw [this, resultCountForQuery_append]
      simp only [savedPayloadRows, payloadRowsFor]
      simp only [ResultCountForQuery] at h ⊢
      omega
  | overwrite txErr rows =>
    cases txErr with
    | some e => simpa [IngestCall.apply, OverwriteQueryResultRows, savedPayloadRows] using h
    | none =>
      simp only [IngestCall.apply, OverwriteQueryResultRows, savedPayloadRows]
      exact Nat.le_trans (overwritePairs_count_le maxRows rows _ table q bound hmax h)
        (Nat.le_add_right _ _)

theorem savedPayloadRows_cons (q : Nat) (c : IngestCall) (cs : List IngestCall) :
    savedPayloadRows q (c :: cs) = savedPayloadRows q [c] + savedPayloadRows q cs := by
  cases c with
  | save execErr rows => cases execErr <;> simp [savedPayloadRows]
  | overwrite txErr rows => simp [savedPayloadRows]

theorem runCalls_count_le (maxRows : Nat) (calls : List IngestCall) (table : QueryResults)
    (q bound : Nat) (hmax : maxRows ≤ bound) (h : ResultCountForQuery table q ≤ bound) :
    ResultCountForQuery (runCalls maxRows table calls) q ≤ bound + savedPayloadRows q calls := by
  induction calls generalizing table bound with
  | nil => simpa [runCalls, savedPayloadRows] using h
  | cons c cs ih =>
    have h1 := ingestCall_count_le maxRows table c q bound hmax h
    have h2 := ih (c.apply maxRows table) (bound + savedPayloadRows q [c]) (by omega) h1
    rw [savedPayloadRows_cons]
    simp only [runCalls, List.foldl_cons] at h2 ⊢
    omega

/-- C1 (as amended): after any finite sequence of Save and Overwrite calls started
from the empty table, the number of payload-bearing rows stored for a query is at
most `maxRows` plus the number of payload-bearing rows of that query stored by the
Save calls of the sequence; Save appends its rows without asking the Governor. -/
theorem C1_count_le_maxRows_plus_saved (maxRows : Nat) (calls : List IngestCall) (q : Nat) :
    ResultCountForQuery (runCalls maxRows [] calls) q ≤ maxRows + savedPayloadRows q calls :=
  runCalls_count_le maxRows calls [] q maxRows (Nat.le_refl _) (by simp [ResultCountForQuery])

/-- C1 (counterexample): with `maxRows = 2`, one Save of three payload-bearing rows
of query 1 into the empty table leaves three payload-bearing rows for query 1. -/
theorem C1_save_exceeds_maxRows :
    ResultCountForQuery
      (runCalls 2 [] [.save none [⟨1, 1, 0, some "a"⟩, ⟨1, 1, 0, some "b"⟩, ⟨1, 1, 0, some "c"⟩]]) 1
      = 3 ∧ ¬ (3 ≤ 2) := by
  decide

end Fleet

namespace Fleet

theorem touchedPairs_single (k : Nat × Nat) (rows : List ScheduledQueryResultRow)
    (h : ∀ r ∈ rows, rowPair r = k) : touchedPairs [k] rows = [k] := by
  induction rows with
  | nil => rfl
  | cons r rs ih =>
    have hr : rowPair r = k := h r (List.mem_cons_self _ _)
    simp only [touchedPairs, hr, List.mem_singleton, if_true]
    exact ih (fun x hx => h x (List.mem_cons_of_mem _ hx))

theorem touchedPairs_of_same_pair (k : Nat × Nat) (rows : List ScheduledQueryResultRow)
    (hne : rows ≠ []) (h : ∀ r ∈ rows, rowPair r = k) : touchedPairs [] rows = [k] := by
  cases rows with
  | nil => exact absurd rfl hne
  | cons r rs =>
    have hr : rowPair r = k := h r (List.mem_cons_self _ _)
    simp only [touchedPairs, List.not_mem_nil, if_false, List.nil_append, hr]
    exact touchedPairs_single k rs (fun x hx => h x (List.mem_cons_of_mem _ hx))

theorem filter_same_pair (k : Nat × Nat) (rows : List ScheduledQueryResultRow)
    (h : ∀ r ∈ rows, rowPair r = k) : rows.filter (fun r => rowPair r == k) = rows := by
  rw [List.filter_eq_self]
  intro r hr
  simp [h r hr]

theorem admitRows_eq_self (budget : Nat) (rows : List ScheduledQueryResultRow)
    (h : rows.countP (fun r => r.Data.isSome) ≤ budget) : admitRows budget rows = rows := by
  induction rows generalizing budget with
  | nil => rfl
  | cons r rs ih =>
    rw [List.countP_cons] at h
    simp only [admitRows]
    by_cases hd : r.Data.isSome = true
    · simp only [hd, if_true] at h ⊢
      have hb : 0 < budget := by omega
      simp only [hb, if_true]
      rw [ih (budget - 1) (by omega)]
    · simp only [hd] at h ⊢
      simp only [Bool.false_eq_true, if_false] at h ⊢
      rw [ih budget (by omega)]

theorem admitRows_zero_of_payload (rows : List ScheduledQueryResultRow)
    (h : ∀ r ∈ rows, r.Data.isSome = true) : admitRows 0 rows = [] := by
  induction rows with
  | nil => rfl
  | cons r rs ih =>
    have hr := h r (List.mem_cons_self _ _)
    simp only [admitRows, hr, if_true, Nat.lt_irrefl, if_false]
    exact ih (fun x hx => h x (List.mem_cons_of_mem _ hx))

theorem rowsForHost_overwritePair (maxRows : Nat) (rows : List ScheduledQueryResultRow)
    (table : QueryResults) (q h : Nat) (hrows : ∀ r ∈ rows, rowPair r = (q, h)) :
    QueryResultRowsForHost (overwritePair maxRows rows table (q, h)) q h
      = admitRows (maxRows - (ResultCountForQuery table q - ResultCountForQueryAndHost table q h))
          rows := by
  unfold overwritePair QueryResultRowsForHost
  rw [filter_same_pair (q, h) rows hrows, List.filter_append, List.filter_filter]
  have h1 : table.filter (fun r => (r.QueryID == q && r.HostID == h) && !(rowPair r == (q, h)))
      = [] := by
    rw [List.filter_eq_nil_iff]
    intro r _
    simp only [rowPair, Bool.and_eq_true, beq_iff_eq, Bool.not_eq_true', beq_eq_false_iff_ne,
      ne_eq, Prod.mk.injEq, not_and, not_not]
    intro h1 h2
    exact h2 h1.1 h1.2
  rw [h1, List.nil_append, List.filter_eq_self]
  intro r hr
  have := hrows r ((admitRows_sublist _ rows).subset hr)
  simp only [rowPair, Prod.mk.injEq] at this
  simp [this.1, this.2]

end Fleet

namespace Fleet

/-- C9 (as amended): Overwrite of a non-empty list of rows of one (query, host)
pair, whose payload-bearing rows fit the capacity that the other hosts leave to the
query, followed by RowsForHost returns exactly the rows written, in the same
order, whatever rows the pair had before. -/
theorem C9_overwrite_then_rowsForHost (maxRows : Nat) (table : QueryResults) (q h : Nat)
    (rows : List ScheduledQueryResultRow) (hne : rows ≠ [])
    (hrows : ∀ r ∈ rows, r.QueryID = q ∧ r.HostID = h)
    (hfit : payloadRowsFor q rows
      ≤ maxRows - (ResultCountForQuery table q - ResultCountForQueryAndHost table q h)) :
    ∃ table', OverwriteQueryResultRows maxRows none table rows = .ok table' ∧
      QueryResultRowsForHost table' q h = rows := by
  have hpair : ∀ r ∈ rows, rowPair r = (q, h) := fun r hr => by
    simp [rowPair, (hrows r hr).1, (hrows r hr).2]
  refine ⟨_, rfl, ?_⟩
  rw [touchedPairs_of_same_pair (q, h) rows hne hpair]
  simp only [List.foldl_cons, List.foldl_nil]
  rw [rowsForHost_overwritePair maxRows rows table q h hpair]
  apply admitRows_eq_self
  have hc : rows.countP (fun r => r.Data.isSome) = payloadRowsFor q rows := by
    rw [payloadRowsFor, ← List.countP_eq_length_filter]
    apply List.countP_congr
    intro r hr
    simp [(hrows r hr).1]
  omega

/-- C9 (witness): the table holds one old row of the pair (1, 7) and a row of
another host; overwriting the pair with a placeholder and a payload row gives back
these two rows. -/
theorem C9_overwrite_then_rowsForHost_witness :
    ∃ table', OverwriteQueryResultRows 100 none
        [⟨1, 7, 5, some "old"⟩, ⟨1, 8, 5, some "other"⟩]
        [⟨1, 7, 9, none⟩, ⟨1, 7, 9, some "new"⟩] = .ok table' ∧
      QueryResultRowsForHost table' 1 7 = [⟨1, 7, 9, none⟩, ⟨1, 7, 9, some "new"⟩] :=
  C9_overwrite_then_rowsForHost 100 [⟨1, 7, 5, some "old"⟩, ⟨1, 8, 5, some "other"⟩] 1 7
    [⟨1, 7, 9, none⟩, ⟨1, 7, 9, some "new"⟩] (by decide) (by decide) (by decide)

/-- C9 (counterexample): with `maxRows = 2`, overwriting the pair (1, 7) of the
empty table with three payload-bearing rows stores the first two only, so
RowsForHost does not return the rows written. -/
theorem C9_overwrite_drops_rows_over_capacity :
    OverwriteQueryResultRows 2 none []
        [⟨1, 7, 9, some "a"⟩, ⟨1, 7, 9, some "b"⟩, ⟨1, 7, 9, some "c"⟩]
      = .ok [⟨1, 7, 9, some "a"⟩, ⟨1, 7, 9, some "b"⟩] ∧
    QueryResultRowsForHost [⟨1, 7, 9, some "a"⟩, ⟨1, 7, 9, some "b"⟩] 1 7
      ≠ [⟨1, 7, 9, some "a"⟩, ⟨1, 7, 9, some "b"⟩, ⟨1, 7, 9, some "c"⟩] := by
  constructor
  · rfl
  · decide

/-- C10 (as amended): when the query holds exactly `maxRows` payload-bearing rows,
an Overwrite of payload-bearing rows of the pair (query, host), for a host without
rows for the query, returns no error, leaves RowsForHost of the pair empty and
leaves the table as it was. -/
theorem C10_overwrite_at_maxRows (maxRows : Nat) (table : QueryResults) (q h : Nat)
    (rows : List ScheduledQueryResultRow)
    (hfull : ResultCountForQuery table q = maxRows)
    (hrows : ∀ r ∈ rows, r.QueryID = q ∧ r.HostID = h ∧ r.Data.isSome = true)
    (hnew : QueryResultRowsForHost table q h = []) :
    ∃ table', OverwriteQueryResultRows maxRows none table rows = .ok table' ∧
      QueryResultRowsForHost table' q h = [] ∧ table' = table := by
  have hpair : ∀ r ∈ rows, rowPair r = (q, h) := fun r hr => by
    simp [rowPair, (hrows r hr).1, (hrows r hr).2.1]
  have key : (touchedPairs [] rows).foldl (overwritePair maxRows rows) table = table := by
    by_cases hne : rows = []
    · subst hne; rfl
    · rw [touchedPairs_of_same_pair (q, h) rows hne hpair]
      simp only [List.foldl_cons, List.foldl_nil]
      have hnone : ∀ r ∈ table, ¬ (r.QueryID = q ∧ r.HostID = h) := by
        intro r hr
        have := (List.filter_eq_nil_iff.mp hnew) r hr
        simpa using this
      have hqh : ResultCountForQueryAndHost table q h = 0 := by
        rw [resultCountForQueryAndHost_eq_countP, List.countP_eq_zero]
        intro r hr
        have := hnone r hr
        simp only [Bool.and_eq_true, beq_iff_eq, not_and] at this ⊢
        intro h1 _
        exact this h1.1 h1.2
      unfold overwritePair
      simp only [hqh, hfull, Nat.sub_zero, Nat.sub_self]
      rw [filter_same_pair (q, h) rows hpair,
        admitRows_zero_of_payload rows (fun r hr => (hrows r hr).2.2), List.append_nil,
        List.filter_eq_self]
      intro r hr
      have := hnone r hr
      simpa [rowPair] using this
  refine ⟨table, ?_, hnew, rfl⟩
  simp only [OverwriteQueryResultRows, key]

set_option maxRecDepth 100000 in
/-- C10 (witness): `maxRows = 100`; 99 payload rows for host 1, a placeholder for
host 2 and a payload row for host 3 give query 1 the count 100; one more payload
row, for host 4, leaves the count at 100 and RowsForHost of (1, 4) empty. -/
theorem C10_overwrite_at_maxRows_witness :
    ResultCountForQuery
      (runCalls 100 [] [.overwrite none (List.replicate 99 ⟨1, 1, 0, some "x"⟩),
        .overwrite none [⟨1, 2, 0, none⟩], .overwrite none [⟨1, 3, 0, some "x"⟩]]) 1 = 100 ∧
    ∃ table', OverwriteQueryResultRows 100 none
        (runCalls 100 [] [.overwrite none (List.replicate 99 ⟨1, 1, 0, some "x"⟩),
          .overwrite none [⟨1, 2, 0, none⟩], .overwrite none [⟨1, 3, 0, some "x"⟩]])
        [⟨1, 4, 0, some "x"⟩] = .ok table' ∧
      QueryResultRowsForHost table' 1 4 = [] ∧
      table' = runCalls 100 [] [.overwrite none (List.replicate 99 ⟨1, 1, 0, some "x"⟩),
        .overwrite none [⟨1, 2, 0, none⟩], .overwrite none [⟨1, 3, 0, some "x"⟩]] :=
  ⟨by decide,
   C10_overwrite_at_maxRows 100 _ 1 4 [⟨1, 4, 0, some "x"⟩] (by decide) (by decide) (by decide)⟩

/-- C10 (counterexample): with `maxRows = 2` and two payload-bearing rows stored for
query 1, a Save of a payload-bearing row for host 4, which has no rows, returns no
error and stores the row: RowsForHost of (1, 4) is not empty and the count is 3. -/
theorem C10_save_at_maxRows_adds_row :
    ResultCountForQuery [⟨1, 1, 0, some "a"⟩, ⟨1, 1, 0, some "b"⟩] 1 = 2 ∧
    QueryResultRowsForHost [⟨1, 1, 0, some "a"⟩, ⟨1, 1, 0, some "b"⟩] 1 4 = [] ∧
    SaveQueryResultRows none [⟨1, 1, 0, some "a"⟩, ⟨1, 1, 0, some "b"⟩] [⟨1, 4, 0, some "d"⟩]
      = .ok [⟨1, 1, 0, some "a"⟩, ⟨1, 1, 0, some "b"⟩, ⟨1, 4, 0, some "d"⟩] ∧
    QueryResultRowsForHost
      [⟨1, 1, 0, some "a"⟩, ⟨1, 1, 0, some "b"⟩, ⟨1, 4, 0, some "d"⟩] 1 4
      = [⟨1, 4, 0, some "d"⟩] ∧
    ResultCountForQuery
      [⟨1, 1, 0, some "a"⟩, ⟨1, 1, 0, some "b"⟩, ⟨1, 4, 0, some "d"⟩] 1 = 3 := by
  refine ⟨by decide, by decide, rfl, by decide, by decide⟩

end Fleet

/-! ## Lemmas on `RecordLabelQueryExecutions` -/

namespace Fleet

theorem collectResults_foldl (host : Host) (results : ResultsMap) (updated : Nat)
    (ids : List Nat) (acc : List (Nat × Nat × Nat) × List Nat) :
    ids.foldl
        (fun acc labelID =>
          match results.index labelID with
          | some true => (acc.1 ++ [(updated, labelID, host.ID)], acc.2)
          | _ => (acc.1, acc.2 ++ [labelID]))
        acc
      = (acc.1 ++ (ids.filter (fun g => results.index g == some true)).map
            (fun g => (updated, g, host.ID)),
         acc.2 ++ ids.filter (fun g => !(results.index g == some true))) := by
  induction ids generalizing acc with
  | nil => simp
  | cons g gs ih =>
    rw [List.foldl_cons, ih]
    rcases hg : results.index g with _ | _ | _ <;> simp [hg, List.filter_cons]

theorem collectResults_eq (host : Host) (results : ResultsMap) (updated : Nat)
    (ids : List Nat) :
    collectResults host results updated ids
      = ((ids.filter (fun g => results.index g == some true)).map
            (fun g => (updated, g, host.ID)),
         ids.filter (fun g => !(results.index g == some true))) := by
  unfold collectResults
  rw [collectResults_foldl]
  simp

theorem insertVals_eq (host : Host) (results : ResultsMap) (updated : Nat) :
    insertVals host results updated
      = ((sortSlice results.keys).filter (fun g => results.index g == some true)).map
          (fun g => (updated, g, host.ID)) := by
  simp [insertVals, collectResults_eq]

theorem insertIDs_eq (host : Host) (results : ResultsMap) (updated : Nat) :
    insertIDs host results updated
      = (sortSlice results.keys).filter (fun g => results.index g == some true) := by
  rw [insertIDs, insertVals_eq, List.map_map]
  exact List.map_id _

theorem deleteIDs_eq (host : Host) (results : ResultsMap) (updated : Nat) :
    deleteIDs host results updated
      = (sortSlice results.keys).filter (fun g => !(results.index g == some true)) := by
  simp [deleteIDs, collectResults_eq]

theorem sortSlice_perm (ids : List Nat) : (sortSlice ids).Perm ids :=
  List.perm_insertionSort _ ids

theorem sortSlice_sorted_lt (ids : List Nat) (h : ids.Nodup) :
    (sortSlice ids).Sorted (fun a b => a < b) :=
  (List.sorted_insertionSort (fun a b : Nat => a ≤ b) ids).lt_of_le
    ((sortSlice_perm ids).nodup_iff.mpr h)

theorem mem_sortSlice (ids : List Nat) (g : Nat) : g ∈ sortSlice ids ↔ g ∈ ids :=
  (sortSlice_perm ids).mem_iff

theorem sortSlice_eq_of_perm (a b : List Nat) (h : a.Perm b) : sortSlice a = sortSlice b :=
  List.eq_of_perm_of_sorted (r := fun x y : Nat => x ≤ y)
    (((sortSlice_perm a).trans h).trans (sortSlice_perm b).symm)
    (List.sorted_insertionSort _ a) (List.sorted_insertionSort _ b)

theorem lookup_eq_some_iff_mem (l : List (Nat × Option Bool)) (hl : (l.map Prod.fst).Nodup)
    (k : Nat) (v : Option Bool) : l.lookup k = some v ↔ (k, v) ∈ l := by
  induction l with
  | nil => simp
  | cons p ps ih =>
    obtain ⟨k', v'⟩ := p
    rw [List.map_cons, List.nodup_cons] at hl
    rw [List.lookup_cons]
    by_cases hk : k = k'
    · subst hk
      simp only [beq_self_eq_true, Option.some.injEq, List.mem_cons, Prod.mk.injEq, true_and]
      constructor
      · intro h; exact Or.inl h.symm
      · rintro (h | h)
        · exact h.symm
        · exact absurd (List.mem_map_of_mem Prod.fst h) hl.1
    · have hb : (k == k') = false := by simpa using hk
      simp only [hb, List.mem_cons, Prod.mk.injEq, hk, false_and, false_or]
      exact ih hl.2

theorem index_eq_some_iff (results : ResultsMap) (g : Nat) (b : Bool) :
    results.index g = some b ↔ (g, some b) ∈ results.entries := by
  unfold ResultsMap.index
  rw [← lookup_eq_some_iff_mem results.entries results.nodup]
  cases h : results.entries.lookup g with
  | none => simp
  | some v => simp

theorem mem_keys_of_index (results : ResultsMap) (g : Nat) (b : Bool)
    (h : results.index g = some b) : g ∈ results.keys :=
  List.mem_map_of_mem Prod.fst ((index_eq_some_iff results g b).mp h)

theorem index_eq_of_perm (results results' : ResultsMap)
    (h : results.entries.Perm results'.entries) (g : Nat) :
    results.index g = results'.index g := by
  cases hb : results'.index g with
  | some b =>
    exact (index_eq_some_iff results g b).mpr
      (h.mem_iff.mpr ((index_eq_some_iff results' g b).mp hb))
  | none =>
    cases ha : results.index g with
    | none => rfl
    | some b =>
      have := (index_eq_some_iff results' g b).mpr
        (h.mem_iff.mp ((index_eq_some_iff results g b).mp ha))
      rw [hb] at this
      exact this.symm

theorem collectResults_eq_of_perm (host : Host) (results results' : ResultsMap) (updated : Nat)
    (h : results.entries.Perm results'.entries) :
    collectResults host results updated (sortSlice results.keys)
      = collectResults host results' updated (sortSlice results'.keys) := by
  have hk : sortSlice results.keys = sortSlice results'.keys :=
    sortSlice_eq_of_perm _ _ (h.map Prod.fst)
  have hi : results.index = results'.index := funext (index_eq_of_perm results results' h)
  rw [collectResults_eq, collectResults_eq, hk, hi]

theorem index_ne_some_true_iff (results : ResultsMap) (g : Nat) :
    ¬ results.index g = some true ↔ (results.index g = none ∨ results.index g = some false) := by
  rcases results.index g with _ | _ | _ <;> simp

theorem mem_insertIDs_iff (host : Host) (results : ResultsMap) (updated : Nat) (g : Nat) :
    g ∈ insertIDs host results updated ↔ results.index g = some true := by
  rw [insertIDs_eq, List.mem_filter, mem_sortSlice]
  simp only [beq_iff_eq]
  exact ⟨fun h => h.2, fun h => ⟨mem_keys_of_index results g true h, h⟩⟩

theorem mem_deleteIDs_iff (host : Host) (results : ResultsMap) (updated : Nat) (g : Nat) :
    g ∈ deleteIDs host results updated ↔
      g ∈ results.keys ∧ (results.index g = none ∨ results.index g = some false) := by
  rw [deleteIDs_eq, List.mem_filter, mem_sortSlice, ← index_ne_some_true_iff]
  simp

theorem mem_insertVals_iff (host : Host) (results : ResultsMap) (updated : Nat)
    (v : Nat × Nat × Nat) :
    v ∈ insertVals host results updated ↔
      v.1 = updated ∧ results.index v.2.1 = some true ∧ v.2.2 = host.ID := by
  obtain ⟨u, g, h⟩ := v
  constructor
  · intro hv
    have hg : g ∈ insertIDs host results updated := List.mem_map_of_mem (fun v => v.2.1) hv
    rw [insertVals_eq, List.mem_map] at hv
    obtain ⟨g', _, hg'⟩ := hv
    simp only [Prod.mk.injEq] at hg'
    exact ⟨hg'.1.symm, (mem_insertIDs_iff host results updated g).mp hg, hg'.2.2.symm⟩
  · rintro ⟨h1, h2, h3⟩
    simp only at h1 h2 h3
    have hg := (mem_insertIDs_iff host results updated g).mpr h2
    rw [insertIDs_eq] at hg
    rw [insertVals_eq, h1, h3]
    exact List.mem_map_of_mem (fun g => (updated, g, host.ID)) hg

theorem insertVals_ne_nil_iff (host : Host) (results : ResultsMap) (updated : Nat) :
    insertVals host results updated ≠ [] ↔ ∃ g, results.index g = some true := by
  constructor
  · intro h
    obtain ⟨v, hv⟩ := List.exists_mem_of_ne_nil _ h
    exact ⟨v.2.1, ((mem_insertVals_iff host results updated v).mp hv).2.1⟩
  · rintro ⟨g, hg⟩ h
    have := (mem_insertVals_iff host results updated (updated, g, host.ID)).mpr ⟨rfl, hg, rfl⟩
    rw [h] at this
    exact List.not_mem_nil _ this

theorem deleteIDs_ne_nil_iff (host : Host) (results : ResultsMap) (updated : Nat) :
    deleteIDs host results updated ≠ [] ↔
      ∃ g ∈ results.keys, results.index g = none ∨ results.index g = some false := by
  constructor
  · intro h
    obtain ⟨g, hg⟩ := List.exists_mem_of_ne_nil _ h
    exact ⟨g, (mem_deleteIDs_iff host results updated g).mp hg⟩
  · rintro ⟨g, hg⟩ h
    have := (mem_deleteIDs_iff host results updated g).mpr hg
    rw [h] at this
    exact List.not_mem_nil _ this

/-- C3: a label id is bound in the insert iff `results[g]` is non-nil and true, and
in the delete iff it is a key of the map whose value is nil or false; a key of the
map occurs exactly once in the two lists together, and an id that is not a key
occurs in neither. -/
theorem C3_partition (host : Host) (results : ResultsMap) (updated : Nat) (g : Nat) :
    (g ∈ insertIDs host results updated ↔ results.index g = some true) ∧
    (g ∈ deleteIDs host results updated ↔
      g ∈ results.keys ∧ (results.index g = none ∨ results.index g = some false)) ∧
    (insertIDs host results updated ++ deleteIDs host results updated).count g
      = (if g ∈ results.keys then 1 else 0) := by
  have hnd : (sortSlice results.keys).Nodup :=
    (sortSlice_perm results.keys).nodup_iff.mpr results.nodup
  refine ⟨mem_insertIDs_iff host results updated g, mem_deleteIDs_iff host results updated g, ?_⟩
  rw [insertIDs_eq, deleteIDs_eq,
    (List.filter_append_perm (fun g => results.index g == some true)
      (sortSlice results.keys)).count_eq g]
  by_cases hg : g ∈ results.keys
  · rw [if_pos hg]
    exact List.count_eq_one_of_mem hnd ((mem_sortSlice _ g).mpr hg)
  · rw [if_neg hg, List.count_eq_zero]
    exact fun h => hg ((mem_sortSlice _ g).mp h)

end Fleet

namespace Fleet

theorem run_upsert_nil (db : DB) : Stmt.run db (.upsertMembership []) = db := by
  cases db; rfl

theorem run_delete_nil (db : DB) (hostID : Nat) : Stmt.run db (.deleteMembership hostID []) = db := by
  cases db
  simp [Stmt.run]

/-- The outcome of the transaction of `RecordLabelQueryExecutions` in closed form,
by the first statement that fails. -/
theorem recordTx_outcome (faults : Stmt → Bool) (db : DB) (host : Host)
    (vals : List (Nat × Nat × Nat)) (removes : List Nat) :
    withRetryTxx db (recordLabelQueryExecutionsTx faults host vals removes) =
      if vals ≠ [] ∧ faults (.upsertMembership vals) = true then
        { db := db, log := [.upsertMembership vals], err := some .insertLabelQueryExecutions }
      else if removes ≠ [] ∧ faults (.deleteMembership host.ID removes) = true then
        { db := db
          log := (if vals = [] then [] else [.upsertMembership vals])
            ++ [.deleteMembership host.ID removes]
          err := some .deleteLabelQueryExecutions }
      else if faults (.updateHostLabelUpdatedAt host.LabelUpdatedAt host.ID) = true then
        { db := db
          log := (if vals = [] then [] else [.upsertMembership vals])
            ++ (if removes = [] then [] else [.deleteMembership host.ID removes])
            ++ [.updateHostLabelUpdatedAt host.LabelUpdatedAt host.ID]
          err := some .updatingHostsLabelUpdatedAt }
      else
        { db := Stmt.run (Stmt.run (Stmt.run db (.upsertMembership vals))
            (.deleteMembership host.ID removes))
            (.updateHostLabelUpdatedAt host.LabelUpdatedAt host.ID)
          log := (if vals = [] then [] else [.upsertMembership vals])
            ++ (if removes = [] then [] else [.deleteMembership host.ID removes])
            ++ [.updateHostLabelUpdatedAt host.LabelUpdatedAt host.ID]
          err := none } := by
  cases hU : faults (.updateHostLabelUpdatedAt host.LabelUpdatedAt host.ID) <;>
  cases vals with
  | nil =>
    cases removes with
    | nil =>
      simp [withRetryTxx, recordLabelQueryExecutionsTx, Tx.ExecContext, hU, run_upsert_nil,
        run_delete_nil]
    | cons r rs =>
      cases hD : faults (.deleteMembership host.ID (r :: rs)) <;>
        simp [withRetryTxx, recordLabelQueryExecutionsTx, Tx.ExecContext, hU, hD, run_upsert_nil]
  | cons v vs =>
    cases hI : faults (.upsertMembership (v :: vs)) <;>
    cases removes with
    | nil =>
      simp [withRetryTxx, recordLabelQueryExecutionsTx, Tx.ExecContext, hU, hI, run_delete_nil]
    | cons r rs =>
      cases hD : faults (.deleteMembership host.ID (r :: rs)) <;>
        simp [withRetryTxx, recordLabelQueryExecutionsTx, Tx.ExecContext, hU, hI, hD]

theorem record_outcome (faults : Stmt → Bool) (db : DB) (host : Host) (results : ResultsMap)
    (updated : Nat) :
    RecordLabelQueryExecutions faults db host results updated
      = withRetryTxx db (recordLabelQueryExecutionsTx faults host
          (insertVals host results updated) (deleteIDs host results updated)) := rfl

end Fleet

namespace Fleet

/-- C6: a successful call sends, in this order, the membership insert when there is
a value to insert, the membership delete when there is an id to remove, and the
update of the host's `label_updated_at`; the update is the last statement and the
only one of its kind. -/
theorem C6_statement_order (faults : Stmt → Bool) (db : DB) (host : Host)
    (results : ResultsMap) (updated : Nat)
    (hok : (RecordLabelQueryExecutions faults db host results updated).err = none) :
    (RecordLabelQueryExecutions faults db host results updated).log
      = (if insertVals host results updated = [] then []
          else [.upsertMembership (insertVals host results updated)])
        ++ (if deleteIDs host results updated = [] then []
          else [.deleteMembership host.ID (deleteIDs host results updated)])
        ++ [.updateHostLabelUpdatedAt host.LabelUpdatedAt host.ID] ∧
    ((RecordLabelQueryExecutions faults db host results updated).log.filter
      Stmt.isUpsert).length ≤ 1 ∧
    ((RecordLabelQueryExecutions faults db host results updated).log.filter
      Stmt.isDelete).length ≤ 1 ∧
    ((RecordLabelQueryExecutions faults db host results updated).log.filter
      Stmt.isHostUpdate).length = 1 := by
  rw [record_outcome, recordTx_outcome] at hok ⊢
  split_ifs at hok ⊢ <;> simp_all [Stmt.isUpsert, Stmt.isDelete, Stmt.isHostUpdate]

/-- C6 (witness): host 7 with 3 ↦ false, 1 ↦ true, 2 ↦ true and no failing
statement: the insert, then the delete, then the host update. -/
theorem C6_statement_order_witness :
    (RecordLabelQueryExecutions (fun _ => false) ⟨[], [⟨7, "h", 0⟩], []⟩ ⟨7, "", "", 50⟩
      ⟨[(3, some false), (1, some true), (2, some true)], by decide⟩ 10).log
      = [.upsertMembership [(10, 1, 7), (10, 2, 7)], .deleteMembership 7 [3],
          .updateHostLabelUpdatedAt 50 7] ∧
    (RecordLabelQueryExecutions (fun _ => false) ⟨[], [⟨7, "h", 0⟩], []⟩ ⟨7, "", "", 50⟩
      ⟨[(3, some false), (1, some true), (2, some true)], by decide⟩ 10).log
      = (if insertVals ⟨7, "", "", 50⟩
            ⟨[(3, some false), (1, some true), (2, some true)], by decide⟩ 10 = [] then []
          else [.upsertMembership (insertVals ⟨7, "", "", 50⟩
            ⟨[(3, some false), (1, some true), (2, some true)], by decide⟩ 10)])
        ++ (if deleteIDs ⟨7, "", "", 50⟩
            ⟨[(3, some false), (1, some true), (2, some true)], by decide⟩ 10 = [] then []
          else [.deleteMembership 7 (deleteIDs ⟨7, "", "", 50⟩
            ⟨[(3, some false), (1, some true), (2, some true)], by decide⟩ 10)])
        ++ [.updateHostLabelUpdatedAt 50 7] :=
  ⟨by decide,
   (C6_statement_order (fun _ => false) ⟨[], [⟨7, "h", 0⟩], []⟩ ⟨7, "", "", 50⟩
      ⟨[(3, some false), (1, some true), (2, some true)], by decide⟩ 10 (by decide)).1⟩

/-- C7 (as amended): the membership insert is sent iff some label of the map matched
true; the membership delete is sent iff some label of the map is false or unknown
and the call did not stop at a failed insert; for an empty map the only statement
sent is the update of the host's `label_updated_at`. -/
theorem C7_statements_sent (faults : Stmt → Bool) (db : DB) (host : Host)
    (results : ResultsMap) (updated : Nat) :
    ((RecordLabelQueryExecutions faults db host results updated).log.any Stmt.isUpsert = true
      ↔ ∃ g, results.index g = some true) ∧
    ((RecordLabelQueryExecutions faults db host results updated).log.any Stmt.isDelete = true
      ↔ (∃ g ∈ results.keys, results.index g = none ∨ results.index g = some false) ∧
        (RecordLabelQueryExecutions faults db host results updated).err
          ≠ some .insertLabelQueryExecutions) ∧
    (results.entries = [] →
      (RecordLabelQueryExecutions faults db host results updated).log
        = [.updateHostLabelUpdatedAt host.LabelUpdatedAt host.ID]) := by
  have hI := insertVals_ne_nil_iff host results updated
  have hD := deleteIDs_ne_nil_iff host results updated
  refine ⟨?_, ?_, ?_⟩
  · rw [← hI, record_outcome, recordTx_outcome]
    split_ifs <;> simp_all [Stmt.isUpsert, Stmt.isDelete, Stmt.isHostUpdate]
  · rw [← hD, record_outcome, recordTx_outcome]
    split_ifs <;> simp_all [Stmt.isUpsert, Stmt.isDelete, Stmt.isHostUpdate]
  · intro hempty
    have hk : results.keys = [] := by simp [ResultsMap.keys, hempty]
    have hV : insertVals host results updated = [] := by
      rw [insertVals_eq, hk]; rfl
    have hR : deleteIDs host results updated = [] := by
      rw [deleteIDs_eq, hk]; rfl
    rw [record_outcome, recordTx_outcome, hV, hR]
    split_ifs <;> simp_all

/-- C7 (witness): the empty map sends the host update only. -/
theorem C7_statements_sent_witness :
    (RecordLabelQueryExecutions (fun _ => false) ⟨[], [⟨7, "h", 0⟩], [⟨3, 1, 7⟩]⟩ ⟨7, "", "", 50⟩
      ⟨[], by decide⟩ 10).log = [.updateHostLabelUpdatedAt 50 7] :=
  (C7_statements_sent (fun _ => false) ⟨[], [⟨7, "h", 0⟩], [⟨3, 1, 7⟩]⟩ ⟨7, "", "", 50⟩
    ⟨[], by decide⟩ 10).2.2 rfl

/-- C7 (counterexample): host 7 with 1 ↦ true, 2 ↦ false, the membership insert
failing: label 2 is false, yet the call stops at the insert and no delete is sent. -/
theorem C7_delete_not_sent_after_failed_insert :
    (ResultsMap.index ⟨[(1, some true), (2, some false)], by decide⟩ 2 = some false) ∧
    (RecordLabelQueryExecutions Stmt.isUpsert ⟨[], [⟨7, "h", 0⟩], [⟨3, 2, 7⟩]⟩ ⟨7, "", "", 50⟩
      ⟨[(1, some true), (2, some false)], by decide⟩ 10).log
      = [.upsertMembership [(10, 1, 7)]] ∧
    (RecordLabelQueryExecutions Stmt.isUpsert ⟨[], [⟨7, "h", 0⟩], [⟨3, 2, 7⟩]⟩ ⟨7, "", "", 50⟩
      ⟨[(1, some true), (2, some false)], by decide⟩ 10).log.any Stmt.isDelete = false ∧
    (RecordLabelQueryExecutions Stmt.isUpsert ⟨[], [⟨7, "h", 0⟩], [⟨3, 2, 7⟩]⟩ ⟨7, "", "", 50⟩
      ⟨[(1, some true), (2, some false)], by decide⟩ 10).err
      = some .insertLabelQueryExecutions := by
  decide

/-- C8: when the membership insert or the membership delete of a call fails, the
call returns an error, the update of the host's `label_updated_at` is not sent, and
the committed tables are those before the call. -/
theorem C8_failure_rolls_back (faults : Stmt → Bool) (db : DB) (host : Host)
    (results : ResultsMap) (updated : Nat)
    (hfail :
      (insertVals host results updated ≠ [] ∧
        faults (.upsertMembership (insertVals host results updated)) = true) ∨
      (deleteIDs host results updated ≠ [] ∧
        faults (.deleteMembership host.ID (deleteIDs host results updated)) = true)) :
    (RecordLabelQueryExecutions faults db host results updated).err ≠ none ∧
    (RecordLabelQueryExecutions faults db host results updated).log.any Stmt.isHostUpdate
      = false ∧
    (RecordLabelQueryExecutions faults db host results updated).db = db := by
  rw [record_outcome, recordTx_outcome]
  split_ifs <;> simp_all [Stmt.isUpsert, Stmt.isDelete, Stmt.isHostUpdate]

/-- C8 (witness): host 7 with 1 ↦ true, 2 ↦ false and a failing membership delete:
the insert of (1, 7) is rolled back with the rest. -/
theorem C8_failure_rolls_back_witness :
    (RecordLabelQueryExecutions Stmt.isDelete ⟨[], [⟨7, "h", 0⟩], [⟨3, 2, 7⟩]⟩ ⟨7, "", "", 50⟩
      ⟨[(1, some true), (2, some false)], by decide⟩ 10).err ≠ none ∧
    (RecordLabelQueryExecutions Stmt.isDelete ⟨[], [⟨7, "h", 0⟩], [⟨3, 2, 7⟩]⟩ ⟨7, "", "", 50⟩
      ⟨[(1, some true), (2, some false)], by decide⟩ 10).log.any Stmt.isHostUpdate = false ∧
    (RecordLabelQueryExecutions Stmt.isDelete ⟨[], [⟨7, "h", 0⟩], [⟨3, 2, 7⟩]⟩ ⟨7, "", "", 50⟩
      ⟨[(1, some true), (2, some false)], by decide⟩ 10).db
      = ⟨[], [⟨7, "h", 0⟩], [⟨3, 2, 7⟩]⟩ :=
  C8_failure_rolls_back Stmt.isDelete ⟨[], [⟨7, "h", 0⟩], [⟨3, 2, 7⟩]⟩ ⟨7, "", "", 50⟩
    ⟨[(1, some true), (2, some false)], by decide⟩ 10 (Or.inr (by decide))

end Fleet

/-! ## The membership table under the statements -/

namespace Fleet

theorem mem_pairs_upsertMembershipRow (t : List LabelMembershipRow) (v : Nat × Nat × Nat)
    (p : Nat × Nat) :
    p ∈ (upsertMembershipRow t v).map (fun r => (r.label_id, r.host_id)) ↔
      p ∈ t.map (fun r => (r.label_id, r.host_id)) ∨ p = (v.2.1, v.2.2) := by
  unfold upsertMembershipRow
  split
  · rename_i hany
    have hkeep : (t.map (fun r =>
        if r.label_id == v.2.1 && r.host_id == v.2.2 then { r with updated_at := v.1 } else r)).map
          (fun r => (r.label_id, r.host_id)) = t.map (fun r => (r.label_id, r.host_id)) := by
      rw [List.map_map]
      apply List.map_congr_left
      intro r _
      simp only [Function.comp]
      split <;> rfl
    rw [hkeep]
    constructor
    · exact Or.inl
    · rintro (h | h)
      · exact h
      · rw [List.any_eq_true] at hany
        obtain ⟨r, hr, hk⟩ := hany
        simp only [Bool.and_eq_true, beq_iff_eq] at hk
        rw [h, List.mem_map]
        exact ⟨r, hr, by rw [hk.1, hk.2]⟩
  · simp only [List.map_append, List.map_cons, List.map_nil, List.mem_append, List.mem_singleton]

theorem mem_pairs_upsert_foldl (vals : List (Nat × Nat × Nat)) (t : List LabelMembershipRow)
    (p : Nat × Nat) :
    p ∈ (vals.foldl upsertMembershipRow t).map (fun r => (r.label_id, r.host_id)) ↔
      p ∈ t.map (fun r => (r.label_id, r.host_id)) ∨ ∃ v ∈ vals, p = (v.2.1, v.2.2) := by
  induction vals generalizing t with
  | nil => simp
  | cons v vs ih =>
    rw [List.foldl_cons, ih, mem_pairs_upsertMembershipRow]
    simp only [List.mem_cons, exists_eq_or_imp]
    tauto

theorem mem_pairs_delete (t : List LabelMembershipRow) (hostID : Nat) (removes : List Nat)
    (p : Nat × Nat) :
    p ∈ (t.filter (fun r => !(r.host_id == hostID && removes.contains r.label_id))).map
        (fun r => (r.label_id, r.host_id)) ↔
      p ∈ t.map (fun r => (r.label_id, r.host_id)) ∧ ¬ (p.2 = hostID ∧ p.1 ∈ removes) := by
  simp only [List.mem_map, List.mem_filter, Bool.not_eq_true', Bool.and_eq_false_iff,
    beq_eq_false_iff_ne, ne_eq, List.contains_eq_any_beq, List.any_eq_false, beq_iff_eq]
  constructor
  · rintro ⟨r, ⟨hr, hcond⟩, rfl⟩
    refine ⟨⟨r, hr, rfl⟩, ?_⟩
    rintro ⟨h1, h2⟩
    rcases hcond with hc | hc
    · exact hc h1
    · exact hc _ h2 rfl
  · rintro ⟨⟨r, hr, rfl⟩, hn⟩
    refine ⟨r, ⟨hr, ?_⟩, rfl⟩
    by_cases h1 : r.host_id = hostID
    · right
      intro x hx hxe
      exact hn ⟨h1, hxe ▸ hx⟩
    · exact Or.inl h1

theorem record_success_db (faults : Stmt → Bool) (db : DB) (host : Host) (results : ResultsMap)
    (updated : Nat)
    (hok : (RecordLabelQueryExecutions faults db host results updated).err = none) :
    (RecordLabelQueryExecutions faults db host results updated).db
      = Stmt.run (Stmt.run (Stmt.run db (.upsertMembership (insertVals host results updated)))
          (.deleteMembership host.ID (deleteIDs host results updated)))
          (.updateHostLabelUpdatedAt host.LabelUpdatedAt host.ID) := by
  rw [record_outcome, recordTx_outcome] at hok ⊢
  split_ifs at hok ⊢ <;> simp_all

theorem mem_pairs_record_success (faults : Stmt → Bool) (db : DB) (host : Host)
    (results : ResultsMap) (updated : Nat)
    (hok : (RecordLabelQueryExecutions faults db host results updated).err = none)
    (g h : Nat) :
    (g, h) ∈ membershipPairs (RecordLabelQueryExecutions faults db host results updated).db ↔
      ((g, h) ∈ membershipPairs db ∨ (h = host.ID ∧ results.index g = some true)) ∧
        ¬ (h = host.ID ∧ g ∈ deleteIDs host results updated) := by
  rw [record_success_db faults db host results updated hok]
  simp only [membershipPairs, Stmt.run]
  rw [mem_pairs_delete, mem_pairs_upsert_foldl]
  have hex : (∃ v ∈ insertVals host results updated, (g, h) = (v.2.1, v.2.2)) ↔
      (h = host.ID ∧ results.index g = some true) := by
    constructor
    · rintro ⟨v, hv, he⟩
      have := (mem_insertVals_iff host results updated v).mp hv
      simp only [Prod.mk.injEq] at he
      rw [he.1, he.2]
      exact ⟨this.2.2, this.2.1⟩
    · rintro ⟨h1, h2⟩
      exact ⟨(updated, g, host.ID),
        (mem_insertVals_iff host results updated _).mpr ⟨rfl, h2, rfl⟩, by rw [h1]⟩
  rw [hex]

/-- C4: after a successful call for host H, for a label g of the map the pair (g, H)
is in `label_membership` iff `results[g]` is true; for a label that is not in the map
the presence of (g, H) is unchanged; and the pairs of every other host are
unchanged. -/
theorem C4_membership_after_record (faults : Stmt → Bool) (db : DB) (host : Host)
    (results : ResultsMap) (updated : Nat)
    (hok : (RecordLabelQueryExecutions faults db host results updated).err = none) :
    (∀ g ∈ results.keys,
      (g, host.ID) ∈ membershipPairs (RecordLabelQueryExecutions faults db host results updated).db
        ↔ results.index g = some true) ∧
    (∀ g, g ∉ results.keys →
      ((g, host.ID) ∈ membershipPairs (RecordLabelQueryExecutions faults db host results updated).db
        ↔ (g, host.ID) ∈ membershipPairs db)) ∧
    (∀ g h, h ≠ host.ID →
      ((g, h) ∈ membershipPairs (RecordLabelQueryExecutions faults db host results updated).db
        ↔ (g, h) ∈ membershipPairs db)) := by
  refine ⟨?_, ?_, ?_⟩
  · intro g hg
    rw [mem_pairs_record_success faults db host results updated hok, mem_deleteIDs_iff,
      ← index_ne_some_true_iff]
    by_cases ht : results.index g = some true <;> simp [ht, hg]
  · intro g hg
    rw [mem_pairs_record_success faults db host results updated hok, mem_deleteIDs_iff]
    have hn : ¬ results.index g = some true := fun h => hg (mem_keys_of_index results g true h)
    simp [hn, hg]
  · intro g h hh
    rw [mem_pairs_record_success faults db host results updated hok]
    simp [hh]

/-- C4 (witness): the scenario of spec 8.  Host 7 with `{1:true, 2:true, 3:false}`
gives the pairs (1, 7) and (2, 7); then `{1:false, 2:true, 4:true}` gives (2, 7) and
(4, 7). -/
theorem C4_membership_after_record_witness :
    membershipPairs
      (RecordLabelQueryExecutions (fun _ => false) scenarioDB (scenarioHost 10)
        scenarioResults1 10).db = [(1, 7), (2, 7)] ∧
    membershipPairs
      (RecordLabelQueryExecutions (fun _ => false)
        (RecordLabelQueryExecutions (fun _ => false) scenarioDB (scenarioHost 10)
          scenarioResults1 10).db
        (scenarioHost 20) scenarioResults2 20).db = [(2, 7), (4, 7)] ∧
    (∀ g ∈ scenarioResults2.keys,
      (g, (scenarioHost 20).ID) ∈ membershipPairs
        (RecordLabelQueryExecutions (fun _ => false)
          (RecordLabelQueryExecutions (fun _ => false) scenarioDB (scenarioHost 10)
            scenarioResults1 10).db
          (scenarioHost 20) scenarioResults2 20).db
        ↔ scenarioResults2.index g = some true) :=
  ⟨by decide, by decide,
   (C4_membership_after_record (fun _ => false)
      (RecordLabelQueryExecutions (fun _ => false) scenarioDB (scenarioHost 10)
        scenarioResults1 10).db
      (scenarioHost 20) scenarioResults2 20 (by decide)).1⟩

end Fleet

/-! ## Repeating a call -/

namespace Fleet

theorem upsertMembershipRow_fixed (t : List LabelMembershipRow) (v : Nat × Nat × Nat)
    (hex : ∃ r ∈ t, r.label_id = v.2.1 ∧ r.host_id = v.2.2)
    (hts : ∀ r ∈ t, r.label_id = v.2.1 → r.host_id = v.2.2 → r.updated_at = v.1) :
    upsertMembershipRow t v = t := by
  unfold upsertMembershipRow
  have hany : t.any (fun r => r.label_id == v.2.1 && r.host_id == v.2.2) = true := by
    rw [List.any_eq_true]
    obtain ⟨r, hr, h1, h2⟩ := hex
    exact ⟨r, hr, by simp [h1, h2]⟩
  rw [if_pos hany]
  conv_rhs => rw [← List.map_id t]
  apply List.map_congr_left
  intro r hr
  split
  · rename_i hk
    simp only [Bool.and_eq_true, beq_iff_eq] at hk
    have := hts r hr hk.1 hk.2
    cases r
    simp only at this
    simp [this]
  · rfl

theorem upsert_foldl_fixed (vals : List (Nat × Nat × Nat)) (t : List LabelMembershipRow)
    (h : ∀ v ∈ vals, (∃ r ∈ t, r.label_id = v.2.1 ∧ r.host_id = v.2.2) ∧
      (∀ r ∈ t, r.label_id = v.2.1 → r.host_id = v.2.2 → r.updated_at = v.1)) :
    vals.foldl upsertMembershipRow t = t := by
  induction vals with
  | nil => rfl
  | cons v vs ih =>
    have hv := h v (List.mem_cons_self _ _)
    rw [List.foldl_cons, upsertMembershipRow_fixed t v hv.1 hv.2]
    exact ih (fun w hw => h w (List.mem_cons_of_mem _ hw))

theorem upsertMembershipRow_timestamp (t : List LabelMembershipRow) (v : Nat × Nat × Nat)
    (g h u : Nat) (hv : v.2.1 = g → v.2.2 = h → v.1 = u)
    (hts : ∀ r ∈ t, r.label_id = g → r.host_id = h → r.updated_at = u) :
    ∀ r ∈ upsertMembershipRow t v, r.label_id = g → r.host_id = h → r.updated_at = u := by
  unfold upsertMembershipRow
  split
  · intro r hr hg hh
    rw [List.mem_map] at hr
    obtain ⟨r0, hr0, he⟩ := hr
    split at he
    · rename_i hk
      simp only [Bool.and_eq_true, beq_iff_eq] at hk
      subst he
      simp only at hg hh ⊢
      exact hv (hk.1 ▸ hg) (hk.2 ▸ hh)
    · subst he
      exact hts r0 hr0 hg hh
  · intro r hr hg hh
    rw [List.mem_append, List.mem_singleton] at hr
    rcases hr with hr | hr
    · exact hts r hr hg hh
    · subst hr
      exact hv hg hh

theorem upsert_foldl_timestamp (vals : List (Nat × Nat × Nat)) (t : List LabelMembershipRow)
    (g h u : Nat) (hv : ∀ v ∈ vals, v.2.1 = g → v.2.2 = h → v.1 = u)
    (hts : ∀ r ∈ t, r.label_id = g → r.host_id = h → r.updated_at = u) :
    ∀ r ∈ vals.foldl upsertMembershipRow t, r.label_id = g → r.host_id = h → r.updated_at = u := by
  induction vals generalizing t with
  | nil => exact hts
  | cons v vs ih =>
    rw [List.foldl_cons]
    exact ih _ (fun w hw => hv w (List.mem_cons_of_mem _ hw))
      (upsertMembershipRow_timestamp t v g h u (hv v (List.mem_cons_self _ _)) hts)

theorem upsertMembershipRow_timestamp_new (t : List LabelMembershipRow) (v : Nat × Nat × Nat) :
    ∀ r ∈ upsertMembershipRow t v, r.label_id = v.2.1 → r.host_id = v.2.2 →
      r.updated_at = v.1 := by
  unfold upsertMembershipRow
  split
  · intro r hr hg hh
    rw [List.mem_map] at hr
    obtain ⟨r0, _, he⟩ := hr
    split at he
    · subst he; rfl
    · rename_i hk
      subst he
      simp only [Bool.and_eq_true, beq_iff_eq] at hk
      exact absurd ⟨hg, hh⟩ hk
  · rename_i hany
    intro r hr hg hh
    rw [List.mem_append, List.mem_singleton] at hr
    rcases hr with hr | hr
    · exfalso
      apply hany
      rw [List.any_eq_true]
      exact ⟨r, hr, by simp [hg, hh]⟩
    · subst hr; rfl

theorem upsert_foldl_timestamp_of_mem (vals : List (Nat × Nat × Nat))
    (t : List LabelMembershipRow) (u : Nat) (hu : ∀ v ∈ vals, v.1 = u) :
    ∀ v ∈ vals, ∀ r ∈ vals.foldl upsertMembershipRow t,
      r.label_id = v.2.1 → r.host_id = v.2.2 → r.updated_at = v.1 := by
  induction vals generalizing t with
  | nil => intro v hv; exact absurd hv (List.not_mem_nil _)
  | cons w ws ih =>
    intro v hv
    rw [List.foldl_cons]
    rw [List.mem_cons] at hv
    have hvu : v.1 = u := by
      rcases hv with hv | hv
      · rw [hv]; exact hu w (List.mem_cons_self _ _)
      · exact hu v (List.mem_cons_of_mem _ hv)
    rcases hv with hv | hv
    · subst hv
      exact upsert_foldl_timestamp ws _ v.2.1 v.2.2 v.1
        (fun x hx _ _ => (hu x (List.mem_cons_of_mem _ hx)).trans hvu.symm)
        (upsertMembershipRow_timestamp_new t v)
    · exact ih (upsertMembershipRow t w) (fun x hx => hu x (List.mem_cons_of_mem _ hx)) v hv

end Fleet

namespace Fleet

theorem upsert_after_delete_fixed (vals : List (Nat × Nat × Nat)) (t : List LabelMembershipRow)
    (hostID u : Nat) (removes : List Nat) (hu : ∀ v ∈ vals, v.1 = u)
    (hdisj : ∀ v ∈ vals, ¬ (v.2.2 = hostID ∧ v.2.1 ∈ removes)) :
    vals.foldl upsertMembershipRow
        ((vals.foldl upsertMembershipRow t).filter
          (fun r => !(r.host_id == hostID && removes.contains r.label_id)))
      = (vals.foldl upsertMembershipRow t).filter
          (fun r => !(r.host_id == hostID && removes.contains r.label_id)) := by
  apply upsert_foldl_fixed
  intro v hv
  constructor
  · have hmem : (v.2.1, v.2.2) ∈
        ((vals.foldl upsertMembershipRow t).filter
          (fun r => !(r.host_id == hostID && removes.contains r.label_id))).map
          (fun r => (r.label_id, r.host_id)) := by
      rw [mem_pairs_delete, mem_pairs_upsert_foldl]
      exact ⟨Or.inr ⟨v, hv, rfl⟩, hdisj v hv⟩
    rw [List.mem_map] at hmem
    obtain ⟨r, hr, he⟩ := hmem
    simp only [Prod.mk.injEq] at he
    exact ⟨r, hr, he.1, he.2⟩
  · intro r hr hg hh
    exact upsert_foldl_timestamp_of_mem vals t u hu v hv r (List.mem_filter.mp hr).1 hg hh

theorem run_record_idempotent (db : DB) (host : Host) (results : ResultsMap) (updated : Nat) :
    Stmt.run (Stmt.run (Stmt.run
        (Stmt.run (Stmt.run (Stmt.run db (.upsertMembership (insertVals host results updated)))
          (.deleteMembership host.ID (deleteIDs host results updated)))
          (.updateHostLabelUpdatedAt host.LabelUpdatedAt host.ID))
        (.upsertMembership (insertVals host results updated)))
        (.deleteMembership host.ID (deleteIDs host results updated)))
        (.updateHostLabelUpdatedAt host.LabelUpdatedAt host.ID)
      = Stmt.run (Stmt.run (Stmt.run db (.upsertMembership (insertVals host results updated)))
          (.deleteMembership host.ID (deleteIDs host results updated)))
          (.updateHostLabelUpdatedAt host.LabelUpdatedAt host.ID) := by
  have hfix := upsert_after_delete_fixed (insertVals host results updated) db.label_membership
    host.ID updated (deleteIDs host results updated)
    (fun v hv => ((mem_insertVals_iff host results updated v).mp hv).1)
    (fun v hv hc => by
      have h1 := ((mem_insertVals_iff host results updated v).mp hv).2.1
      have h2 := ((mem_deleteIDs_iff host results updated v.2.1).mp hc.2).2
      rw [h1] at h2
      rcases h2 with h2 | h2 <;> simp at h2)
  simp only [Stmt.run, hfix, List.filter_filter, Bool.and_self, List.map_map]
  congr 1
  apply List.map_congr_left
  intro h _
  simp only [Function.comp]
  by_cases hh : h.id = host.ID <;> simp [hh]

theorem record_idempotent (faults : Stmt → Bool) (db : DB) (host : Host)
    (results : ResultsMap) (updated : Nat) :
    RecordLabelQueryExecutions faults
        (RecordLabelQueryExecutions faults db host results updated).db host results updated
      = RecordLabelQueryExecutions faults db host results updated := by
  simp only [record_outcome, recordTx_outcome]
  split_ifs <;> simp [run_record_idempotent]

/-- C5: the call is idempotent: run again on the tables it left, with the same
host, map and timestamp, it leaves the same tables (membership rows with their
timestamps, and host timestamps), sends the same statements and returns the same
error.  With the map `{g1: true, g2: false}` and a successful call, after the first
run and after the second the pair (g1, H) is present and the pair (g2, H) is not. -/
theorem C5_record_idempotent (faults : Stmt → Bool) (db : DB) (host : Host)
    (results : ResultsMap) (updated : Nat) (g1 g2 : Nat) (hne : g1 ≠ g2)
    (hok : (RecordLabelQueryExecutions faults db host
      ⟨[(g1, some true), (g2, some false)], by simpa using hne⟩ updated).err = none) :
    RecordLabelQueryExecutions faults
        (RecordLabelQueryExecutions faults db host results updated).db host results updated
      = RecordLabelQueryExecutions faults db host results updated ∧
    ((g1, host.ID) ∈ membershipPairs (RecordLabelQueryExecutions faults db host
        ⟨[(g1, some true), (g2, some false)], by simpa using hne⟩ updated).db ∧
      (g2, host.ID) ∉ membershipPairs (RecordLabelQueryExecutions faults db host
        ⟨[(g1, some true), (g2, some false)], by simpa using hne⟩ updated).db) ∧
    ((g1, host.ID) ∈ membershipPairs (RecordLabelQueryExecutions faults
        (RecordLabelQueryExecutions faults db host
          ⟨[(g1, some true), (g2, some false)], by simpa using hne⟩ updated).db host
        ⟨[(g1, some true), (g2, some false)], by simpa using hne⟩ updated).db ∧
      (g2, host.ID) ∉ membershipPairs (RecordLabelQueryExecutions faults
        (RecordLabelQueryExecutions faults db host
          ⟨[(g1, some true), (g2, some false)], by simpa using hne⟩ updated).db host
        ⟨[(g1, some true), (g2, some false)], by simpa using hne⟩ updated).db) := by
  have h1 : (⟨[(g1, some true), (g2, some false)], by simpa using hne⟩ : ResultsMap).index g1
      = some true := by
    simp [ResultsMap.index, List.lookup]
  have h2 : (⟨[(g1, some true), (g2, some false)], by simpa using hne⟩ : ResultsMap).index g2
      = some false := by
    have : (g2 == g1) = false := by simpa using hne.symm
    simp [ResultsMap.index, List.lookup, this]
  have hfirst :
      (g1, host.ID) ∈ membershipPairs (RecordLabelQueryExecutions faults db host
        ⟨[(g1, some true), (g2, some false)], by simpa using hne⟩ updated).db ∧
      (g2, host.ID) ∉ membershipPairs (RecordLabelQueryExecutions faults db host
        ⟨[(g1, some true), (g2, some false)], by simpa using hne⟩ updated).db := by
    constructor
    · rw [mem_pairs_record_success faults db host _ updated hok, mem_deleteIDs_iff]
      simp [h1]
    · rw [mem_pairs_record_success faults db host _ updated hok, mem_deleteIDs_iff]
      simp [h2, ResultsMap.keys]
  refine ⟨record_idempotent faults db host results updated, hfirst, ?_⟩
  rw [record_idempotent faults db host _ updated]
  exact hfirst

/-- C5 (witness): host 7, the map `{1: true, 2: false}`, on tables where host 7 is a
member of label 2. -/
theorem C5_record_idempotent_witness :
    RecordLabelQueryExecutions (fun _ => false)
        (RecordLabelQueryExecutions (fun _ => false) ⟨[], [⟨7, "h", 0⟩], [⟨3, 2, 7⟩]⟩
          (scenarioHost 10) scenarioResults1 10).db (scenarioHost 10) scenarioResults1 10
      = RecordLabelQueryExecutions (fun _ => false) ⟨[], [⟨7, "h", 0⟩], [⟨3, 2, 7⟩]⟩
          (scenarioHost 10) scenarioResults1 10 ∧
    membershipPairs (RecordLabelQueryExecutions (fun _ => false)
        ⟨[], [⟨7, "h", 0⟩], [⟨3, 2, 7⟩]⟩ (scenarioHost 10)
        ⟨[(1, some true), (2, some false)], by decide⟩ 10).db = [(1, 7)] ∧
    membershipPairs (RecordLabelQueryExecutions (fun _ => false)
        (RecordLabelQueryExecutions (fun _ => false)
          ⟨[], [⟨7, "h", 0⟩], [⟨3, 2, 7⟩]⟩ (scenarioHost 10)
          ⟨[(1, some true), (2, some false)], by decide⟩ 10).db (scenarioHost 10)
        ⟨[(1, some true), (2, some false)], by decide⟩ 10).db = [(1, 7)] :=
  ⟨(C5_record_idempotent (fun _ => false) ⟨[], [⟨7, "h", 0⟩], [⟨3, 2, 7⟩]⟩ (scenarioHost 10)
      scenarioResults1 10 1 2 (by decide) (by decide)).1,
   by decide, by decide⟩

end Fleet

/-! ## The Governor's prefix, placeholder rows and the readers -/

namespace Fleet

theorem admitRows_eq_take (budget : Nat) (rows : List ScheduledQueryResultRow)
    (h : ∀ r ∈ rows, r.Data.isSome = true) : admitRows budget rows = rows.take budget := by
  induction rows generalizing budget with
  | nil => simp [admitRows]
  | cons r rs ih =>
    have hr := h r (List.mem_cons_self _ _)
    have hrs : ∀ x ∈ rs, x.Data.isSome = true := fun x hx => h x (List.mem_cons_of_mem _ hx)
    simp only [admitRows, hr, if_true]
    cases budget with
    | zero =>
      simp only [Nat.lt_irrefl, if_false, List.take_zero]
      rw [ih 0 hrs, List.take_zero]
    | succ b =>
      simp only [Nat.zero_lt_succ, if_true, Nat.add_sub_cancel, List.take_succ_cons]
      rw [ih b hrs]

theorem mem_touchedPairs (seen : List (Nat × Nat)) (rows : List ScheduledQueryResultRow)
    (k : Nat × Nat) (hk : k ∈ touchedPairs seen rows) :
    k ∈ seen ∨ ∃ r ∈ rows, rowPair r = k := by
  induction rows generalizing seen with
  | nil => exact Or.inl hk
  | cons r rs ih =>
    simp only [touchedPairs] at hk
    split at hk
    · rcases ih seen hk with h | ⟨x, hx, hxk⟩
      · exact Or.inl h
      · exact Or.inr ⟨x, List.mem_cons_of_mem _ hx, hxk⟩
    · rcases ih _ hk with h | ⟨x, hx, hxk⟩
      · rw [List.mem_append, List.mem_singleton] at h
        rcases h with h | h
        · exact Or.inl h
        · exact Or.inr ⟨r, List.mem_cons_self _ _, h.symm⟩
      · exact Or.inr ⟨x, List.mem_cons_of_mem _ hx, hxk⟩

theorem overwritePair_other_query (maxRows : Nat) (rows : List ScheduledQueryResultRow)
    (table : QueryResults) (k : Nat × Nat) (q : Nat) (hq : k.1 ≠ q) :
    (overwritePair maxRows rows table k).filter (fun r => r.QueryID == q)
      = table.filter (fun r => r.QueryID == q) := by
  unfold overwritePair
  rw [List.filter_append, List.filter_filter]
  have h1 : (admitRows (maxRows - (ResultCountForQuery table k.1
      - ResultCountForQueryAndHost table k.1 k.2))
      (rows.filter (fun r => rowPair r == k))).filter (fun r => r.QueryID == q) = [] := by
    rw [List.filter_eq_nil_iff]
    intro r hr
    have hmem := (admitRows_sublist _ _).subset hr
    have hk : rowPair r = k := by simpa using (List.mem_filter.mp hmem).2
    have : r.QueryID = k.1 := by rw [← hk]; rfl
    simp [this, hq]
  rw [h1, List.append_nil]
  apply List.filter_congr
  intro r _
  by_cases hr : r.QueryID = q
  · have : rowPair r ≠ k := fun h => hq (by rw [← h]; exact hr)
    simp [hr, this]
  · simp [hr]

theorem overwritePairs_other_query (maxRows : Nat) (rows : List ScheduledQueryResultRow)
    (pairs : List (Nat × Nat)) (table : QueryResults) (q : Nat)
    (hq : ∀ k ∈ pairs, k.1 ≠ q) :
    (pairs.foldl (overwritePair maxRows rows) table).filter (fun r => r.QueryID == q)
      = table.filter (fun r => r.QueryID == q) := by
  induction pairs generalizing table with
  | nil => rfl
  | cons k ks ih =>
    rw [List.foldl_cons, ih _ (fun x hx => hq x (List.mem_cons_of_mem _ hx)),
      overwritePair_other_query maxRows rows table k q (hq k (List.mem_cons_self _ _))]

end Fleet

namespace Fleet

theorem take_min_length (rows : List ScheduledQueryResultRow) (b : Nat) :
    rows.take (min rows.length (max 0 b)) = rows.take b := by
  rw [Nat.zero_max]
  by_cases h : b ≤ rows.length
  · rw [Nat.min_eq_right h]
  · have h' : rows.length ≤ b := by omega
    rw [Nat.min_eq_left h', List.take_of_length_le (Nat.le_refl _), List.take_of_length_le h']

/-- C11 (as amended): when a non-empty list of N payload-bearing rows of one
(query, host) pair is submitted through Overwrite, and c is the query's
payload-bearing count apart from the rows of that pair, which the call replaces,
the call returns no error and the rows stored for the pair are exactly the first
min(N, max(0, maxRows - c)) rows of the input, in input order; the other rows are
dropped. -/
theorem C11_overwrite_stores_admitted_prefix (maxRows : Nat) (table : QueryResults) (q h : Nat)
    (rows : List ScheduledQueryResultRow) (hne : rows ≠ [])
    (hrows : ∀ r ∈ rows, r.QueryID = q ∧ r.HostID = h ∧ r.Data.isSome = true) :
    ∃ table', OverwriteQueryResultRows maxRows none table rows = .ok table' ∧
      QueryResultRowsForHost table' q h
        = rows.take (min rows.length (max 0
            (maxRows - (ResultCountForQuery table q - ResultCountForQueryAndHost table q h)))) ∧
      (QueryResultRowsForHost table' q h).length
        = min rows.length (max 0
            (maxRows - (ResultCountForQuery table q - ResultCountForQueryAndHost table q h))) := by
  have hpair : ∀ r ∈ rows, rowPair r = (q, h) := fun r hr => by
    simp [rowPair, (hrows r hr).1, (hrows r hr).2.1]
  have key : QueryResultRowsForHost
      ((touchedPairs [] rows).foldl (overwritePair maxRows rows) table) q h
      = rows.take (min rows.length (max 0
          (maxRows - (ResultCountForQuery table q - ResultCountForQueryAndHost table q h)))) := by
    rw [touchedPairs_of_same_pair (q, h) rows hne hpair]
    simp only [List.foldl_cons, List.foldl_nil]
    rw [rowsForHost_overwritePair maxRows rows table q h hpair,
      admitRows_eq_take _ rows (fun r hr => (hrows r hr).2.2), take_min_length]
  refine ⟨_, rfl, key, ?_⟩
  rw [key, List.length_take]
  omega

set_option maxRecDepth 100000 in
/-- C11 (witness): `maxRows = 100`; an Overwrite of 150 payload-bearing rows of the
pair (1, 1) into the empty table stores exactly 100 rows. -/
theorem C11_overwrite_stores_admitted_prefix_witness :
    ∃ table', OverwriteQueryResultRows 100 none [] (List.replicate 150 ⟨1, 1, 0, some "x"⟩)
        = .ok table' ∧
      QueryResultRowsForHost table' 1 1
        = (List.replicate 150 (⟨1, 1, 0, some "x"⟩ : ScheduledQueryResultRow)).take
            (min (List.replicate 150 (⟨1, 1, 0, some "x"⟩ : ScheduledQueryResultRow)).length
              (max 0 (100 - (ResultCountForQuery [] 1 - ResultCountForQueryAndHost [] 1 1)))) ∧
      (QueryResultRowsForHost table' 1 1).length
        = min (List.replicate 150 (⟨1, 1, 0, some "x"⟩ : ScheduledQueryResultRow)).length
            (max 0 (100 - (ResultCountForQuery [] 1 - ResultCountForQueryAndHost [] 1 1))) :=
  C11_overwrite_stores_admitted_prefix 100 [] 1 1 (List.replicate 150 ⟨1, 1, 0, some "x"⟩)
    (by decide) (by decide)

/-- C11 (counterexample): with `maxRows = 2` and one payload-bearing row stored for
query 1, a Save of three payload-bearing rows of query 1 stores all three, not the
min(3, max(0, 2 - 1)) = 1 of the claim. -/
theorem C11_save_stores_all_rows :
    ResultCountForQuery [⟨1, 1, 0, some "a"⟩] 1 = 1 ∧
    min 3 (max 0 (2 - ResultCountForQuery [⟨1, 1, 0, some "a"⟩] 1)) = 1 ∧
    SaveQueryResultRows none [⟨1, 1, 0, some "a"⟩]
        [⟨1, 4, 0, some "b"⟩, ⟨1, 4, 0, some "c"⟩, ⟨1, 4, 0, some "d"⟩]
      = .ok [⟨1, 1, 0, some "a"⟩, ⟨1, 4, 0, some "b"⟩, ⟨1, 4, 0, some "c"⟩,
          ⟨1, 4, 0, some "d"⟩] ∧
    (QueryResultRowsForHost [⟨1, 1, 0, some "a"⟩, ⟨1, 4, 0, some "b"⟩, ⟨1, 4, 0, some "c"⟩,
      ⟨1, 4, 0, some "d"⟩] 1 4).length = 3 := by
  refine ⟨by decide, by decide, rfl, by decide⟩

/-- C12: saving rows whose payload is absent returns no error when the insert
statement succeeds and leaves the payload-bearing count of every query unchanged,
whatever the table holds, also when the query is at `maxRows`. -/
theorem C12_save_placeholder_keeps_counts (table : QueryResults)
    (rows : List ScheduledQueryResultRow) (hnil : ∀ r ∈ rows, r.Data = none) :
    ∃ table', SaveQueryResultRows none table rows = .ok table' ∧
      ∀ q, ResultCountForQuery table' q = ResultCountForQuery table q := by
  refine ⟨table ++ rows, saveQueryResultRows_none table rows, fun q => ?_⟩
  rw [resultCountForQuery_append]
  have : ResultCountForQuery rows q = 0 := by
    rw [resultCountForQuery_eq_countP, List.countP_eq_zero]
    intro r hr
    simp [hnil r hr]
  omega

/-- C12 (witness): with two payload-bearing rows stored for query 1 (the maximum
when `maxRows = 2`), saving a placeholder row of query 1 keeps the count at 2. -/
theorem C12_save_placeholder_keeps_counts_witness :
    ResultCountForQuery [⟨1, 1, 0, some "a"⟩, ⟨1, 1, 0, some "b"⟩] 1 = 2 ∧
    ∃ table', SaveQueryResultRows none [⟨1, 1, 0, some "a"⟩, ⟨1, 1, 0, some "b"⟩]
        [⟨1, 2, 0, none⟩] = .ok table' ∧
      ∀ q, ResultCountForQuery table' q
        = ResultCountForQuery [⟨1, 1, 0, some "a"⟩, ⟨1, 1, 0, some "b"⟩] q :=
  ⟨by decide,
   C12_save_placeholder_keeps_counts [⟨1, 1, 0, some "a"⟩, ⟨1, 1, 0, some "b"⟩]
     [⟨1, 2, 0, none⟩] (by decide)⟩

/-- C13: an Overwrite returns no error whatever query and host ids its rows carry
(the operation consults no table of queries or hosts, so also for ids that do not
exist), and the rows stored for a query that none of its rows names are exactly
what they were. -/
theorem C13_overwrite_leaves_other_queries (maxRows : Nat) (table : QueryResults)
    (rows : List ScheduledQueryResultRow) (q : Nat) (hq : ∀ r ∈ rows, r.QueryID ≠ q) :
    ∃ table', OverwriteQueryResultRows maxRows none table rows = .ok table' ∧
      table'.filter (fun r => r.QueryID == q) = table.filter (fun r => r.QueryID == q) := by
  refine ⟨_, rfl, ?_⟩
  apply overwritePairs_other_query
  intro k hk
  rcases mem_touchedPairs [] rows k hk with h | ⟨r, hr, hrk⟩
  · exact absurd h (List.not_mem_nil _)
  · rw [← hrk]
    exact hq r hr

/-- C13 (witness): the table holds rows of query 1 only; an Overwrite for the
query id 9999 and the host id 9999 leaves the rows of query 1 as they were. -/
theorem C13_overwrite_leaves_other_queries_witness :
    ∃ table', OverwriteQueryResultRows 100 none
        [⟨1, 7, 5, some "mouse"⟩, ⟨1, 8, 5, none⟩] [⟨9999, 9999, 9, some "mouse"⟩] = .ok table' ∧
      table'.filter (fun r => r.QueryID == 1)
        = List.filter (fun r => r.QueryID == 1) [⟨1, 7, 5, some "mouse"⟩, ⟨1, 8, 5, none⟩] :=
  C13_overwrite_leaves_other_queries 100 [⟨1, 7, 5, some "mouse"⟩, ⟨1, 8, 5, none⟩]
    [⟨9999, 9999, 9, some "mouse"⟩] 1 (by decide)

/-- C14: `QueryResultRows` returns exactly the stored rows of the query whose
payload is present, each as often as it is stored and in insertion order; no
placeholder row and no row of another query is returned; their number is the
payload-bearing count, and for a table without such rows the result is empty. -/
theorem C14_queryResultRows (table : QueryResults) (q : Nat) :
    (∀ r, r ∈ QueryResultRows table q ↔ r ∈ table ∧ r.QueryID = q ∧ r.Data ≠ none) ∧
    (QueryResultRows table q).Sublist table ∧
    (∀ r, r.QueryID = q → r.Data ≠ none → (QueryResultRows table q).count r = table.count r) ∧
    (QueryResultRows table q).length = ResultCountForQuery table q ∧
    ((∀ r ∈ table, r.QueryID ≠ q ∨ r.Data = none) → QueryResultRows table q = []) := by
  refine ⟨?_, List.filter_sublist _, ?_, rfl, ?_⟩
  · intro r
    simp only [QueryResultRows, List.mem_filter, Bool.and_eq_true, beq_iff_eq,
      Option.isSome_iff_ne_none]
  · intro r hq hd
    apply List.count_filter
    simp [hq, Option.isSome_iff_ne_none, hd]
  · intro h
    rw [QueryResultRows, List.filter_eq_nil_iff]
    intro r hr
    rcases h r hr with h1 | h1 <;> simp [h1]

/-- C14 (witness): the rows saved by the test `testGetQueryResultRows`: a
placeholder and a payload row for query 1, a payload row for query 2; nothing is
stored for query 999. -/
theorem C14_queryResultRows_witness :
    QueryResultRows
      (runCalls 100 [] [.save none [⟨1, 7, 5, none⟩, ⟨1, 7, 5, some "keyboard"⟩],
        .save none [⟨2, 7, 5, some "hub"⟩]]) 1 = [⟨1, 7, 5, some "keyboard"⟩] ∧
    QueryResultRows
      (runCalls 100 [] [.save none [⟨1, 7, 5, none⟩, ⟨1, 7, 5, some "keyboard"⟩],
        .save none [⟨2, 7, 5, some "hub"⟩]]) 999 = [] :=
  ⟨by decide,
   (C14_queryResultRows
      (runCalls 100 [] [.save none [⟨1, 7, 5, none⟩, ⟨1, 7, 5, some "keyboard"⟩],
        .save none [⟨2, 7, 5, some "hub"⟩]]) 999).2.2.2.2 (by decide)⟩

end Fleet

/-! ## Batches of host names -/

namespace Fleet

theorem batchHostnamesLoop_flatten (batchSize fuel : Nat) (hostnames : List String)
    (batches : List (List String)) :
    (batchHostnamesLoop batchSize fuel hostnames batches).flatten
      = batches.flatten ++ hostnames := by
  induction fuel generalizing hostnames batches with
  | zero => simp [batchHostnamesLoop]
  | succ n ih =>
    simp only [batchHostnamesLoop]
    split
    · rw [ih]
      simp [List.append_assoc, List.take_append_drop]
    · simp

theorem batchHostnamesLoop_fuel (batchSize : Nat) (hpos : 0 < batchSize) (fuel fuel' : Nat)
    (hostnames : List String) (batches : List (List String))
    (h : hostnames.length ≤ fuel) (h' : hostnames.length ≤ fuel') :
    batchHostnamesLoop batchSize fuel hostnames batches
      = batchHostnamesLoop batchSize fuel' hostnames batches := by
  induction fuel generalizing fuel' hostnames batches with
  | zero =>
    have hl : hostnames.length = 0 := by omega
    cases fuel' with
    | zero => rfl
    | succ m => simp [batchHostnamesLoop, hl]
  | succ n ih =>
    cases fuel' with
    | zero =>
      have hl : hostnames.length = 0 := by omega
      simp [batchHostnamesLoop, hl]
    | succ m =>
      simp only [batchHostnamesLoop]
      split
      · apply ih
        · rw [List.length_drop]; omega
        · rw [List.length_drop]; omega
      · rfl

theorem batchHostnamesLoop_shape (batchSize : Nat) (hpos : 0 < batchSize) (fuel : Nat)
    (hostnames : List String) (batches : List (List String))
    (hfuel : hostnames.length ≤ fuel) (hne : hostnames ≠ []) :
    ∃ full last, batchHostnamesLoop batchSize fuel hostnames batches = batches ++ full ++ [last] ∧
      (∀ b ∈ full, b.length = batchSize) ∧ last ≠ [] ∧ last.length ≤ batchSize := by
  induction fuel generalizing hostnames batches with
  | zero =>
    have : hostnames = [] := List.length_eq_zero.mp (by omega)
    exact absurd this hne
  | succ n ih =>
    simp only [batchHostnamesLoop]
    split
    · rename_i hlt
      have hlen : (hostnames.drop batchSize).length = hostnames.length - batchSize :=
        List.length_drop _ _
      have hne' : hostnames.drop batchSize ≠ [] := by
        intro h0
        rw [h0, List.length_nil] at hlen
        omega
      obtain ⟨full, last, heq, hfull, hlast, hle⟩ :=
        ih (hostnames.drop batchSize) (batches ++ [hostnames.take batchSize]) (by omega) hne'
      refine ⟨hostnames.take batchSize :: full, last, ?_, ?_, hlast, hle⟩
      · rw [heq]; simp [List.append_assoc]
      · intro b hb
        rw [List.mem_cons] at hb
        rcases hb with hb | hb
        · rw [hb, List.length_take]; omega
        · exact hfull b hb
    · rename_i hlt
      exact ⟨[], hostnames, by simp, by simp, hne, by omega⟩

/-- C15: concatenating the batches returned by `batchHostnames`, in order, gives
back the input list. -/
theorem C15_batches_concat (hostnames : List String) :
    (batchHostnames hostnames).flatten = hostnames := by
  unfold batchHostnames batchHostnamesOfSize
  rw [batchHostnamesLoop_flatten]
  simp

/-- C16: for a non-empty list every batch returned by `batchHostnames` is
non-empty and has at most 50000 entries, and every batch but the last has exactly
50000. -/
theorem C16_batch_sizes (hostnames : List String) (hne : hostnames ≠ []) :
    (∀ b ∈ batchHostnames hostnames, b ≠ [] ∧ b.length ≤ 50000) ∧
    (∀ b ∈ (batchHostnames hostnames).dropLast, b.length = 50000) := by
  obtain ⟨full, last, heq, hfull, hlast, hle⟩ :=
    batchHostnamesLoop_shape 50000 (by decide) hostnames.length hostnames [] (Nat.le_refl _) hne
  unfold batchHostnames batchHostnamesOfSize
  rw [heq, List.nil_append, List.dropLast_concat]
  refine ⟨?_, hfull⟩
  intro b hb
  rw [List.mem_append, List.mem_singleton] at hb
  rcases hb with hb | hb
  · have := hfull b hb
    refine ⟨?_, by omega⟩
    intro h0
    rw [h0, List.length_nil] at this
    omega
  · rw [hb]
    exact ⟨hlast, hle⟩

/-- C16 (witness): three host names make one batch of three; with a batch size of 2
five names make two full batches and a last batch of one. -/
theorem C16_batch_sizes_witness :
    batchHostnames ["a", "b", "c"] = [["a", "b", "c"]] ∧
    batchHostnamesOfSize 2 ["a", "b", "c", "d", "e"] = [["a", "b"], ["c", "d"], ["e"]] ∧
    ((∀ b ∈ batchHostnames ["a", "b", "c"], b ≠ [] ∧ b.length ≤ 50000) ∧
      (∀ b ∈ (batchHostnames ["a", "b", "c"]).dropLast, b.length = 50000)) :=
  ⟨by decide, by decide, C16_batch_sizes ["a", "b", "c"] (by decide)⟩

end Fleet

/-! ## Built-in labels, orphan memberships and the All Hosts label -/

namespace Fleet

/-- C18 (as amended): the call does not look at the kind of a label: after a
successful call the pair (g, H) is present for every label g of the table `labels`
with `results[g]` true, also when g is built-in; and a pair (g, H) that the call
created belongs to a label with `results[g]` true. -/
theorem C18_record_ignores_label_type (faults : Stmt → Bool) (db : DB) (host : Host)
    (results : ResultsMap) (updated : Nat)
    (hok : (RecordLabelQueryExecutions faults db host results updated).err = none) :
    (∀ l ∈ db.labels, l.label_type = LabelType.builtIn → results.index l.id = some true →
      (l.id, host.ID) ∈
        membershipPairs (RecordLabelQueryExecutions faults db host results updated).db) ∧
    (∀ g,
      (g, host.ID) ∈
        membershipPairs (RecordLabelQueryExecutions faults db host results updated).db →
      (g, host.ID) ∉ membershipPairs db → results.index g = some true) := by
  constructor
  · intro l _ _ ht
    rw [mem_pairs_record_success faults db host results updated hok, mem_deleteIDs_iff]
    simp [ht]
  · intro g hin hnot
    rw [mem_pairs_record_success faults db host results updated hok] at hin
    rcases hin.1 with h | h
    · exact absurd h hnot
    · exact h.2

/-- C18 (witness): label 1 is the built-in label All Hosts, host 7 has no
membership, and the map is `{1: true}`: the pair (1, 7) is present after the call. -/
theorem C18_record_ignores_label_type_witness :
    (1, 7) ∈
      membershipPairs (RecordLabelQueryExecutions (fun _ => false)
        ⟨[⟨1, "All Hosts", "", "select 1", "", .builtIn, .dynamic⟩], [⟨7, "h", 0⟩], []⟩
        (scenarioHost 10) ⟨[(1, some true)], by decide⟩ 10).db :=
  (C18_record_ignores_label_type (fun _ => false)
    ⟨[⟨1, "All Hosts", "", "select 1", "", .builtIn, .dynamic⟩], [⟨7, "h", 0⟩], []⟩
    (scenarioHost 10) ⟨[(1, some true)], by decide⟩ 10 (by decide)).1
    ⟨1, "All Hosts", "", "select 1", "", .builtIn, .dynamic⟩ (by decide) rfl (by decide)

/-- C18 (counterexample): label 1 is built-in, host 7 has no membership; the call
with the map `{1: true}` succeeds and creates the pair (1, 7). -/
theorem C18_builtin_label_populated :
    membershipPairs
      (⟨[⟨1, "All Hosts", "", "select 1", "", .builtIn, .dynamic⟩], [⟨7, "h", 0⟩], []⟩ : DB) = [] ∧
    (RecordLabelQueryExecutions (fun _ => false)
      ⟨[⟨1, "All Hosts", "", "select 1", "", .builtIn, .dynamic⟩], [⟨7, "h", 0⟩], []⟩
      (scenarioHost 10) ⟨[(1, some true)], by decide⟩ 10).err = none ∧
    membershipPairs (RecordLabelQueryExecutions (fun _ => false)
      ⟨[⟨1, "All Hosts", "", "select 1", "", .builtIn, .dynamic⟩], [⟨7, "h", 0⟩], []⟩
      (scenarioHost 10) ⟨[(1, some true)], by decide⟩ 10).db = [(1, 7)] := by
  decide

theorem mem_cleanup_membership (db : DB) (m : LabelMembershipRow) :
    m ∈ (CleanupOrphanLabelMembership false db).1.label_membership ↔
      m ∈ db.label_membership ∧ (∃ l ∈ db.labels, l.id = m.label_id) ∧
        (∃ h ∈ db.hosts, h.id = m.host_id) := by
  simp only [CleanupOrphanLabelMembership, Bool.false_eq_true, if_false, List.mem_filter,
    Bool.not_eq_true', Bool.or_eq_false_iff, Bool.not_eq_false', List.any_eq_true, beq_iff_eq]

/-- C19: when its statement succeeds, `CleanupOrphanLabelMembership` returns no
error and leaves in `label_membership` exactly the prior rows whose label is in
`labels` and whose host is in `hosts`, in their order; `labels` and `hosts` are
untouched, and a second run changes nothing. -/
theorem C19_cleanup_orphans (db : DB) :
    (CleanupOrphanLabelMembership false db).2 = none ∧
    (∀ m, m ∈ (CleanupOrphanLabelMembership false db).1.label_membership ↔
      m ∈ db.label_membership ∧ (∃ l ∈ db.labels, l.id = m.label_id) ∧
        (∃ h ∈ db.hosts, h.id = m.host_id)) ∧
    (∀ p, p ∈ membershipPairs (CleanupOrphanLabelMembership false db).1 ↔
      p ∈ membershipPairs db ∧ (∃ l ∈ db.labels, l.id = p.1) ∧ (∃ h ∈ db.hosts, h.id = p.2)) ∧
    (CleanupOrphanLabelMembership false db).1.label_membership.Sublist db.label_membership ∧
    (CleanupOrphanLabelMembership false db).1.labels = db.labels ∧
    (CleanupOrphanLabelMembership false db).1.hosts = db.hosts ∧
    CleanupOrphanLabelMembership false (CleanupOrphanLabelMembership false db).1
      = CleanupOrphanLabelMembership false db := by
  refine ⟨rfl, mem_cleanup_membership db, ?_, ?_, rfl, rfl, ?_⟩
  · intro p
    simp only [membershipPairs, List.mem_map, mem_cleanup_membership]
    constructor
    · rintro ⟨m, ⟨hm, hl, hh⟩, rfl⟩
      exact ⟨⟨m, hm, rfl⟩, hl, hh⟩
    · rintro ⟨⟨m, hm, rfl⟩, hl, hh⟩
      exact ⟨m, ⟨hm, hl, hh⟩, rfl⟩
  · simp only [CleanupOrphanLabelMembership, Bool.false_eq_true, if_false]
    exact List.filter_sublist _
  · simp only [CleanupOrphanLabelMembership, Bool.false_eq_true, if_false, List.filter_filter,
      Bool.and_self]

/-- When the built-in label named All Hosts exists and the query
for it succeeds, the list returned by `addAllHostsLabelToList` contains a label with
its id unless the omit list contains that id: the input list is returned as it is
when it already has such a label, and with the All Hosts label appended otherwise;
when the omit list contains the id, the input list is returned unchanged. -/
theorem addAllHostsLabelToList_unless_omitted (hostCount : Nat → Nat) (db : DB) (labels : List Label)
    (omitIDs : List Nat) (row : LabelRow) (hrow : selectAllHostsLabel db = some row) :
    (row.label_type = LabelType.builtIn ∧ row.name = "All Hosts") ∧
    (row.id ∉ omitIDs →
      ∃ l, addAllHostsLabelToList hostCount false db labels omitIDs = .ok l ∧
        (∃ x ∈ l, x.ID = row.id) ∧
        (l = labels ∨
          l = labels ++ [⟨row.id, row.name, row.description, row.query, row.platform,
            row.label_type, row.label_membership_type, hostCount row.id⟩])) ∧
    (row.id ∈ omitIDs →
      addAllHostsLabelToList hostCount false db labels omitIDs = .ok labels) := by
  refine ⟨?_, ?_, ?_⟩
  · have := List.find?_some hrow
    simpa using this
  · intro hnot
    have h1 : omitIDs.any (fun omission => omission == row.id) = false := by
      rw [List.any_eq_false]
      intro x hx
      simp only [beq_iff_eq]
      intro hxe
      exact hnot (hxe ▸ hx)
    by_cases h2 : labels.any (fun label => label.ID == row.id) = true
    · refine ⟨labels, ?_, ?_, Or.inl rfl⟩
      · simp [addAllHostsLabelToList, hrow, h1, h2]
      · rw [List.any_eq_true] at h2
        obtain ⟨x, hx, hxe⟩ := h2
        exact ⟨x, hx, by simpa using hxe⟩
    · refine ⟨_, ?_, ?_, Or.inr rfl⟩
      · simp only [addAllHostsLabelToList, Bool.false_eq_true, if_false, hrow, h1, h2]
      · exact ⟨_, List.mem_append_right _ (List.mem_singleton_self _), rfl⟩
  · intro hin
    have h1 : omitIDs.any (fun omission => omission == row.id) = true := by
      rw [List.any_eq_true]
      exact ⟨row.id, hin, by simp⟩
    simp [addAllHostsLabelToList, hrow, h1]

/-- An example: the table `labels` holds the built-in label All Hosts with id 1
and a regular label with id 2; the search result holds label 2 and nothing is
omitted: All Hosts is appended. -/
theorem addAllHostsLabelToList_unless_omitted_example :
    addAllHostsLabelToList (fun _ => 3) false
        ⟨[⟨1, "All Hosts", "", "select 1", "", .builtIn, .dynamic⟩,
          ⟨2, "web", "", "select 2", "", .regular, .dynamic⟩], [], []⟩
        [⟨2, "web", "", "select 2", "", .regular, .dynamic, 0⟩] []
      = .ok [⟨2, "web", "", "select 2", "", .regular, .dynamic, 0⟩,
          ⟨1, "All Hosts", "", "select 1", "", .builtIn, .dynamic, 3⟩] ∧
    ∃ l, addAllHostsLabelToList (fun _ => 3) false
        ⟨[⟨1, "All Hosts", "", "select 1", "", .builtIn, .dynamic⟩,
          ⟨2, "web", "", "select 2", "", .regular, .dynamic⟩], [], []⟩
        [⟨2, "web", "", "select 2", "", .regular, .dynamic, 0⟩] [] = .ok l ∧
      (∃ x ∈ l, x.ID = 1) ∧
      (l = [⟨2, "web", "", "select 2", "", .regular, .dynamic, 0⟩] ∨
        l = [⟨2, "web", "", "select 2", "", .regular, .dynamic, 0⟩]
          ++ [⟨1, "All Hosts", "", "select 1", "", .builtIn, .dynamic, 3⟩]) :=
  ⟨rfl,
   (addAllHostsLabelToList_unless_omitted (fun _ => 3)
      ⟨[⟨1, "All Hosts", "", "select 1", "", .builtIn, .dynamic⟩,
        ⟨2, "web", "", "select 2", "", .regular, .dynamic⟩], [], []⟩
      [⟨2, "web", "", "select 2", "", .regular, .dynamic, 0⟩] []
      ⟨1, "All Hosts", "", "select 1", "", .builtIn, .dynamic⟩ rfl).2.1 (by decide)⟩

end Fleet

/-! ## The tables under the statements of `ApplyLabelSpecs` -/

namespace Fleet

theorem insertIgnore_step_pairs (now labelID : Nat) (t : List LabelMembershipRow) (h : HostRow)
    (p : Nat × Nat) :
    p ∈ (if t.any (fun r => r.label_id == labelID && r.host_id == h.id) then t
          else t ++ [⟨now, labelID, h.id⟩]).map (fun r => (r.label_id, r.host_id)) ↔
      p ∈ t.map (fun r => (r.label_id, r.host_id)) ∨ p = (labelID, h.id) := by
  split
  · rename_i hany
    constructor
    · exact Or.inl
    · rintro (hp | hp)
      · exact hp
      · rw [List.any_eq_true] at hany
        obtain ⟨r, hr, hk⟩ := hany
        simp only [Bool.and_eq_true, beq_iff_eq] at hk
        rw [hp, List.mem_map]
        exact ⟨r, hr, by rw [hk.1, hk.2]⟩
  · simp only [List.map_append, List.map_cons, List.map_nil, List.mem_append, List.mem_singleton]

theorem insertIgnore_foldl_pairs (now labelID : Nat) (hs : List HostRow)
    (t : List LabelMembershipRow) (p : Nat × Nat) :
    p ∈ (hs.foldl
          (fun t h =>
            if t.any (fun r => r.label_id == labelID && r.host_id == h.id) then t
            else t ++ [⟨now, labelID, h.id⟩])
          t).map (fun r => (r.label_id, r.host_id)) ↔
      p ∈ t.map (fun r => (r.label_id, r.host_id)) ∨ ∃ h ∈ hs, p = (labelID, h.id) := by
  induction hs generalizing t with
  | nil => simp
  | cons h hs ih =>
    rw [List.foldl_cons, ih, insertIgnore_step_pairs]
    simp only [List.mem_cons, exists_eq_or_imp]
    tauto

theorem mem_pairs_insertIgnoreMembership (now labelID : Nat) (hosts : List HostRow)
    (hostnames : List String) (t : List LabelMembershipRow) (p : Nat × Nat) :
    p ∈ (insertIgnoreMembership now labelID hosts hostnames t).map
        (fun r => (r.label_id, r.host_id)) ↔
      p ∈ t.map (fun r => (r.label_id, r.host_id)) ∨
        ∃ h ∈ hosts, h.hostname ∈ hostnames ∧ p = (labelID, h.id) := by
  unfold insertIgnoreMembership
  rw [insertIgnore_foldl_pairs]
  simp only [List.mem_filter, List.contains_iff_exists_mem_beq, beq_iff_eq, exists_eq_right',
    and_assoc]

theorem insertIgnore_foldl_count (now labelID : Nat) (hs : List HostRow)
    (t : List LabelMembershipRow)
    (ht : ∀ hid, (t.map (fun r => (r.label_id, r.host_id))).count (labelID, hid) ≤ 1) :
    ∀ hid, ((hs.foldl
          (fun t h =>
            if t.any (fun r => r.label_id == labelID && r.host_id == h.id) then t
            else t ++ [⟨now, labelID, h.id⟩])
          t).map (fun r => (r.label_id, r.host_id))).count (labelID, hid) ≤ 1 := by
  induction hs generalizing t with
  | nil => exact ht
  | cons h hs ih =>
    rw [List.foldl_cons]
    apply ih
    intro hid
    split
    · exact ht hid
    · rename_i hany
      rw [List.map_append, List.count_append]
      by_cases hh : h.id = hid
      · have h0 : (t.map (fun r => (r.label_id, r.host_id))).count (labelID, hid) = 0 := by
          rw [List.count_eq_zero]
          intro hmem
          apply hany
          rw [List.mem_map] at hmem
          obtain ⟨r, hr, he⟩ := hmem
          simp only [Prod.mk.injEq] at he
          rw [List.any_eq_true]
          exact ⟨r, hr, by simp [he.1, he.2, hh]⟩
        rw [h0]
        simp [hh]
      · have h1 := ht hid
        have h2 : ([(labelID, h.id)] : List (Nat × Nat)).count (labelID, hid) = 0 := by
          rw [List.count_eq_zero]
          simp only [List.mem_singleton, Prod.mk.injEq, true_and]
          exact fun he => hh he.symm
        rw [List.map_cons, List.map_nil, h2]
        omega

theorem insertIgnoreMembership_count (now labelID : Nat) (hosts : List HostRow)
    (hostnames : List String) (t : List LabelMembershipRow)
    (ht : ∀ hid, (t.map (fun r => (r.label_id, r.host_id))).count (labelID, hid) ≤ 1) :
    ∀ hid, ((insertIgnoreMembership now labelID hosts hostnames t).map
      (fun r => (r.label_id, r.host_id))).count (labelID, hid) ≤ 1 :=
  insertIgnore_foldl_count now labelID _ t ht

theorem insertIgnore_foldl_filter_other (now labelID other : Nat) (hne : labelID ≠ other)
    (hs : List HostRow) (t : List LabelMembershipRow) :
    (hs.foldl
        (fun t h =>
          if t.any (fun r => r.label_id == labelID && r.host_id == h.id) then t
          else t ++ [⟨now, labelID, h.id⟩])
        t).filter (fun r => r.label_id == other)
      = t.filter (fun r => r.label_id == other) := by
  induction hs generalizing t with
  | nil => rfl
  | cons h hs ih =>
    rw [List.foldl_cons, ih]
    split
    · rfl
    · simp [List.filter_append, hne]

theorem insertIgnoreMembership_filter_other (now labelID other : Nat) (hne : labelID ≠ other)
    (hosts : List HostRow) (hostnames : List String) (t : List LabelMembershipRow) :
    (insertIgnoreMembership now labelID hosts hostnames t).filter (fun r => r.label_id == other)
      = t.filter (fun r => r.label_id == other) :=
  insertIgnore_foldl_filter_other now labelID other hne _ t

end Fleet

namespace Fleet

theorem le_foldr_max (l : List Nat) (x : Nat) (hx : x ∈ l) : x ≤ l.foldr max 0 := by
  induction l with
  | nil => exact absurd hx (List.not_mem_nil _)
  | cons a as ih =>
    rw [List.foldr_cons]
    rw [List.mem_cons] at hx
    rcases hx with hx | hx
    · rw [hx]; exact Nat.le_max_left _ _
    · exact Nat.le_trans (ih hx) (Nat.le_max_right _ _)

theorem nextLabelID_fresh (labels : List LabelRow) :
    nextLabelID labels ∉ labels.map (fun l => l.id) := by
  intro h
  have := le_foldr_max _ _ h
  unfold nextLabelID at this
  omega

theorem upsertLabelRow_ids (labels : List LabelRow) (s : LabelSpec) :
    (upsertLabelRow labels s).map (fun l => l.id) = labels.map (fun l => l.id) ∨
    (upsertLabelRow labels s).map (fun l => l.id)
      = labels.map (fun l => l.id) ++ [nextLabelID labels] := by
  unfold upsertLabelRow
  split
  · left
    rw [List.map_map]
    apply List.map_congr_left
    intro l _
    simp only [Function.comp]
    split <;> rfl
  · right
    simp

theorem upsertLabelRow_ids_nodup (labels : List LabelRow) (s : LabelSpec)
    (h : (labels.map (fun l => l.id)).Nodup) :
    ((upsertLabelRow labels s).map (fun l => l.id)).Nodup := by
  rcases upsertLabelRow_ids labels s with he | he
  · rw [he]; exact h
  · rw [he]
    apply List.Nodup.append h (List.nodup_singleton _)
    intro x hx hx'
    rw [List.mem_singleton] at hx'
    exact nextLabelID_fresh labels (hx' ▸ hx)

theorem find_map_id_congr (labels : List LabelRow) (f : LabelRow → LabelRow) (n : String)
    (hname : ∀ l, ((f l).name == n) = (l.name == n)) (hid : ∀ l, (f l).id = l.id) :
    ((labels.map f).find? (fun l => l.name == n)).map (fun l => l.id)
      = (labels.find? (fun l => l.name == n)).map (fun l => l.id) := by
  induction labels with
  | nil => rfl
  | cons a as ih =>
    rw [List.map_cons, List.find?_cons, List.find?_cons, hname a]
    cases (a.name == n) with
    | true => simp [hid]
    | false => exact ih

theorem selectLabelID_upsert_other (db : DB) (s : LabelSpec) (n : String) (hn : s.Name ≠ n) :
    selectLabelID { db with labels := upsertLabelRow db.labels s } n = selectLabelID db n := by
  unfold selectLabelID upsertLabelRow
  simp only
  split
  · apply find_map_id_congr
    · intro l
      by_cases hl : l.name = s.Name
      · have h1 : l.name ≠ n := fun h => hn (hl ▸ h)
        simp [hl, hn]
      · simp [hl]
    · intro l
      split <;> rfl
  · rw [List.find?_append]
    cases hfind : db.labels.find? (fun l => l.name == n) with
    | some l => simp
    | none => simp [hn]

theorem selectLabelID_upsert_self (db : DB) (s : LabelSpec) :
    ∃ labelID, selectLabelID { db with labels := upsertLabelRow db.labels s } s.Name
      = some labelID := by
  have hmem : ∃ l ∈ upsertLabelRow db.labels s, l.name = s.Name := by
    unfold upsertLabelRow
    split
    · rename_i hany
      rw [List.any_eq_true] at hany
      obtain ⟨l, hl, hname⟩ := hany
      refine ⟨_, List.mem_map_of_mem _ hl, ?_⟩
      simp [hname]
    · exact ⟨_, List.mem_append_right _ (List.mem_singleton_self _), rfl⟩
  unfold selectLabelID
  simp only
  cases hfind : (upsertLabelRow db.labels s).find? (fun l => l.name == s.Name) with
  | some l => exact ⟨l.id, rfl⟩
  | none =>
    rw [List.find?_eq_none] at hfind
    obtain ⟨l, hl, hname⟩ := hmem
    exact absurd (by simpa using hname) (hfind l hl)

theorem selectLabelID_ne_of_names (db : DB) (h : (db.labels.map (fun l => l.id)).Nodup)
    (a b : String) (hab : a ≠ b) (ia ib : Nat) (ha : selectLabelID db a = some ia)
    (hb : selectLabelID db b = some ib) : ia ≠ ib := by
  unfold selectLabelID at ha hb
  rw [Option.map_eq_some'] at ha hb
  obtain ⟨la, hla, rfl⟩ := ha
  obtain ⟨lb, hlb, rfl⟩ := hb
  intro hid
  have hma := List.mem_of_find?_eq_some hla
  have hmb := List.mem_of_find?_eq_some hlb
  have hna := List.find?_some hla
  have hnb := List.find?_some hlb
  have : la = lb := List.inj_on_of_nodup_map h hma hmb hid
  apply hab
  simp only [beq_iff_eq] at hna hnb
  rw [← hna, ← hnb, this]

end Fleet

/-! ## One spec of `ApplyLabelSpecs` -/

namespace Fleet

theorem insertIgnoreMembership_nil (now labelID : Nat) (hosts : List HostRow)
    (t : List LabelMembershipRow) : insertIgnoreMembership now labelID hosts [] t = t := by
  unfold insertIgnoreMembership
  have : hosts.filter (fun h => ([] : List String).contains h.hostname) = [] := by
    rw [List.filter_eq_nil_iff]
    intro h _
    simp
  rw [this]
  rfl

theorem insertMembershipBatches_success (faults : List Specs.Stmt → Specs.Stmt → Bool)
    (now labelID : Nat) (batches : List (List String)) (tx tx' : Specs.Tx)
    (h : insertMembershipBatches faults now labelID tx batches = (tx', none)) :
    tx'.db.labels = tx.db.labels ∧ tx'.db.hosts = tx.db.hosts ∧
    tx'.db.label_membership
      = batches.foldl (fun t b => insertIgnoreMembership now labelID tx.db.hosts b t)
          tx.db.label_membership := by
  induction batches generalizing tx with
  | nil =>
    simp only [insertMembershipBatches, Prod.mk.injEq, and_true] at h
    subst h
    exact ⟨rfl, rfl, rfl⟩
  | cons b bs ih =>
    simp only [insertMembershipBatches] at h
    split at h
    · simp at h
    · by_cases hf : faults tx.log (.insertMembership labelID b) = true
      · simp [Specs.Tx.ExecContext, hf] at h
      · simp only [Specs.Tx.ExecContext, hf, Bool.false_eq_true, if_false] at h
        have := ih _ h
        simp only [Specs.Stmt.run] at this
        exact ⟨this.1, this.2.1, by rw [this.2.2, List.foldl_cons]⟩

theorem specs_exec_ok (faults : List Specs.Stmt → Specs.Stmt → Bool) (now : Nat)
    (tx : Specs.Tx) (st : Specs.Stmt) (h : ¬ (tx.ExecContext faults now st).2 = true) :
    (tx.ExecContext faults now st).1.db = st.run now tx.db := by
  unfold Specs.Tx.ExecContext at h ⊢
  split
  · rename_i hf; simp [hf] at h
  · rfl

theorem specs_get_db (faults : List Specs.Stmt → Specs.Stmt → Bool) (tx : Specs.Tx)
    (name : String) : (tx.GetLabelID faults name).1.db = tx.db := by
  unfold Specs.Tx.GetLabelID
  split <;> rfl

theorem specs_get_some (faults : List Specs.Stmt → Specs.Stmt → Bool) (tx : Specs.Tx)
    (name : String) (labelID : Nat) (h : (tx.GetLabelID faults name).2 = some labelID) :
    selectLabelID tx.db name = some labelID := by
  unfold Specs.Tx.GetLabelID at h
  split at h
  · simp at h
  · exact h

theorem selectLabelID_congr (db db' : DB) (name : String) (h : db.labels = db'.labels) :
    selectLabelID db name = selectLabelID db' name := by
  unfold selectLabelID
  rw [h]

theorem applyLabelSpec_success (faults : List Specs.Stmt → Specs.Stmt → Bool) (now : Nat)
    (tx tx' : Specs.Tx) (s : LabelSpec) (h : applyLabelSpec faults now tx s = (tx', none)) :
    tx'.db.labels = upsertLabelRow tx.db.labels s ∧ tx'.db.hosts = tx.db.hosts ∧
    ((s.LabelType = LabelType.builtIn ∨ s.LabelMembershipType ≠ LabelMembershipType.manual) →
      tx'.db.label_membership = tx.db.label_membership) ∧
    (¬ (s.LabelType = LabelType.builtIn
        ∨ s.LabelMembershipType ≠ LabelMembershipType.manual) →
      ∃ labelID,
        selectLabelID { tx.db with labels := upsertLabelRow tx.db.labels s } s.Name
          = some labelID ∧
        tx'.db.label_membership
          = (batchHostnames s.Hosts).foldl
              (fun t b => insertIgnoreMembership now labelID tx.db.hosts b t)
              (tx.db.label_membership.filter (fun r => !(r.label_id == labelID)))) := by
  unfold applyLabelSpec at h
  dsimp only at h
  split at h
  · simp at h
  · split at h
    · simp at h
    · rename_i h1
      have e1 := specs_exec_ok faults now tx (.upsertLabel s) h1
      simp only [Specs.Stmt.run] at e1
      split at h
      · rename_i hk
        injection h with htx _
        subst htx
        rw [e1]
        exact ⟨rfl, rfl, fun _ => rfl, fun hn => absurd hk hn⟩
      · rename_i hk
        split at h
        · simp at h
        · rename_i afterGet labelID hget
          have e2 : afterGet.db = (tx.ExecContext faults now (.upsertLabel s)).1.db := by
            have := specs_get_db faults (tx.ExecContext faults now (.upsertLabel s)).1 s.Name
            rw [hget] at this
            exact this
          have hsel : selectLabelID { tx.db with labels := upsertLabelRow tx.db.labels s } s.Name
              = some labelID := by
            have := specs_get_some faults (tx.ExecContext faults now (.upsertLabel s)).1 s.Name
              labelID (by rw [hget])
            rw [e1] at this
            exact this
          split at h
          · simp at h
          · rename_i h3
            have e3 := specs_exec_ok faults now afterGet (.clearMembership labelID) h3
            simp only [Specs.Stmt.run, e2, e1] at e3
            split at h
            · rename_i hh
              injection h with htx _
              subst htx
              rw [e3]
              refine ⟨rfl, rfl, fun hk' => absurd hk' hk, fun _ => ⟨labelID, hsel, ?_⟩⟩
              have hnil : s.Hosts = [] := List.length_eq_zero.mp hh
              rw [hnil]
              simp [batchHostnames, batchHostnamesOfSize, batchHostnamesLoop,
                insertIgnoreMembership_nil]
            · have hb := insertMembershipBatches_success faults now labelID _ _ _ h
              rw [e3] at hb
              exact ⟨hb.1, hb.2.1, fun hk' => absurd hk' hk, fun _ => ⟨labelID, hsel, hb.2.2⟩⟩

end Fleet

/-! ## Manual membership after `ApplyLabelSpecs` -/

namespace Fleet

theorem batchHostnames_flatten (hostnames : List String) :
    (batchHostnames hostnames).flatten = hostnames := by
  unfold batchHostnames batchHostnamesOfSize
  rw [batchHostnamesLoop_flatten]
  simp

theorem batches_foldl_pairs (now labelID : Nat) (hosts : List HostRow)
    (batches : List (List String)) (t : List LabelMembershipRow) (p : Nat × Nat) :
    p ∈ (batches.foldl (fun t b => insertIgnoreMembership now labelID hosts b t) t).map
        (fun r => (r.label_id, r.host_id)) ↔
      p ∈ t.map (fun r => (r.label_id, r.host_id)) ∨
        ∃ h ∈ hosts, h.hostname ∈ batches.flatten ∧ p = (labelID, h.id) := by
  induction batches generalizing t with
  | nil => simp
  | cons b bs ih =>
    rw [List.foldl_cons, ih, mem_pairs_insertIgnoreMembership]
    simp only [List.flatten_cons, List.mem_append]
    constructor
    · rintro ((h | ⟨x, hx, hb, hp⟩) | ⟨x, hx, hb, hp⟩)
      · exact Or.inl h
      · exact Or.inr ⟨x, hx, Or.inl hb, hp⟩
      · exact Or.inr ⟨x, hx, Or.inr hb, hp⟩
    · rintro (h | ⟨x, hx, hb | hb, hp⟩)
      · exact Or.inl (Or.inl h)
      · exact Or.inl (Or.inr ⟨x, hx, hb, hp⟩)
      · exact Or.inr ⟨x, hx, hb, hp⟩

theorem batches_foldl_count (now labelID : Nat) (hosts : List HostRow)
    (batches : List (List String)) (t : List LabelMembershipRow)
    (ht : ∀ hid, (t.map (fun r => (r.label_id, r.host_id))).count (labelID, hid) ≤ 1) :
    ∀ hid, ((batches.foldl (fun t b => insertIgnoreMembership now labelID hosts b t) t).map
      (fun r => (r.label_id, r.host_id))).count (labelID, hid) ≤ 1 := by
  induction batches generalizing t with
  | nil => exact ht
  | cons b bs ih =>
    rw [List.foldl_cons]
    exact ih _ (insertIgnoreMembership_count now labelID hosts b t ht)

theorem batches_foldl_filter_other (now labelID other : Nat) (hne : labelID ≠ other)
    (hosts : List HostRow) (batches : List (List String)) (t : List LabelMembershipRow) :
    (batches.foldl (fun t b => insertIgnoreMembership now labelID hosts b t) t).filter
        (fun r => r.label_id == other)
      = t.filter (fun r => r.label_id == other) := by
  induction batches generalizing t with
  | nil => rfl
  | cons b bs ih =>
    rw [List.foldl_cons, ih, insertIgnoreMembership_filter_other now labelID other hne]

/-- The membership of a label after its rows were cleared and the hosts of the
batches inserted: exactly the hosts whose hostname is in the list, each once. -/
theorem manual_membership_exact (now labelID : Nat) (hosts : List HostRow)
    (hostnames : List String) (t : List LabelMembershipRow) :
    (∀ hid,
      (labelID, hid) ∈
          ((batchHostnames hostnames).foldl
            (fun t b => insertIgnoreMembership now labelID hosts b t)
            (t.filter (fun r => !(r.label_id == labelID)))).map
            (fun r => (r.label_id, r.host_id)) ↔
        ∃ h ∈ hosts, h.id = hid ∧ h.hostname ∈ hostnames) ∧
    (∀ hid,
      (((batchHostnames hostnames).foldl
          (fun t b => insertIgnoreMembership now labelID hosts b t)
          (t.filter (fun r => !(r.label_id == labelID)))).map
          (fun r => (r.label_id, r.host_id))).count (labelID, hid) ≤ 1) := by
  have hclear : ∀ hid, (labelID, hid) ∉
      (t.filter (fun r => !(r.label_id == labelID))).map (fun r => (r.label_id, r.host_id)) := by
    intro hid hmem
    rw [List.mem_map] at hmem
    obtain ⟨r, hr, he⟩ := hmem
    have h1 := (List.mem_filter.mp hr).2
    simp only [Prod.mk.injEq] at he
    simp [he.1] at h1
  constructor
  · intro hid
    rw [batches_foldl_pairs, batchHostnames_flatten]
    constructor
    · rintro (h | ⟨x, hx, hn, hp⟩)
      · exact absurd h (hclear hid)
      · simp only [Prod.mk.injEq, true_and] at hp
        exact ⟨x, hx, hp.symm, hn⟩
    · rintro ⟨x, hx, hid', hn⟩
      exact Or.inr ⟨x, hx, hn, by rw [hid']⟩
  · apply batches_foldl_count
    intro hid
    rw [List.count_eq_zero.mpr (hclear hid)]
    exact Nat.zero_le _

theorem count_pairs_filter (t : List LabelMembershipRow) (labelID hid : Nat) :
    (t.map (fun r => (r.label_id, r.host_id))).count (labelID, hid)
      = ((t.filter (fun r => r.label_id == labelID)).map
          (fun r => (r.label_id, r.host_id))).count (labelID, hid) := by
  induction t with
  | nil => rfl
  | cons r rs ih =>
    rw [List.filter_cons]
    by_cases hr : r.label_id = labelID
    · simp only [hr, beq_self_eq_true, if_true, List.map_cons, List.count_cons, ih]
    · have hb : (r.label_id == labelID) = false := by simpa using hr
      rw [hb, List.map_cons, List.count_cons, ih]
      have : ((r.label_id, r.host_id) == (labelID, hid)) = false := by
        simp [hr]
      simp [this]

end Fleet

namespace Fleet

theorem filter_clear_other (t : List LabelMembershipRow) (labelID other : Nat)
    (hne : labelID ≠ other) :
    (t.filter (fun r => !(r.label_id == labelID))).filter (fun r => r.label_id == other)
      = t.filter (fun r => r.label_id == other) := by
  rw [List.filter_filter]
  apply List.filter_congr
  intro r _
  by_cases hr : r.label_id = other
  · have : r.label_id ≠ labelID := fun h => hne (h.symm.trans hr)
    simp [hr, this]
    exact fun h => hne h.symm
  · simp [hr]

/-- A spec with another name leaves the id and the membership rows of a label as
they are, when the ids of the table `labels` are pairwise distinct. -/
theorem applyLabelSpec_frame (faults : List Specs.Stmt → Specs.Stmt → Bool) (now : Nat)
    (tx tx' : Specs.Tx) (s : LabelSpec) (name : String) (labelID : Nat)
    (h : applyLabelSpec faults now tx s = (tx', none)) (hname : s.Name ≠ name)
    (hnodup : (tx.db.labels.map (fun l => l.id)).Nodup)
    (hsel : selectLabelID tx.db name = some labelID) :
    selectLabelID tx'.db name = some labelID ∧
    tx'.db.label_membership.filter (fun r => r.label_id == labelID)
      = tx.db.label_membership.filter (fun r => r.label_id == labelID) := by
  obtain ⟨hl, _, hkeep, hmanual⟩ := applyLabelSpec_success faults now tx tx' s h
  have hsel' : selectLabelID { tx.db with labels := upsertLabelRow tx.db.labels s } name
      = some labelID := by
    rw [selectLabelID_upsert_other tx.db s name hname]
    exact hsel
  constructor
  · rw [selectLabelID_congr tx'.db { tx.db with labels := upsertLabelRow tx.db.labels s } name hl]
    exact hsel'
  · by_cases hk : s.LabelType = LabelType.builtIn
        ∨ s.LabelMembershipType ≠ LabelMembershipType.manual
    · rw [hkeep hk]
    · obtain ⟨other, hother, hmem⟩ := hmanual hk
      have hne : other ≠ labelID :=
        selectLabelID_ne_of_names { tx.db with labels := upsertLabelRow tx.db.labels s }
          (upsertLabelRow_ids_nodup tx.db.labels s hnodup) s.Name name hname other labelID
          hother hsel'
      rw [hmem, batches_foldl_filter_other now other labelID hne,
        filter_clear_other _ other labelID hne]

theorem applyLabelSpecsLoop_cons_success (faults : List Specs.Stmt → Specs.Stmt → Bool)
    (now : Nat) (tx txf : Specs.Tx) (s : LabelSpec) (rest : List LabelSpec)
    (h : applyLabelSpecsLoop faults now tx (s :: rest) = (txf, none)) :
    ∃ tx', applyLabelSpec faults now tx s = (tx', none) ∧
      applyLabelSpecsLoop faults now tx' rest = (txf, none) := by
  simp only [applyLabelSpecsLoop] at h
  split at h
  · rename_i tx' heq
    exact ⟨tx', heq, h⟩
  · simp at h

theorem applyLabelSpecsLoop_nodup (faults : List Specs.Stmt → Specs.Stmt → Bool) (now : Nat)
    (specs : List LabelSpec) (tx txf : Specs.Tx)
    (h : applyLabelSpecsLoop faults now tx specs = (txf, none))
    (hnodup : (tx.db.labels.map (fun l => l.id)).Nodup) :
    (txf.db.labels.map (fun l => l.id)).Nodup ∧ txf.db.hosts = tx.db.hosts := by
  induction specs generalizing tx with
  | nil =>
    simp only [applyLabelSpecsLoop, Prod.mk.injEq, and_true] at h
    subst h
    exact ⟨hnodup, rfl⟩
  | cons s rest ih =>
    obtain ⟨tx', h1, h2⟩ := applyLabelSpecsLoop_cons_success faults now tx txf s rest h
    obtain ⟨hl, hh, _, _⟩ := applyLabelSpec_success faults now tx tx' s h1
    have := ih tx' h2 (by rw [hl]; exact upsertLabelRow_ids_nodup _ s hnodup)
    exact ⟨this.1, this.2.trans hh⟩

theorem applyLabelSpecsLoop_frame (faults : List Specs.Stmt → Specs.Stmt → Bool) (now : Nat)
    (specs : List LabelSpec) (tx txf : Specs.Tx) (name : String) (labelID : Nat)
    (h : applyLabelSpecsLoop faults now tx specs = (txf, none))
    (hnames : ∀ s ∈ specs, s.Name ≠ name)
    (hnodup : (tx.db.labels.map (fun l => l.id)).Nodup)
    (hsel : selectLabelID tx.db name = some labelID) :
    selectLabelID txf.db name = some labelID ∧
    txf.db.label_membership.filter (fun r => r.label_id == labelID)
      = tx.db.label_membership.filter (fun r => r.label_id == labelID) := by
  induction specs generalizing tx with
  | nil =>
    simp only [applyLabelSpecsLoop, Prod.mk.injEq, and_true] at h
    subst h
    exact ⟨hsel, rfl⟩
  | cons s rest ih =>
    obtain ⟨tx', h1, h2⟩ := applyLabelSpecsLoop_cons_success faults now tx txf s rest h
    obtain ⟨hl, _, _, _⟩ := applyLabelSpec_success faults now tx tx' s h1
    obtain ⟨hs1, hs2⟩ := applyLabelSpec_frame faults now tx tx' s name labelID h1
      (hnames s (List.mem_cons_self _ _)) hnodup hsel
    obtain ⟨hr1, hr2⟩ := ih tx' h2 (fun x hx => hnames x (List.mem_cons_of_mem _ hx))
      (by rw [hl]; exact upsertLabelRow_ids_nodup _ s hnodup) hs1
    exact ⟨hr1, hr2.trans hs2⟩

theorem applyLabelSpecsLoop_append_success (faults : List Specs.Stmt → Specs.Stmt → Bool)
    (now : Nat) (pre rest : List LabelSpec) (tx txf : Specs.Tx)
    (h : applyLabelSpecsLoop faults now tx (pre ++ rest) = (txf, none)) :
    ∃ tx', applyLabelSpecsLoop faults now tx pre = (tx', none) ∧
      applyLabelSpecsLoop faults now tx' rest = (txf, none) := by
  induction pre generalizing tx with
  | nil => exact ⟨tx, rfl, h⟩
  | cons s ss ih =>
    rw [List.cons_append] at h
    obtain ⟨tx1, h1, h2⟩ := applyLabelSpecsLoop_cons_success faults now tx txf s _ h
    obtain ⟨tx', h3, h4⟩ := ih tx1 h2
    refine ⟨tx', ?_, h4⟩
    simp only [applyLabelSpecsLoop, h1]
    exact h3

theorem applyLabelSpecs_success (faults : List Specs.Stmt → Specs.Stmt → Bool)
    (isPreparer prepareFails : Bool) (now : Nat) (db : DB) (specs : List LabelSpec)
    (hok : (ApplyLabelSpecs faults isPreparer prepareFails now db specs).err = none) :
    ∃ txf, applyLabelSpecsLoop faults now { db := db, log := [] } specs = (txf, none) ∧
      (ApplyLabelSpecs faults isPreparer prepareFails now db specs).db = txf.db := by
  unfold ApplyLabelSpecs Specs.withRetryTxx at hok ⊢
  cases isPreparer <;> cases prepareFails <;> simp only [Bool.not_true, Bool.not_false,
    Bool.false_eq_true, if_false, if_true] at hok ⊢
  · simp at hok
  · simp at hok
  · cases hloop : applyLabelSpecsLoop faults now { db := db, log := [] } specs with
    | mk txf e =>
      rw [hloop] at hok
      cases e with
      | none => exact ⟨txf, rfl, rfl⟩
      | some err => simp at hok
  · simp at hok

end Fleet

namespace Fleet

/-- C17 (as amended): let a spec of a custom label with manual membership be in the
list given to `ApplyLabelSpecs`, no later spec of the list having its name, and let
the ids of the table `labels` be pairwise distinct.  After a successful call the
label of that name exists and its membership is exactly the set of the hosts of the
table `hosts` whose hostname occurs in `spec.Hosts`, each host once, whatever the
membership was before, however the host list is split into batches and however
often a hostname is repeated. -/
theorem C17_manual_membership_replaced (faults : List Specs.Stmt → Specs.Stmt → Bool)
    (isPreparer prepareFails : Bool) (now : Nat) (db : DB) (pre post : List LabelSpec)
    (s : LabelSpec)
    (hnodup : (db.labels.map (fun l => l.id)).Nodup)
    (hcustom : s.LabelType ≠ LabelType.builtIn)
    (hmanual : s.LabelMembershipType = LabelMembershipType.manual)
    (hpost : ∀ s' ∈ post, s'.Name ≠ s.Name)
    (hok : (ApplyLabelSpecs faults isPreparer prepareFails now db (pre ++ s :: post)).err
      = none) :
    ∃ labelID,
      selectLabelID (ApplyLabelSpecs faults isPreparer prepareFails now db (pre ++ s :: post)).db
        s.Name = some labelID ∧
      (∀ hid,
        (labelID, hid) ∈ membershipPairs
            (ApplyLabelSpecs faults isPreparer prepareFails now db (pre ++ s :: post)).db ↔
          ∃ h ∈ db.hosts, h.id = hid ∧ h.hostname ∈ s.Hosts) ∧
      (∀ hid,
        (membershipPairs
          (ApplyLabelSpecs faults isPreparer prepareFails now db (pre ++ s :: post)).db).count
          (labelID, hid) ≤ 1) := by
  obtain ⟨txf, hloop, hdb⟩ :=
    applyLabelSpecs_success faults isPreparer prepareFails now db (pre ++ s :: post) hok
  rw [hdb]
  obtain ⟨tx1, hpre, hrest⟩ :=
    applyLabelSpecsLoop_append_success faults now pre (s :: post) _ txf hloop
  obtain ⟨tx2, hstep, hpostloop⟩ :=
    applyLabelSpecsLoop_cons_success faults now tx1 txf s post hrest
  obtain ⟨hnd1, hhosts1⟩ := applyLabelSpecsLoop_nodup faults now pre _ tx1 hpre hnodup
  simp only at hhosts1
  obtain ⟨hl2, hhosts2, _, hman⟩ := applyLabelSpec_success faults now tx1 tx2 s hstep
  have hk : ¬ (s.LabelType = LabelType.builtIn
      ∨ s.LabelMembershipType ≠ LabelMembershipType.manual) := by
    rintro (h | h)
    · exact hcustom h
    · exact h hmanual
  obtain ⟨labelID, hsel, hmem⟩ := hman hk
  have hsel2 : selectLabelID tx2.db s.Name = some labelID := by
    rw [selectLabelID_congr tx2.db { tx1.db with labels := upsertLabelRow tx1.db.labels s }
      s.Name hl2]
    exact hsel
  have hnd2 : (tx2.db.labels.map (fun l => l.id)).Nodup := by
    rw [hl2]; exact upsertLabelRow_ids_nodup _ s hnd1
  obtain ⟨hself, hfilter⟩ :=
    applyLabelSpecsLoop_frame faults now post tx2 txf s.Name labelID hpostloop hpost hnd2 hsel2
  have hexact := manual_membership_exact now labelID tx1.db.hosts s.Hosts tx1.db.label_membership
  rw [← hmem, hhosts1] at hexact
  have hcount : ∀ hid,
      (membershipPairs txf.db).count (labelID, hid)
        = (membershipPairs tx2.db).count (labelID, hid) := by
    intro hid
    unfold membershipPairs
    rw [count_pairs_filter txf.db.label_membership, count_pairs_filter tx2.db.label_membership,
      hfilter]
  refine ⟨labelID, hself, ?_, ?_⟩
  · intro hid
    rw [← hexact.1 hid]
    have := hcount hid
    unfold membershipPairs at this
    unfold membershipPairs
    rw [← List.count_pos_iff, ← List.count_pos_iff, this]
  · intro hid
    rw [hcount hid]
    exact hexact.2 hid

/-- C17 (witness): hosts 1 and 3 are named "a", host 2 is named "b", and host 2 is
a member of label 1, "web".  The list holds a dynamic spec, the manual spec of
"web" with the host names a, c, a, and a manual spec of another label: the
membership of "web" becomes the hosts 1 and 3. -/
theorem C17_manual_membership_replaced_witness :
    membershipPairs
      (ApplyLabelSpecs (fun _ _ => false) true false 99
        ⟨[⟨1, "web", "", "", "", .regular, .manual⟩],
          [⟨1, "a", 0⟩, ⟨2, "b", 0⟩, ⟨3, "a", 0⟩], [⟨5, 1, 2⟩]⟩
        ([⟨"dyn", "", "select 1", "", .regular, .dynamic, []⟩]
          ++ ⟨"web", "", "", "", .regular, .manual, ["a", "c", "a"]⟩
          :: [⟨"db", "", "", "", .regular, .manual, ["b"]⟩])).db
      = [(1, 1), (1, 3), (3, 2)] ∧
    ∃ labelID,
      selectLabelID
        (ApplyLabelSpecs (fun _ _ => false) true false 99
          ⟨[⟨1, "web", "", "", "", .regular, .manual⟩],
            [⟨1, "a", 0⟩, ⟨2, "b", 0⟩, ⟨3, "a", 0⟩], [⟨5, 1, 2⟩]⟩
          ([⟨"dyn", "", "select 1", "", .regular, .dynamic, []⟩]
            ++ ⟨"web", "", "", "", .regular, .manual, ["a", "c", "a"]⟩
            :: [⟨"db", "", "", "", .regular, .manual, ["b"]⟩])).db "web" = some labelID ∧
      (∀ hid,
        (labelID, hid) ∈ membershipPairs
            (ApplyLabelSpecs (fun _ _ => false) true false 99
              ⟨[⟨1, "web", "", "", "", .regular, .manual⟩],
                [⟨1, "a", 0⟩, ⟨2, "b", 0⟩, ⟨3, "a", 0⟩], [⟨5, 1, 2⟩]⟩
              ([⟨"dyn", "", "select 1", "", .regular, .dynamic, []⟩]
                ++ ⟨"web", "", "", "", .regular, .manual, ["a", "c", "a"]⟩
                :: [⟨"db", "", "", "", .regular, .manual, ["b"]⟩])).db ↔
          ∃ h ∈ ([⟨1, "a", 0⟩, ⟨2, "b", 0⟩, ⟨3, "a", 0⟩] : List HostRow),
            h.id = hid ∧ h.hostname ∈ ["a", "c", "a"]) ∧
      (∀ hid,
        (membershipPairs
          (ApplyLabelSpecs (fun _ _ => false) true false 99
            ⟨[⟨1, "web", "", "", "", .regular, .manual⟩],
              [⟨1, "a", 0⟩, ⟨2, "b", 0⟩, ⟨3, "a", 0⟩], [⟨5, 1, 2⟩]⟩
            ([⟨"dyn", "", "select 1", "", .regular, .dynamic, []⟩]
              ++ ⟨"web", "", "", "", .regular, .manual, ["a", "c", "a"]⟩
              :: [⟨"db", "", "", "", .regular, .manual, ["b"]⟩])).db).count
          (labelID, hid) ≤ 1) :=
  ⟨by decide,
   C17_manual_membership_replaced (fun _ _ => false) true false 99
     ⟨[⟨1, "web", "", "", "", .regular, .manual⟩],
       [⟨1, "a", 0⟩, ⟨2, "b", 0⟩, ⟨3, "a", 0⟩], [⟨5, 1, 2⟩]⟩
     [⟨"dyn", "", "select 1", "", .regular, .dynamic, []⟩]
     [⟨"db", "", "", "", .regular, .manual, ["b"]⟩]
     ⟨"web", "", "", "", .regular, .manual, ["a", "c", "a"]⟩
     (by decide) (by decide) rfl (by decide) (by decide)⟩

/-- C17 (counterexample): two manual specs of the label "web" in one list, the first
with the host name a, the second with b: the call succeeds and the membership of
"web" is host 2, not the host 1 of the first spec. -/
theorem C17_later_spec_of_same_name_wins :
    (ApplyLabelSpecs (fun _ _ => false) true false 99
      ⟨[], [⟨1, "a", 0⟩, ⟨2, "b", 0⟩], []⟩
      [⟨"web", "", "", "", .regular, .manual, ["a"]⟩,
        ⟨"web", "", "", "", .regular, .manual, ["b"]⟩]).err = none ∧
    selectLabelID
      (ApplyLabelSpecs (fun _ _ => false) true false 99
        ⟨[], [⟨1, "a", 0⟩, ⟨2, "b", 0⟩], []⟩
        [⟨"web", "", "", "", .regular, .manual, ["a"]⟩,
          ⟨"web", "", "", "", .regular, .manual, ["b"]⟩]).db "web" = some 1 ∧
    membershipPairs
      (ApplyLabelSpecs (fun _ _ => false) true false 99
        ⟨[], [⟨1, "a", 0⟩, ⟨2, "b", 0⟩], []⟩
        [⟨"web", "", "", "", .regular, .manual, ["a"]⟩,
          ⟨"web", "", "", "", .regular, .manual, ["b"]⟩]).db = [(1, 2)] ∧
    (∃ h ∈ ([⟨1, "a", 0⟩, ⟨2, "b", 0⟩] : List HostRow), h.id = 1 ∧ h.hostname ∈ ["a"]) := by
  decide

end Fleet

/-! ## Timestamps written by `RecordLabelQueryExecutions` -/

namespace Fleet

theorem mem_run_updateHost (db : DB) (labelUpdatedAt hostID : Nat) (h : HostRow)
    (hmem : h ∈ (Stmt.run db (.updateHostLabelUpdatedAt labelUpdatedAt hostID)).hosts)
    (hid : h.id = hostID) : h.label_updated_at = labelUpdatedAt := by
  simp only [Stmt.run, List.mem_map] at hmem
  obtain ⟨h0, _, he⟩ := hmem
  split at he
  · subst he; rfl
  · rename_i hne
    subst he
    exact absurd (by simpa using hid) hne

/-- C22: every value tuple of the membership insert carries `updated` as its
`updated_at`, and after a successful call every membership row of the host for a
label that matched has `updated_at = updated`; the statement that updates the host
binds `host.LabelUpdatedAt`, and after a successful call the row of the host has
that value as `label_updated_at`; so the timestamp of such a membership row and
that of the host are equal iff `host.LabelUpdatedAt = updated`. -/
theorem C22_timestamps_written (faults : Stmt → Bool) (db : DB) (host : Host)
    (results : ResultsMap) (updated : Nat)
    (hok : (RecordLabelQueryExecutions faults db host results updated).err = none) :
    (∀ v ∈ insertVals host results updated, v.1 = updated) ∧
    (∀ r ∈ (RecordLabelQueryExecutions faults db host results updated).db.label_membership,
      r.host_id = host.ID → results.index r.label_id = some true → r.updated_at = updated) ∧
    (.updateHostLabelUpdatedAt host.LabelUpdatedAt host.ID
      ∈ (RecordLabelQueryExecutions faults db host results updated).log) ∧
    (∀ h ∈ (RecordLabelQueryExecutions faults db host results updated).db.hosts,
      h.id = host.ID → h.label_updated_at = host.LabelUpdatedAt) ∧
    (∀ r ∈ (RecordLabelQueryExecutions faults db host results updated).db.label_membership,
      ∀ h ∈ (RecordLabelQueryExecutions faults db host results updated).db.hosts,
      r.host_id = host.ID → results.index r.label_id = some true → h.id = host.ID →
        (r.updated_at = h.label_updated_at ↔ host.LabelUpdatedAt = updated)) := by
  have hvals : ∀ v ∈ insertVals host results updated, v.1 = updated :=
    fun v hv => ((mem_insertVals_iff host results updated v).mp hv).1
  have hrows : ∀ r ∈
      (RecordLabelQueryExecutions faults db host results updated).db.label_membership,
      r.host_id = host.ID → results.index r.label_id = some true → r.updated_at = updated := by
    intro r hr hh ht
    rw [record_success_db faults db host results updated hok] at hr
    simp only [Stmt.run] at hr
    have hr' := (List.mem_filter.mp hr).1
    have hv : (updated, r.label_id, host.ID) ∈ insertVals host results updated :=
      (mem_insertVals_iff host results updated _).mpr ⟨rfl, ht, rfl⟩
    exact upsert_foldl_timestamp_of_mem (insertVals host results updated) db.label_membership
      updated hvals _ hv r hr' rfl hh
  have hhost : ∀ h ∈ (RecordLabelQueryExecutions faults db host results updated).db.hosts,
      h.id = host.ID → h.label_updated_at = host.LabelUpdatedAt := by
    intro h hh hid
    rw [record_success_db faults db host results updated hok] at hh
    exact mem_run_updateHost _ _ _ h hh hid
  refine ⟨hvals, hrows, ?_, hhost, ?_⟩
  · rw [record_outcome, recordTx_outcome] at hok ⊢
    split_ifs at hok ⊢ <;> simp_all
  · intro r hr h hh hrh ht hid
    rw [hrows r hr hrh ht, hhost h hh hid]
    exact eq_comm

/-- C22 (witness): the scenario of spec 8 with `updated = 10` and
`host.LabelUpdatedAt = 50`: the membership rows carry 10 and the host row 50. -/
theorem C22_timestamps_written_witness :
    (RecordLabelQueryExecutions (fun _ => false) scenarioDB (scenarioHost 50)
      scenarioResults1 10).db
      = ⟨[], [⟨7, "host7", 50⟩], [⟨10, 1, 7⟩, ⟨10, 2, 7⟩]⟩ ∧
    (∀ v ∈ insertVals (scenarioHost 50) scenarioResults1 10, v.1 = 10) :=
  ⟨by decide,
   (C22_timestamps_written (fun _ => false) scenarioDB (scenarioHost 50) scenarioResults1 10
      (by decide)).1⟩

end Fleet

/-! ## Specs without a host list, and specs without a name -/

namespace Fleet

theorem applyLabelSpec_definition_only (faults : List Specs.Stmt → Specs.Stmt → Bool)
    (now : Nat) (tx : Specs.Tx) (s : LabelSpec)
    (hk : s.LabelType = LabelType.builtIn
      ∨ s.LabelMembershipType ≠ LabelMembershipType.manual) :
    (applyLabelSpec faults now tx s).1.db.label_membership = tx.db.label_membership ∧
    (applyLabelSpec faults now tx s).1.db.hosts = tx.db.hosts ∧
    ((applyLabelSpec faults now tx s).1.log = tx.log ∨
      (applyLabelSpec faults now tx s).1.log = tx.log ++ [.upsertLabel s]) ∧
    ((applyLabelSpec faults now tx s).2 = none →
      (applyLabelSpec faults now tx s).1.log = tx.log ++ [.upsertLabel s] ∧
      (applyLabelSpec faults now tx s).1.db.labels = upsertLabelRow tx.db.labels s) := by
  unfold applyLabelSpec
  by_cases hn : s.Name = ""
  · simp [hn]
  · by_cases hf : faults tx.log (.upsertLabel s) = true
    · simp [hn, Specs.Tx.ExecContext, hf]
    · simp [hn, Specs.Tx.ExecContext, hf, hk, Specs.Stmt.run]

theorem applyLabelSpecsLoop_definition_only (faults : List Specs.Stmt → Specs.Stmt → Bool)
    (now : Nat) (specs : List LabelSpec) (tx : Specs.Tx)
    (hall : ∀ s ∈ specs, s.LabelType = LabelType.builtIn
      ∨ s.LabelMembershipType ≠ LabelMembershipType.manual) :
    (applyLabelSpecsLoop faults now tx specs).1.db.label_membership = tx.db.label_membership ∧
    ∃ sent, (applyLabelSpecsLoop faults now tx specs).1.log = tx.log ++ sent ∧
      ∀ st ∈ sent, ∃ s ∈ specs, st = .upsertLabel s := by
  induction specs generalizing tx with
  | nil => exact ⟨rfl, [], by simp [applyLabelSpecsLoop], by simp⟩
  | cons s rest ih =>
    have hs := applyLabelSpec_definition_only faults now tx s (hall s (List.mem_cons_self _ _))
    have hsent : ∃ sent, (applyLabelSpec faults now tx s).1.log = tx.log ++ sent ∧
        ∀ st ∈ sent, st = .upsertLabel s := by
      rcases hs.2.2.1 with h | h
      · exact ⟨[], by simpa using h, by simp⟩
      · exact ⟨[.upsertLabel s], h, by simp⟩
    obtain ⟨sent1, hlog1, hsent1⟩ := hsent
    simp only [applyLabelSpecsLoop]
    cases hstep : applyLabelSpec faults now tx s with
    | mk tx' e =>
      rw [hstep] at hs hlog1
      simp only at hs hlog1
      cases e with
      | some err =>
        simp only
        exact ⟨hs.1, sent1, hlog1,
          fun st hst => ⟨s, List.mem_cons_self _ _, hsent1 st hst⟩⟩
      | none =>
        simp only
        obtain ⟨hm, sent2, hlog2, hsent2⟩ :=
          ih tx' (fun x hx => hall x (List.mem_cons_of_mem _ hx))
        refine ⟨hm.trans hs.1, sent1 ++ sent2, ?_, ?_⟩
        · rw [hlog2, hlog1, List.append_assoc]
        · intro st hst
          rw [List.mem_append] at hst
          rcases hst with hst | hst
          · exact ⟨s, List.mem_cons_self _ _, hsent1 st hst⟩
          · obtain ⟨x, hx, hxe⟩ := hsent2 st hst
            exact ⟨x, List.mem_cons_of_mem _ hx, hxe⟩

/-- For a spec whose label is built-in or whose membership is not manual, the
body of the loop of `ApplyLabelSpecs` sends at most the insert of the label's
definition and leaves `label_membership` as it is; and a call whose specs are all of
that kind sends only such inserts and commits `label_membership` unchanged. -/
theorem applyLabelSpecs_all_definition_only (faults : List Specs.Stmt → Specs.Stmt → Bool)
    (isPreparer prepareFails : Bool) (now : Nat) (db : DB) (tx : Specs.Tx) (s : LabelSpec)
    (specs : List LabelSpec)
    (hk : s.LabelType = LabelType.builtIn
      ∨ s.LabelMembershipType ≠ LabelMembershipType.manual)
    (hall : ∀ x ∈ specs, x.LabelType = LabelType.builtIn
      ∨ x.LabelMembershipType ≠ LabelMembershipType.manual) :
    ((applyLabelSpec faults now tx s).1.db.label_membership = tx.db.label_membership ∧
      ((applyLabelSpec faults now tx s).1.log = tx.log ∨
        (applyLabelSpec faults now tx s).1.log = tx.log ++ [.upsertLabel s]) ∧
      ((applyLabelSpec faults now tx s).2 = none →
        (applyLabelSpec faults now tx s).1.log = tx.log ++ [.upsertLabel s] ∧
        (applyLabelSpec faults now tx s).1.db.labels = upsertLabelRow tx.db.labels s)) ∧
    ((ApplyLabelSpecs faults isPreparer prepareFails now db specs).db.label_membership
        = db.label_membership ∧
      ∀ st ∈ (ApplyLabelSpecs faults isPreparer prepareFails now db specs).log,
        ∃ x ∈ specs, st = .upsertLabel x) := by
  have hs := applyLabelSpec_definition_only faults now tx s hk
  refine ⟨⟨hs.1, hs.2.2.1, hs.2.2.2⟩, ?_⟩
  obtain ⟨hm, sent, hlog, hsent⟩ :=
    applyLabelSpecsLoop_definition_only faults now specs { db := db, log := [] } hall
  simp only [List.nil_append] at hlog
  unfold ApplyLabelSpecs Specs.withRetryTxx
  cases isPreparer <;> cases prepareFails <;>
    simp only [Bool.not_true, Bool.not_false, Bool.false_eq_true, if_false, if_true]
  · simp
  · simp
  · cases hloop : applyLabelSpecsLoop faults now { db := db, log := [] } specs with
    | mk txf e =>
      rw [hloop] at hm hlog
      simp only at hm hlog
      cases e with
      | none => exact ⟨hm, fun st hst => hsent st (hlog ▸ hst)⟩
      | some err => exact ⟨rfl, fun st hst => hsent st (hlog ▸ hst)⟩
  · simp

/-- An instance: host 2 is a member of the labels 1 and 2; the specs of the
built-in label "All Hosts" (label 1) and of the dynamic label "web" (label 2) are
applied, both with a host list: only the two definitions are sent and the
memberships stay. -/
theorem applyLabelSpecs_all_definition_only_example :
    (ApplyLabelSpecs (fun _ _ => false) true false 99
      ⟨[⟨1, "All Hosts", "", "select 1", "", .builtIn, .manual⟩,
          ⟨2, "web", "", "select 2", "", .regular, .dynamic⟩],
        [⟨1, "a", 0⟩, ⟨2, "b", 0⟩], [⟨5, 1, 2⟩, ⟨5, 2, 2⟩]⟩
      [⟨"All Hosts", "", "select 1", "", .builtIn, .manual, ["a"]⟩,
        ⟨"web", "new", "select 3", "", .regular, .dynamic, ["a"]⟩]).log
      = [.upsertLabel ⟨"All Hosts", "", "select 1", "", .builtIn, .manual, ["a"]⟩,
          .upsertLabel ⟨"web", "new", "select 3", "", .regular, .dynamic, ["a"]⟩] ∧
    (ApplyLabelSpecs (fun _ _ => false) true false 99
      ⟨[⟨1, "All Hosts", "", "select 1", "", .builtIn, .manual⟩,
          ⟨2, "web", "", "select 2", "", .regular, .dynamic⟩],
        [⟨1, "a", 0⟩, ⟨2, "b", 0⟩], [⟨5, 1, 2⟩, ⟨5, 2, 2⟩]⟩
      [⟨"All Hosts", "", "select 1", "", .builtIn, .manual, ["a"]⟩,
        ⟨"web", "new", "select 3", "", .regular, .dynamic, ["a"]⟩]).db.label_membership
      = [⟨5, 1, 2⟩, ⟨5, 2, 2⟩] :=
  ⟨by decide,
   (applyLabelSpecs_all_definition_only (fun _ _ => false) true false 99
      ⟨[⟨1, "All Hosts", "", "select 1", "", .builtIn, .manual⟩,
          ⟨2, "web", "", "select 2", "", .regular, .dynamic⟩],
        [⟨1, "a", 0⟩, ⟨2, "b", 0⟩], [⟨5, 1, 2⟩, ⟨5, 2, 2⟩]⟩
      ⟨⟨[], [], []⟩, []⟩
      ⟨"All Hosts", "", "select 1", "", .builtIn, .manual, ["a"]⟩
      [⟨"All Hosts", "", "select 1", "", .builtIn, .manual, ["a"]⟩,
        ⟨"web", "new", "select 3", "", .regular, .dynamic, ["a"]⟩]
      (by decide) (by decide)).2.1⟩

theorem applyLabelSpecsLoop_empty_name (faults : List Specs.Stmt → Specs.Stmt → Bool)
    (now : Nat) (specs : List LabelSpec) (tx : Specs.Tx)
    (h : ∃ s ∈ specs, s.Name = "") :
    (applyLabelSpecsLoop faults now tx specs).2 ≠ none := by
  induction specs generalizing tx with
  | nil =>
    obtain ⟨s, hs, _⟩ := h
    exact absurd hs (List.not_mem_nil _)
  | cons s rest ih =>
    simp only [applyLabelSpecsLoop]
    cases hstep : applyLabelSpec faults now tx s with
    | mk tx' e =>
      cases e with
      | some err => simp
      | none =>
        simp only
        apply ih
        obtain ⟨x, hx, hxn⟩ := h
        rw [List.mem_cons] at hx
        rcases hx with hx | hx
        · subst hx
          unfold applyLabelSpec at hstep
          simp [hxn] at hstep
        · exact ⟨x, hx, hxn⟩

/-- C24: when a spec of the list has an empty name, `ApplyLabelSpecs` returns an
error and the committed tables are those before the call: nothing of any spec of
the list, the preceding ones included, is committed. -/
theorem C24_empty_name_rolls_back (faults : List Specs.Stmt → Specs.Stmt → Bool)
    (isPreparer prepareFails : Bool) (now : Nat) (db : DB) (specs : List LabelSpec)
    (h : ∃ s ∈ specs, s.Name = "") :
    (ApplyLabelSpecs faults isPreparer prepareFails now db specs).err ≠ none ∧
    (ApplyLabelSpecs faults isPreparer prepareFails now db specs).db = db := by
  have hloop := applyLabelSpecsLoop_empty_name faults now specs { db := db, log := [] } h
  unfold ApplyLabelSpecs Specs.withRetryTxx
  cases isPreparer <;> cases prepareFails <;>
    simp only [Bool.not_true, Bool.not_false, Bool.false_eq_true, if_false, if_true]
  · simp
  · simp
  · cases hl : applyLabelSpecsLoop faults now { db := db, log := [] } specs with
    | mk txf e =>
      rw [hl] at hloop
      cases e with
      | none => exact absurd rfl hloop
      | some err => simp
  · simp

/-- C24 (witness): a manual spec of "web" with the host name a, followed by a spec
without a name: the statements of the first spec were sent, the error is "label
name must not be empty", and the tables are unchanged. -/
theorem C24_empty_name_rolls_back_witness :
    (ApplyLabelSpecs (fun _ _ => false) true false 99
      ⟨[], [⟨1, "a", 0⟩], [⟨5, 1, 1⟩]⟩
      [⟨"web", "", "", "", .regular, .manual, ["a"]⟩,
        ⟨"", "", "", "", .regular, .dynamic, []⟩])
      = ⟨⟨[], [⟨1, "a", 0⟩], [⟨5, 1, 1⟩]⟩,
          [.upsertLabel ⟨"web", "", "", "", .regular, .manual, ["a"]⟩, .getLabelID "web",
            .clearMembership 1, .insertMembership 1 ["a"]],
          some .emptyName⟩ ∧
    ((ApplyLabelSpecs (fun _ _ => false) true false 99
        ⟨[], [⟨1, "a", 0⟩], [⟨5, 1, 1⟩]⟩
        [⟨"web", "", "", "", .regular, .manual, ["a"]⟩,
          ⟨"", "", "", "", .regular, .dynamic, []⟩]).err ≠ none ∧
      (ApplyLabelSpecs (fun _ _ => false) true false 99
        ⟨[], [⟨1, "a", 0⟩], [⟨5, 1, 1⟩]⟩
        [⟨"web", "", "", "", .regular, .manual, ["a"]⟩,
          ⟨"", "", "", "", .regular, .dynamic, []⟩]).db
        = ⟨[], [⟨1, "a", 0⟩], [⟨5, 1, 1⟩]⟩) :=
  ⟨by decide,
   C24_empty_name_rolls_back (fun _ _ => false) true false 99
     ⟨[], [⟨1, "a", 0⟩], [⟨5, 1, 1⟩]⟩
     [⟨"web", "", "", "", .regular, .manual, ["a"]⟩,
       ⟨"", "", "", "", .regular, .dynamic, []⟩]
     (by decide)⟩

end Fleet

/-! ## Label queries for a host -/

namespace Fleet

theorem mem_selectLabelQueries (db : DB) (platform : String)
    (membershipType : LabelMembershipType) (p : Nat × String) :
    p ∈ selectLabelQueries db platform membershipType ↔
      ∃ l ∈ db.labels, (l.platform = platform ∨
        (l.platform = "" ∧ l.label_membership_type = membershipType)) ∧ p = (l.id, l.query) := by
  simp only [selectLabelQueries, List.mem_map, List.mem_filter, Bool.or_eq_true,
    Bool.and_eq_true, beq_iff_eq]
  constructor
  · rintro ⟨l, ⟨hl, hc⟩, rfl⟩
    exact ⟨l, hl, hc, rfl⟩
  · rintro ⟨l, hl, hc, rfl⟩
    exact ⟨l, ⟨hl, hc⟩, rfl⟩

/-- C23 (the code at the failing input): the host has the platform "darwin"; label
5 has manual membership and the platform "darwin", label 6 has manual membership
and no platform, label 7 is dynamic without platform.  The query of the manual
label 5 is returned with that of label 7; that of label 6 is not. -/
theorem C23_manual_label_of_host_platform_returned :
    platformForHost ⟨7, "darwin", "", 0⟩ = "darwin" ∧
    LabelQueriesForHost none
        ⟨[⟨5, "vip", "", "", "darwin", .regular, .manual⟩,
          ⟨6, "lab", "", "", "", .regular, .manual⟩,
          ⟨7, "all", "", "select 1", "", .regular, .dynamic⟩], [], []⟩
        ⟨7, "darwin", "", 0⟩
      = .ok [(5, ""), (7, "select 1")] := by
  constructor
  · decide
  · rfl

end Fleet

/-! ## Order of the bound label ids -/

namespace Fleet

theorem insertIDs_sorted (host : Host) (results : ResultsMap) (updated : Nat) :
    (insertIDs host results updated).Sorted (fun a b => a < b) := by
  rw [insertIDs_eq]
  exact (sortSlice_sorted_lt _ results.nodup).filter _

theorem deleteIDs_sorted (host : Host) (results : ResultsMap) (updated : Nat) :
    (deleteIDs host results updated).Sorted (fun a b => a < b) := by
  rw [deleteIDs_eq]
  exact (sortSlice_sorted_lt _ results.nodup).filter _

/-- C2: in every call, a membership insert that is sent binds the value tuples of
the matched labels with their label ids in strictly ascending order, and a
membership delete that is sent binds the other label ids in strictly ascending
order; the insert is sent whenever a label matched, and the delete whenever a label
did not match and the call did not stop at a failed insert.  Two maps with the same
entries, whatever their iteration order, give the same bound values, the same
statements and the same outcome of the call. -/
theorem C2_statements_ordered_and_deterministic (faults : Stmt → Bool) (db : DB) (host : Host)
    (results results' : ResultsMap) (updated : Nat)
    (hperm : results.entries.Perm results'.entries) :
    (∀ vals, Stmt.upsertMembership vals
        ∈ (RecordLabelQueryExecutions faults db host results updated).log →
      vals = insertVals host results updated ∧
        (vals.map (fun v => v.2.1)).Sorted (fun a b => a < b)) ∧
    (∀ hostID removes, Stmt.deleteMembership hostID removes
        ∈ (RecordLabelQueryExecutions faults db host results updated).log →
      hostID = host.ID ∧ removes = deleteIDs host results updated ∧
        removes.Sorted (fun a b => a < b)) ∧
    (insertVals host results updated ≠ [] →
      Stmt.upsertMembership (insertVals host results updated)
        ∈ (RecordLabelQueryExecutions faults db host results updated).log) ∧
    (deleteIDs host results updated ≠ [] →
      (RecordLabelQueryExecutions faults db host results updated).err
        ≠ some .insertLabelQueryExecutions →
      Stmt.deleteMembership host.ID (deleteIDs host results updated)
        ∈ (RecordLabelQueryExecutions faults db host results updated).log) ∧
    (insertIDs host results updated).Sorted (fun a b => a < b) ∧
    (deleteIDs host results updated).Sorted (fun a b => a < b) ∧
    insertVals host results updated = insertVals host results' updated ∧
    deleteIDs host results updated = deleteIDs host results' updated ∧
    RecordLabelQueryExecutions faults db host results updated
      = RecordLabelQueryExecutions faults db host results' updated := by
  have hc := collectResults_eq_of_perm host results results' updated hperm
  have hI := insertIDs_sorted host results updated
  have hD := deleteIDs_sorted host results updated
  refine ⟨?_, ?_, ?_, ?_, hI, hD, ?_, ?_, ?_⟩
  · intro vals hmem
    have hv : vals = insertVals host results updated := by
      rw [record_outcome, recordTx_outcome] at hmem
      split_ifs at hmem <;> simp_all
    exact ⟨hv, by rw [hv]; exact hI⟩
  · intro hostID removes hmem
    have hv : hostID = host.ID ∧ removes = deleteIDs host results updated := by
      rw [record_outcome, recordTx_outcome] at hmem
      split_ifs at hmem <;> simp_all
    exact ⟨hv.1, hv.2, by rw [hv.2]; exact hD⟩
  · intro hne
    rw [record_outcome, recordTx_outcome]
    split_ifs <;> simp_all
  · intro hne herr
    rw [record_outcome, recordTx_outcome] at herr ⊢
    split_ifs at herr ⊢ <;> simp_all
  · simp only [insertVals, hc]
  · simp only [deleteIDs, hc]
  · simp only [RecordLabelQueryExecutions, hc]

/-- C2 (witness): the entries 8 ↦ false, 2 ↦ true, 3 ↦ nil, 1 ↦ true met in two
different iteration orders: the insert binds the labels 1, 2 and the delete the
labels 3, 8, in this order, for both. -/
theorem C2_statements_ordered_and_deterministic_witness :
    (RecordLabelQueryExecutions (fun _ => false) ⟨[], [⟨7, "h", 0⟩], []⟩ ⟨7, "", "", 50⟩
        ⟨[(8, some false), (2, some true), (3, none), (1, some true)], by decide⟩ 10).log
      = [.upsertMembership [(10, 1, 7), (10, 2, 7)], .deleteMembership 7 [3, 8],
          .updateHostLabelUpdatedAt 50 7] ∧
    RecordLabelQueryExecutions (fun _ => false) ⟨[], [⟨7, "h", 0⟩], []⟩ ⟨7, "", "", 50⟩
        ⟨[(8, some false), (2, some true), (3, none), (1, some true)], by decide⟩ 10
      = RecordLabelQueryExecutions (fun _ => false) ⟨[], [⟨7, "h", 0⟩], []⟩ ⟨7, "", "", 50⟩
        ⟨[(1, some true), (3, none), (2, some true), (8, some false)], by decide⟩ 10 :=
  ⟨by decide,
   (C2_statements_ordered_and_deterministic (fun _ => false) ⟨[], [⟨7, "h", 0⟩], []⟩
      ⟨7, "", "", 50⟩
      ⟨[(8, some false), (2, some true), (3, none), (1, some true)], by decide⟩
      ⟨[(1, some true), (3, none), (2, some true), (8, some false)], by decide⟩ 10
      (by decide)).2.2.2.2.2.2.2.2⟩

end Fleet

/-! ## The All Hosts label and the omit list -/

namespace Fleet

/-- C20 (the code at the failing input): the table `labels` holds the built-in
label All Hosts with id 1 and the regular label "web" with id 2, and the omit list
holds the id 1.  `addAllHostsLabelToList` returns the list it was given, without the
All Hosts label; and `SearchLabels` for "web", whatever `transformQuery`,
`queryMinLength` and the full-text match are, returns without error a list that
holds no label with id 1. -/
theorem C20_all_hosts_label_omitted :
    selectAllHostsLabel
        ⟨[⟨1, "All Hosts", "", "select 1", "", .builtIn, .dynamic⟩,
          ⟨2, "web", "", "select 2", "", .regular, .dynamic⟩], [], []⟩
      = some ⟨1, "All Hosts", "", "select 1", "", .builtIn, .dynamic⟩ ∧
    addAllHostsLabelToList (fun _ => 3) false
        ⟨[⟨1, "All Hosts", "", "select 1", "", .builtIn, .dynamic⟩,
          ⟨2, "web", "", "select 2", "", .regular, .dynamic⟩], [], []⟩
        [⟨2, "web", "", "select 2", "", .regular, .dynamic, 0⟩] [1]
      = .ok [⟨2, "web", "", "select 2", "", .regular, .dynamic, 0⟩] ∧
    (¬ ∃ x ∈ ([⟨2, "web", "", "select 2", "", .regular, .dynamic, 0⟩] : List Label),
      x.ID = 1) ∧
    (∀ (transformQuery : String → String) (queryMinLength : String → Bool)
        (matchesName : String → String → Bool) (hostCount : Nat → Nat),
      ∃ l, SearchLabels transformQuery queryMinLength matchesName hostCount false false
          ⟨[⟨1, "All Hosts", "", "select 1", "", .builtIn, .dynamic⟩,
            ⟨2, "web", "", "select 2", "", .regular, .dynamic⟩], [], []⟩ "web" [1] = .ok l ∧
        ¬ ∃ x ∈ l, x.ID = 1) := by
  refine ⟨rfl, rfl, by decide, ?_⟩
  intro transformQuery queryMinLength matchesName hostCount
  cases h1 : queryMinLength (transformQuery "web") <;>
  cases h2 : matchesName (transformQuery "web") "web" <;>
  cases h3 : matchesName (transformQuery "web") "All Hosts" <;>
  simp [SearchLabels, searchLabelsDefault, searchLabelsWithOmits, addAllHostsLabelToList,
    selectAllHostsLabel, orderLabels, labelOfRow, h1, h2, h3]

end Fleet

/-! ## Labels that no spec of a call gives a host list -/

namespace Fleet

theorem selectLabelID_mem_ids (db : DB) (name : String) (labelID : Nat)
    (h : selectLabelID db name = some labelID) : labelID ∈ db.labels.map (fun l => l.id) := by
  unfold selectLabelID at h
  rw [Option.map_eq_some'] at h
  obtain ⟨l, hl, rfl⟩ := h
  exact List.mem_map_of_mem _ (List.mem_of_find?_eq_some hl)

theorem selectLabelID_upsert_same (db : DB) (s : LabelSpec) (labelID : Nat)
    (h : selectLabelID db s.Name = some labelID) :
    selectLabelID { db with labels := upsertLabelRow db.labels s } s.Name = some labelID := by
  have hany : db.labels.any (fun l => l.name == s.Name) = true := by
    unfold selectLabelID at h
    rw [Option.map_eq_some'] at h
    obtain ⟨l, hl, _⟩ := h
    rw [List.any_eq_true]
    have hp := List.find?_some hl
    exact ⟨l, List.mem_of_find?_eq_some hl, hp⟩
  rw [← h]
  unfold selectLabelID upsertLabelRow
  simp only [hany, if_true]
  apply find_map_id_congr
  · intro l
    by_cases hl : l.name = s.Name <;> simp [hl]
  · intro l
    split <;> rfl

theorem selectLabelID_upsert_new (db : DB) (s : LabelSpec)
    (h : selectLabelID db s.Name = none) :
    selectLabelID { db with labels := upsertLabelRow db.labels s } s.Name
      = some (nextLabelID db.labels) := by
  have hfind : db.labels.find? (fun l => l.name == s.Name) = none := by
    unfold selectLabelID at h
    simpa using h
  have hany : db.labels.any (fun l => l.name == s.Name) = false := by
    rw [List.any_eq_false]
    rw [List.find?_eq_none] at hfind
    exact hfind
  unfold selectLabelID upsertLabelRow
  simp only [hany, Bool.false_eq_true, if_false]
  rw [List.find?_append, hfind]
  simp

theorem mem_ids_upsertLabelRow (labels : List LabelRow) (s : LabelSpec) (x : Nat)
    (hx : x ∈ labels.map (fun l => l.id)) :
    x ∈ (upsertLabelRow labels s).map (fun l => l.id) := by
  rcases upsertLabelRow_ids labels s with he | he
  · rw [he]; exact hx
  · rw [he]; exact List.mem_append_left _ hx

theorem isIdOrFree_of_upsert (db : DB) (s : LabelSpec) (name : String) (labelID : Nat)
    (h : isIdOrFree { db with labels := upsertLabelRow db.labels s } name labelID) :
    isIdOrFree db name labelID := by
  unfold isIdOrFree at h ⊢
  by_cases hn : s.Name = name
  · subst hn
    cases hsel : selectLabelID db s.Name with
    | some l0 =>
      rw [selectLabelID_upsert_same db s l0 hsel] at h
      rcases h with h | h
      · exact Or.inl h
      · simp at h
    | none =>
      rw [selectLabelID_upsert_new db s hsel] at h
      rcases h with h | h
      · right
        refine ⟨rfl, ?_⟩
        have : labelID = nextLabelID db.labels := by
          injection h with h'
          exact h'.symm
        rw [this]
        exact nextLabelID_fresh db.labels
      · simp at h
  · rw [selectLabelID_upsert_other db s name hn] at h
    rcases h with h | h
    · exact Or.inl h
    · exact Or.inr ⟨h.1, fun hx => h.2 (mem_ids_upsertLabelRow db.labels s labelID hx)⟩

theorem isIdOrFree_congr (db db' : DB) (name : String) (labelID : Nat)
    (h : db.labels = db'.labels) : isIdOrFree db name labelID ↔ isIdOrFree db' name labelID := by
  unfold isIdOrFree
  rw [selectLabelID_congr db db' name h, h]

end Fleet

namespace Fleet

theorem insertMembershipBatches_any (faults : List Specs.Stmt → Specs.Stmt → Bool)
    (now labelID : Nat) (batches : List (List String)) (tx : Specs.Tx) :
    (insertMembershipBatches faults now labelID tx batches).1.db.labels = tx.db.labels ∧
    (insertMembershipBatches faults now labelID tx batches).1.db.hosts = tx.db.hosts ∧
    (∃ sent, (insertMembershipBatches faults now labelID tx batches).1.log = tx.log ++ sent ∧
      ∀ st ∈ sent, ∃ b, st = Specs.Stmt.insertMembership labelID b) ∧
    (∀ other, labelID ≠ other →
      (insertMembershipBatches faults now labelID tx batches).1.db.label_membership.filter
          (fun r => r.label_id == other)
        = tx.db.label_membership.filter (fun r => r.label_id == other)) := by
  induction batches generalizing tx with
  | nil => exact ⟨rfl, rfl, ⟨[], by simp [insertMembershipBatches], by simp⟩, fun _ _ => rfl⟩
  | cons b bs ih =>
    by_cases hb : b.length = 0
    · have e : insertMembershipBatches faults now labelID tx (b :: bs)
          = (tx, some .buildMembershipIN) := by
        simp [insertMembershipBatches, hb]
      rw [e]
      exact ⟨rfl, rfl, ⟨[], by simp, by simp⟩, fun _ _ => rfl⟩
    · by_cases hf : faults tx.log (.insertMembership labelID b) = true
      · have e : insertMembershipBatches faults now labelID tx (b :: bs)
            = ({ tx with log := tx.log ++ [.insertMembership labelID b] },
                some .executeMembershipInsert) := by
          simp [insertMembershipBatches, hb, Specs.Tx.ExecContext, hf]
        rw [e]
        exact ⟨rfl, rfl, ⟨[.insertMembership labelID b], rfl, by simp⟩, fun _ _ => rfl⟩
      · have e : insertMembershipBatches faults now labelID tx (b :: bs)
            = insertMembershipBatches faults now labelID
                { db := Specs.Stmt.run now tx.db (.insertMembership labelID b),
                  log := tx.log ++ [.insertMembership labelID b] } bs := by
          simp [insertMembershipBatches, hb, Specs.Tx.ExecContext, hf]
        rw [e]
        obtain ⟨h1, h2, ⟨sent, h3, h4⟩, h5⟩ :=
          ih { db := Specs.Stmt.run now tx.db (.insertMembership labelID b),
               log := tx.log ++ [.insertMembership labelID b] }
        refine ⟨h1, h2, ⟨.insertMembership labelID b :: sent, ?_, ?_⟩, ?_⟩
        · rw [h3]; simp
        · intro st hst
          rw [List.mem_cons] at hst
          rcases hst with hst | hst
          · exact ⟨b, hst⟩
          · exact h4 st hst
        · intro other hne
          rw [h5 other hne]
          simp only [Specs.Stmt.run]
          exact insertIgnoreMembership_filter_other now labelID other hne _ _ _

end Fleet

namespace Fleet

/-- Whatever the outcome of one pass of the loop of `ApplyLabelSpecs`: the hosts
are untouched, the labels are untouched or hold the upserted spec, and either only
the upsert and the id query were sent and the membership is untouched, or the spec
is a custom label with manual membership and every membership statement sent bears
the id read for its name. -/
theorem applyLabelSpec_any (faults : List Specs.Stmt → Specs.Stmt → Bool)
    (now : Nat) (tx : Specs.Tx) (x : LabelSpec) :
    ∃ sent, (applyLabelSpec faults now tx x).1.log = tx.log ++ sent ∧
      ((applyLabelSpec faults now tx x).2 = none → Specs.Stmt.upsertLabel x ∈ sent) ∧
      (applyLabelSpec faults now tx x).1.db.hosts = tx.db.hosts ∧
      ((applyLabelSpec faults now tx x).1.db.labels = tx.db.labels ∨
        (applyLabelSpec faults now tx x).1.db.labels = upsertLabelRow tx.db.labels x) ∧
      (((applyLabelSpec faults now tx x).1.db.label_membership = tx.db.label_membership ∧
          ∀ st ∈ sent, st = Specs.Stmt.upsertLabel x ∨ st = Specs.Stmt.getLabelID x.Name) ∨
        (¬ (x.LabelType = LabelType.builtIn
            ∨ x.LabelMembershipType ≠ LabelMembershipType.manual) ∧
          ∃ labelID,
            selectLabelID { tx.db with labels := upsertLabelRow tx.db.labels x } x.Name
              = some labelID ∧
            (applyLabelSpec faults now tx x).1.db.labels = upsertLabelRow tx.db.labels x ∧
            (∀ st ∈ sent, st = Specs.Stmt.upsertLabel x ∨ st = Specs.Stmt.getLabelID x.Name ∨
              st = Specs.Stmt.clearMembership labelID ∨
              ∃ b, st = Specs.Stmt.insertMembership labelID b) ∧
            ∀ other, labelID ≠ other →
              (applyLabelSpec faults now tx x).1.db.label_membership.filter
                  (fun r => r.label_id == other)
                = tx.db.label_membership.filter (fun r => r.label_id == other))) := by
  by_cases hname : x.Name = ""
  · have e : applyLabelSpec faults now tx x = (tx, some .emptyName) := by
      simp [applyLabelSpec, hname]
    rw [e]
    exact ⟨[], by simp, by simp, rfl, Or.inl rfl, Or.inl ⟨rfl, by simp⟩⟩
  by_cases hf : faults tx.log (.upsertLabel x) = true
  · have e : applyLabelSpec faults now tx x
        = ({ tx with log := tx.log ++ [.upsertLabel x] }, some .execInsert) := by
      simp [applyLabelSpec, hname, Specs.Tx.ExecContext, hf]
    rw [e]
    exact ⟨[.upsertLabel x], rfl, by simp, rfl, Or.inl rfl, Or.inl ⟨rfl, by simp⟩⟩
  by_cases hk : x.LabelType = LabelType.builtIn
      ∨ x.LabelMembershipType ≠ LabelMembershipType.manual
  · have e : applyLabelSpec faults now tx x
        = ({ db := { tx.db with labels := upsertLabelRow tx.db.labels x },
             log := tx.log ++ [.upsertLabel x] }, none) := by
      simp only [applyLabelSpec, hname, Specs.Tx.ExecContext, hf, Specs.Stmt.run, if_false,
        Bool.false_eq_true, if_pos hk]
    rw [e]
    exact ⟨[.upsertLabel x], rfl, by simp, rfl, Or.inr rfl, Or.inl ⟨rfl, by simp⟩⟩
  by_cases hg : faults (tx.log ++ [.upsertLabel x]) (.getLabelID x.Name) = true
  · have e : applyLabelSpec faults now tx x
        = ({ db := { tx.db with labels := upsertLabelRow tx.db.labels x },
             log := tx.log ++ [.upsertLabel x] ++ [.getLabelID x.Name] },
            some .getLabelID) := by
      simp only [applyLabelSpec, hname, Specs.Tx.ExecContext, hf, Specs.Stmt.run, if_false,
        Bool.false_eq_true, if_neg hk, Specs.Tx.GetLabelID, hg, if_true]
    rw [e]
    exact ⟨[.upsertLabel x, .getLabelID x.Name], by simp, by simp, rfl, Or.inr rfl,
      Or.inl ⟨rfl, by simp⟩⟩
  cases hsel : selectLabelID { tx.db with labels := upsertLabelRow tx.db.labels x } x.Name with
  | none =>
    have e : applyLabelSpec faults now tx x
        = ({ db := { tx.db with labels := upsertLabelRow tx.db.labels x },
             log := tx.log ++ [.upsertLabel x] ++ [.getLabelID x.Name] },
            some .getLabelID) := by
      simp only [applyLabelSpec, hname, Specs.Tx.ExecContext, hf, Specs.Stmt.run, if_false,
        Bool.false_eq_true, if_neg hk, Specs.Tx.GetLabelID, hg, hsel]
    rw [e]
    exact ⟨[.upsertLabel x, .getLabelID x.Name], by simp, by simp, rfl, Or.inr rfl,
      Or.inl ⟨rfl, by simp⟩⟩
  | some labelID =>
    by_cases hc : faults (tx.log ++ [.upsertLabel x] ++ [.getLabelID x.Name])
        (.clearMembership labelID) = true
    · have e : applyLabelSpec faults now tx x
          = ({ db := { tx.db with labels := upsertLabelRow tx.db.labels x },
               log := tx.log ++ [.upsertLabel x] ++ [.getLabelID x.Name]
                 ++ [.clearMembership labelID] },
              some .clearMembership) := by
        simp only [applyLabelSpec, hname, Specs.Tx.ExecContext, hf, Specs.Stmt.run, if_false,
          Bool.false_eq_true, if_neg hk, Specs.Tx.GetLabelID, hg, hsel, hc, if_true]
      rw [e]
      refine ⟨[.upsertLabel x, .getLabelID x.Name, .clearMembership labelID], by simp, by simp,
          rfl,
        Or.inr rfl, Or.inr ⟨hk, labelID, rfl, rfl, ?_, fun _ _ => rfl⟩⟩
      intro st hst
      simp only [List.mem_cons, List.mem_singleton, List.not_mem_nil, or_false] at hst
      rcases hst with h | h | h
      · exact Or.inl h
      · exact Or.inr (Or.inl h)
      · exact Or.inr (Or.inr (Or.inl h))
    · by_cases hh : x.Hosts.length = 0
      · have e : applyLabelSpec faults now tx x
            = ({ db := { tx.db with
                   labels := upsertLabelRow tx.db.labels x,
                   label_membership :=
                     tx.db.label_membership.filter (fun r => !(r.label_id == labelID)) },
                 log := tx.log ++ [.upsertLabel x] ++ [.getLabelID x.Name]
                   ++ [.clearMembership labelID] },
                none) := by
          simp only [applyLabelSpec, hname, Specs.Tx.ExecContext, hf, Specs.Stmt.run, if_false,
            Bool.false_eq_true, if_neg hk, Specs.Tx.GetLabelID, hg, hsel, hc, hh, if_true]
        rw [e]
        refine ⟨[.upsertLabel x, .getLabelID x.Name, .clearMembership labelID], by simp, by simp,
          rfl,
          Or.inr rfl, Or.inr ⟨hk, labelID, rfl, rfl, ?_, ?_⟩⟩
        · intro st hst
          simp only [List.mem_cons, List.mem_singleton, List.not_mem_nil, or_false] at hst
          rcases hst with h | h | h
          · exact Or.inl h
          · exact Or.inr (Or.inl h)
          · exact Or.inr (Or.inr (Or.inl h))
        · intro other hne
          exact filter_clear_other _ labelID other hne
      · have e : applyLabelSpec faults now tx x
            = insertMembershipBatches faults now labelID
                { db := { tx.db with
                    labels := upsertLabelRow tx.db.labels x,
                    label_membership :=
                      tx.db.label_membership.filter (fun r => !(r.label_id == labelID)) },
                  log := tx.log ++ [.upsertLabel x] ++ [.getLabelID x.Name]
                    ++ [.clearMembership labelID] }
                (batchHostnames x.Hosts) := by
          simp only [applyLabelSpec, hname, Specs.Tx.ExecContext, hf, Specs.Stmt.run, if_false,
            Bool.false_eq_true, if_neg hk, Specs.Tx.GetLabelID, hg, hsel, hc, hh]
        rw [e]
        obtain ⟨h1, h2, ⟨sent, h3, h4⟩, h5⟩ := insertMembershipBatches_any faults now labelID
          (batchHostnames x.Hosts)
          { db := { tx.db with
              labels := upsertLabelRow tx.db.labels x,
              label_membership :=
                tx.db.label_membership.filter (fun r => !(r.label_id == labelID)) },
            log := tx.log ++ [.upsertLabel x] ++ [.getLabelID x.Name]
              ++ [.clearMembership labelID] }
        refine ⟨[.upsertLabel x, .getLabelID x.Name, .clearMembership labelID] ++ sent, ?_,
          fun _ => by simp, h2,
          Or.inr h1, Or.inr ⟨hk, labelID, rfl, h1, ?_, ?_⟩⟩
        · rw [h3]; simp
        · intro st hst
          rw [List.mem_append] at hst
          rcases hst with hst | hst
          · simp only [List.mem_cons, List.mem_singleton, List.not_mem_nil, or_false] at hst
            rcases hst with h | h | h
            · exact Or.inl h
            · exact Or.inr (Or.inl h)
            · exact Or.inr (Or.inr (Or.inl h))
          · exact Or.inr (Or.inr (Or.inr (h4 st hst)))
        · intro other hne
          rw [h5 other hne]
          exact filter_clear_other _ labelID other hne

end Fleet

namespace Fleet

theorem applyLabelSpec_any_nodup (faults : List Specs.Stmt → Specs.Stmt → Bool) (now : Nat)
    (tx : Specs.Tx) (x : LabelSpec) (hnodup : (tx.db.labels.map (fun l => l.id)).Nodup) :
    ((applyLabelSpec faults now tx x).1.db.labels.map (fun l => l.id)).Nodup := by
  obtain ⟨_, _, _, _, hlabels, _⟩ := applyLabelSpec_any faults now tx x
  rcases hlabels with h | h
  · rw [h]; exact hnodup
  · rw [h]; exact upsertLabelRow_ids_nodup _ x hnodup

/-- The id a name has is the id it keeps through one pass of the loop, whatever the
outcome of the pass. -/
theorem applyLabelSpec_any_id_kept (faults : List Specs.Stmt → Specs.Stmt → Bool) (now : Nat)
    (tx : Specs.Tx) (x : LabelSpec) (name : String) (labelID : Nat)
    (hsel : selectLabelID tx.db name = some labelID) :
    selectLabelID (applyLabelSpec faults now tx x).1.db name = some labelID := by
  obtain ⟨_, _, _, _, hlabels, _⟩ := applyLabelSpec_any faults now tx x
  rcases hlabels with h | h
  · rw [selectLabelID_congr _ tx.db name h]; exact hsel
  · rw [selectLabelID_congr _ { tx.db with labels := upsertLabelRow tx.db.labels x } name h]
    by_cases hn : x.Name = name
    · subst hn
      exact selectLabelID_upsert_same tx.db x labelID hsel
    · rw [selectLabelID_upsert_other tx.db x name hn]; exact hsel

theorem applyLabelSpecsLoop_any_id_kept (faults : List Specs.Stmt → Specs.Stmt → Bool)
    (now : Nat) (specs : List LabelSpec) (tx : Specs.Tx) (name : String) (labelID : Nat)
    (hsel : selectLabelID tx.db name = some labelID) :
    selectLabelID (applyLabelSpecsLoop faults now tx specs).1.db name = some labelID := by
  induction specs generalizing tx with
  | nil => exact hsel
  | cons x rest ih =>
    have hstep := applyLabelSpec_any_id_kept faults now tx x name labelID hsel
    simp only [applyLabelSpecsLoop]
    cases h : applyLabelSpec faults now tx x with
    | mk tx' e =>
      rw [h] at hstep
      cases e with
      | none => exact ih tx' hstep
      | some err => exact hstep

/-- One pass of the loop and a label that the spec of the pass does not give a host
list: when, after the pass, the name has the id or has no id with the id unused,
the same held before the pass, the membership rows of the id are as before, and no
membership statement sent bears the id. -/
theorem applyLabelSpec_any_frame (faults : List Specs.Stmt → Specs.Stmt → Bool) (now : Nat)
    (tx : Specs.Tx) (x : LabelSpec) (name : String) (labelID : Nat)
    (hnodup : (tx.db.labels.map (fun l => l.id)).Nodup)
    (hx : x.Name = name → (x.LabelType = LabelType.builtIn
      ∨ x.LabelMembershipType ≠ LabelMembershipType.manual))
    (hpost : isIdOrFree (applyLabelSpec faults now tx x).1.db name labelID) :
    isIdOrFree tx.db name labelID ∧
    (applyLabelSpec faults now tx x).1.db.label_membership.filter
        (fun r => r.label_id == labelID)
      = tx.db.label_membership.filter (fun r => r.label_id == labelID) ∧
    ∃ sent, (applyLabelSpec faults now tx x).1.log = tx.log ++ sent ∧
      Specs.Stmt.clearMembership labelID ∉ sent ∧
      ∀ b, Specs.Stmt.insertMembership labelID b ∉ sent := by
  obtain ⟨sent, hlog, _, _, hlabels, hcase⟩ := applyLabelSpec_any faults now tx x
  have hpre : isIdOrFree tx.db name labelID := by
    rcases hlabels with h | h
    · exact (isIdOrFree_congr _ tx.db name labelID h).1 hpost
    · exact isIdOrFree_of_upsert tx.db x name labelID
        ((isIdOrFree_congr _ { tx.db with labels := upsertLabelRow tx.db.labels x }
          name labelID h).1 hpost)
  refine ⟨hpre, ?_⟩
  rcases hcase with ⟨hm, hsent⟩ | ⟨hk, labelX, hselX, hlab, hsent, hfilter⟩
  · refine ⟨by rw [hm], sent, hlog, ?_, ?_⟩
    · intro hmem
      rcases hsent _ hmem with h | h <;> cases h
    · intro b hmem
      rcases hsent _ hmem with h | h <;> cases h
  · have hne : x.Name ≠ name := fun h => hk (hx h)
    have hpost' : isIdOrFree { tx.db with labels := upsertLabelRow tx.db.labels x }
        name labelID :=
      (isIdOrFree_congr _ { tx.db with labels := upsertLabelRow tx.db.labels x }
        name labelID hlab).1 hpost
    have hids : labelX ≠ labelID := by
      rcases hpost' with h | ⟨_, h⟩
      · exact selectLabelID_ne_of_names { tx.db with labels := upsertLabelRow tx.db.labels x }
          (upsertLabelRow_ids_nodup tx.db.labels x hnodup) x.Name name hne labelX labelID
          hselX h
      · intro heq
        apply h
        rw [← heq]
        exact selectLabelID_mem_ids _ x.Name labelX hselX
    refine ⟨hfilter labelID hids, sent, hlog, ?_, ?_⟩
    · intro hmem
      rcases hsent _ hmem with h | h | h | ⟨b, h⟩
      · cases h
      · cases h
      · injection h with h; exact hids h.symm
      · cases h
    · intro b hmem
      rcases hsent _ hmem with h | h | h | ⟨b', h⟩
      · cases h
      · cases h
      · cases h
      · injection h with h _; exact hids h.symm

/-- The loop of `ApplyLabelSpecs` and a label that no spec of the list gives a host
list, whatever the outcome of the loop. -/
theorem applyLabelSpecsLoop_any_frame (faults : List Specs.Stmt → Specs.Stmt → Bool)
    (now : Nat) (specs : List LabelSpec) (tx : Specs.Tx) (name : String) (labelID : Nat)
    (hnodup : (tx.db.labels.map (fun l => l.id)).Nodup)
    (hnames : ∀ x ∈ specs, x.Name = name → (x.LabelType = LabelType.builtIn
      ∨ x.LabelMembershipType ≠ LabelMembershipType.manual))
    (hpost : isIdOrFree (applyLabelSpecsLoop faults now tx specs).1.db name labelID) :
    isIdOrFree tx.db name labelID ∧
    (applyLabelSpecsLoop faults now tx specs).1.db.label_membership.filter
        (fun r => r.label_id == labelID)
      = tx.db.label_membership.filter (fun r => r.label_id == labelID) ∧
    ∃ sent, (applyLabelSpecsLoop faults now tx specs).1.log = tx.log ++ sent ∧
      Specs.Stmt.clearMembership labelID ∉ sent ∧
      ∀ b, Specs.Stmt.insertMembership labelID b ∉ sent := by
  induction specs generalizing tx with
  | nil => exact ⟨hpost, rfl, [], by simp [applyLabelSpecsLoop], by simp, by simp⟩
  | cons x rest ih =>
    have hstep := applyLabelSpec_any_frame faults now tx x name labelID hnodup
      (hnames x (List.mem_cons_self _ _))
    have hnd := applyLabelSpec_any_nodup faults now tx x hnodup
    simp only [applyLabelSpecsLoop] at hpost ⊢
    cases h : applyLabelSpec faults now tx x with
    | mk tx' e =>
      rw [h] at hstep hnd hpost
      cases e with
      | some err => exact hstep hpost
      | none =>
        simp only at hpost ⊢
        obtain ⟨hmid, hf2, sent2, hlog2, hc2, hi2⟩ :=
          ih tx' hnd (fun y hy => hnames y (List.mem_cons_of_mem _ hy)) hpost
        obtain ⟨hpre, hf1, sent1, hlog1, hc1, hi1⟩ := hstep hmid
        refine ⟨hpre, hf2.trans hf1, sent1 ++ sent2, ?_, ?_, ?_⟩
        · rw [hlog2, hlog1, List.append_assoc]
        · intro hmem
          rw [List.mem_append] at hmem
          rcases hmem with hmem | hmem
          · exact hc1 hmem
          · exact hc2 hmem
        · intro b hmem
          rw [List.mem_append] at hmem
          rcases hmem with hmem | hmem
          · exact hi1 b hmem
          · exact hi2 b hmem

/-- After a loop that succeeds, the name of every spec of the list has an id, and
the definition of every spec was sent. -/
theorem applyLabelSpecsLoop_success_id (faults : List Specs.Stmt → Specs.Stmt → Bool)
    (now : Nat) (specs : List LabelSpec) (tx txf : Specs.Tx) (s : LabelSpec)
    (h : applyLabelSpecsLoop faults now tx specs = (txf, none)) (hs : s ∈ specs) :
    ∃ labelID, selectLabelID txf.db s.Name = some labelID := by
  induction specs generalizing tx with
  | nil => cases hs
  | cons x rest ih =>
    obtain ⟨tx', h1, h2⟩ := applyLabelSpecsLoop_cons_success faults now tx txf x rest h
    rw [List.mem_cons] at hs
    rcases hs with hs | hs
    · subst hs
      obtain ⟨hl, _, _, _⟩ := applyLabelSpec_success faults now tx tx' s h1
      obtain ⟨labelID, hsel⟩ := selectLabelID_upsert_self tx.db s
      have hsel' : selectLabelID tx'.db s.Name = some labelID := by
        rw [selectLabelID_congr tx'.db { tx.db with labels := upsertLabelRow tx.db.labels s }
          s.Name hl]
        exact hsel
      have := applyLabelSpecsLoop_any_id_kept faults now rest tx' s.Name labelID hsel'
      rw [h2] at this
      exact ⟨labelID, this⟩
    · exact ih tx' h2 hs

end Fleet

namespace Fleet

theorem applyLabelSpecsLoop_log_grows (faults : List Specs.Stmt → Specs.Stmt → Bool)
    (now : Nat) (specs : List LabelSpec) (tx : Specs.Tx) :
    ∃ sent, (applyLabelSpecsLoop faults now tx specs).1.log = tx.log ++ sent := by
  induction specs generalizing tx with
  | nil => exact ⟨[], by simp [applyLabelSpecsLoop]⟩
  | cons x rest ih =>
    obtain ⟨sent1, hlog1, _⟩ := applyLabelSpec_any faults now tx x
    simp only [applyLabelSpecsLoop]
    cases h : applyLabelSpec faults now tx x with
    | mk tx' e =>
      rw [h] at hlog1
      cases e with
      | some err => exact ⟨sent1, hlog1⟩
      | none =>
        obtain ⟨sent2, hlog2⟩ := ih tx'
        exact ⟨sent1 ++ sent2, by rw [hlog2, hlog1, List.append_assoc]⟩

theorem applyLabelSpecsLoop_success_upsert (faults : List Specs.Stmt → Specs.Stmt → Bool)
    (now : Nat) (specs : List LabelSpec) (tx txf : Specs.Tx) (s : LabelSpec)
    (h : applyLabelSpecsLoop faults now tx specs = (txf, none)) (hs : s ∈ specs) :
    Specs.Stmt.upsertLabel s ∈ txf.log := by
  induction specs generalizing tx with
  | nil => cases hs
  | cons x rest ih =>
    obtain ⟨tx', h1, h2⟩ := applyLabelSpecsLoop_cons_success faults now tx txf x rest h
    rw [List.mem_cons] at hs
    rcases hs with hs | hs
    · subst hs
      obtain ⟨sent1, hlog1, hup, _⟩ := applyLabelSpec_any faults now tx s
      rw [h1] at hlog1 hup
      obtain ⟨sent2, hlog2⟩ := applyLabelSpecsLoop_log_grows faults now rest tx'
      rw [h2] at hlog2
      rw [hlog2, hlog1]
      simp only [List.mem_append]
      exact Or.inl (Or.inr (hup rfl))
    · exact ih tx' h2 hs

/-- C21 (as amended): let a spec of the list have a name that no spec of the list
gives to a custom label with manual membership (so the spec itself is of a built-in
label or of a label whose membership is not manual), and let the ids of the table
`labels` be pairwise distinct.  When `ApplyLabelSpecs` succeeds, the definition of
the spec was sent and the name has an id in the committed tables.  Whatever the
outcome, for the id the name has in the committed tables, the membership rows of
that id are those before the call, and the transaction sent neither the DELETE nor
an INSERT on `label_membership` for that id. -/
theorem C21_definition_only_label_untouched (faults : List Specs.Stmt → Specs.Stmt → Bool)
    (isPreparer prepareFails : Bool) (now : Nat) (db : DB) (specs : List LabelSpec)
    (s : LabelSpec)
    (hnodup : (db.labels.map (fun l => l.id)).Nodup)
    (hs : s ∈ specs)
    (hnames : ∀ x ∈ specs, x.Name = s.Name → (x.LabelType = LabelType.builtIn
      ∨ x.LabelMembershipType ≠ LabelMembershipType.manual)) :
    ((ApplyLabelSpecs faults isPreparer prepareFails now db specs).err = none →
      Specs.Stmt.upsertLabel s
          ∈ (ApplyLabelSpecs faults isPreparer prepareFails now db specs).log ∧
      ∃ labelID,
        selectLabelID (ApplyLabelSpecs faults isPreparer prepareFails now db specs).db s.Name
          = some labelID) ∧
    (∀ labelID,
      selectLabelID (ApplyLabelSpecs faults isPreparer prepareFails now db specs).db s.Name
          = some labelID →
        (ApplyLabelSpecs faults isPreparer prepareFails now db specs).db.label_membership.filter
            (fun r => r.label_id == labelID)
          = db.label_membership.filter (fun r => r.label_id == labelID) ∧
        Specs.Stmt.clearMembership labelID
          ∉ (ApplyLabelSpecs faults isPreparer prepareFails now db specs).log ∧
        ∀ b, Specs.Stmt.insertMembership labelID b
          ∉ (ApplyLabelSpecs faults isPreparer prepareFails now db specs).log) := by
  have hframe := applyLabelSpecsLoop_any_frame faults now specs { db := db, log := [] }
    s.Name
  have hkept := applyLabelSpecsLoop_any_id_kept faults now specs { db := db, log := [] }
    s.Name
  unfold ApplyLabelSpecs Specs.withRetryTxx
  cases isPreparer <;> cases prepareFails <;>
    simp only [Bool.not_true, Bool.not_false, Bool.false_eq_true, if_false, if_true]
  · simp
  · simp
  · cases hloop : applyLabelSpecsLoop faults now { db := db, log := [] } specs with
    | mk txf e =>
      rw [hloop] at hframe hkept
      cases e with
      | none =>
        refine ⟨fun _ => ⟨applyLabelSpecsLoop_success_upsert faults now specs _ txf s hloop hs,
          applyLabelSpecsLoop_success_id faults now specs _ txf s hloop hs⟩, ?_⟩
        intro labelID hsel
        obtain ⟨_, hf, sent, hlog, hc, hi⟩ := hframe labelID hnodup hnames (Or.inl hsel)
        simp only [List.nil_append] at hlog
        subst hlog
        exact ⟨hf, hc, hi⟩
      | some err =>
        refine ⟨fun h => (by cases h), ?_⟩
        intro labelID hsel
        obtain ⟨_, _, sent, hlog, hc, hi⟩ :=
          hframe labelID hnodup hnames (Or.inl (hkept labelID hsel))
        simp only [List.nil_append] at hlog
        subst hlog
        exact ⟨rfl, hc, hi⟩
  · simp

end Fleet

namespace Fleet

/-- C21 (witness): host 2 is a member of the labels 1 ("All Hosts", built-in), 2
("web", dynamic) and 3 ("ops", manual); the specs of the three labels are applied in
one list, each with the host name a.  The membership of "ops" is replaced; for "All
Hosts", whose id is 1, neither the DELETE nor an INSERT was sent and its rows are
those before the call. -/
theorem C21_definition_only_label_untouched_witness :
    (ApplyLabelSpecs (fun _ _ => false) true false 99
      ⟨[⟨1, "All Hosts", "", "select 1", "", .builtIn, .manual⟩,
          ⟨2, "web", "", "select 2", "", .regular, .dynamic⟩,
          ⟨3, "ops", "", "", "", .regular, .manual⟩],
        [⟨1, "a", 0⟩, ⟨2, "b", 0⟩], [⟨5, 1, 2⟩, ⟨5, 2, 2⟩, ⟨5, 3, 2⟩]⟩
      [⟨"All Hosts", "", "select 1", "", .builtIn, .manual, ["a"]⟩,
        ⟨"ops", "", "", "", .regular, .manual, ["a"]⟩,
        ⟨"web", "new", "select 3", "", .regular, .dynamic, ["a"]⟩]).db.label_membership
      = [⟨5, 1, 2⟩, ⟨5, 2, 2⟩, ⟨99, 3, 1⟩] ∧
    ((ApplyLabelSpecs (fun _ _ => false) true false 99
        ⟨[⟨1, "All Hosts", "", "select 1", "", .builtIn, .manual⟩,
            ⟨2, "web", "", "select 2", "", .regular, .dynamic⟩,
            ⟨3, "ops", "", "", "", .regular, .manual⟩],
          [⟨1, "a", 0⟩, ⟨2, "b", 0⟩], [⟨5, 1, 2⟩, ⟨5, 2, 2⟩, ⟨5, 3, 2⟩]⟩
        [⟨"All Hosts", "", "select 1", "", .builtIn, .manual, ["a"]⟩,
          ⟨"ops", "", "", "", .regular, .manual, ["a"]⟩,
          ⟨"web", "new", "select 3", "", .regular, .dynamic, ["a"]⟩]).db.label_membership.filter
          (fun r => r.label_id == 1)
        = ([⟨5, 1, 2⟩, ⟨5, 2, 2⟩, ⟨5, 3, 2⟩] : List LabelMembershipRow).filter
            (fun r => r.label_id == 1) ∧
      Specs.Stmt.clearMembership 1
        ∉ (ApplyLabelSpecs (fun _ _ => false) true false 99
            ⟨[⟨1, "All Hosts", "", "select 1", "", .builtIn, .manual⟩,
                ⟨2, "web", "", "select 2", "", .regular, .dynamic⟩,
                ⟨3, "ops", "", "", "", .regular, .manual⟩],
              [⟨1, "a", 0⟩, ⟨2, "b", 0⟩], [⟨5, 1, 2⟩, ⟨5, 2, 2⟩, ⟨5, 3, 2⟩]⟩
            [⟨"All Hosts", "", "select 1", "", .builtIn, .manual, ["a"]⟩,
              ⟨"ops", "", "", "", .regular, .manual, ["a"]⟩,
              ⟨"web", "new", "select 3", "", .regular, .dynamic, ["a"]⟩]).log ∧
      ∀ b, Specs.Stmt.insertMembership 1 b
        ∉ (ApplyLabelSpecs (fun _ _ => false) true false 99
            ⟨[⟨1, "All Hosts", "", "select 1", "", .builtIn, .manual⟩,
                ⟨2, "web", "", "select 2", "", .regular, .dynamic⟩,
                ⟨3, "ops", "", "", "", .regular, .manual⟩],
              [⟨1, "a", 0⟩, ⟨2, "b", 0⟩], [⟨5, 1, 2⟩, ⟨5, 2, 2⟩, ⟨5, 3, 2⟩]⟩
            [⟨"All Hosts", "", "select 1", "", .builtIn, .manual, ["a"]⟩,
              ⟨"ops", "", "", "", .regular, .manual, ["a"]⟩,
              ⟨"web", "new", "select 3", "", .regular, .dynamic, ["a"]⟩]).log) :=
  ⟨by decide,
   (C21_definition_only_label_untouched (fun _ _ => false) true false 99
      ⟨[⟨1, "All Hosts", "", "select 1", "", .builtIn, .manual⟩,
          ⟨2, "web", "", "select 2", "", .regular, .dynamic⟩,
          ⟨3, "ops", "", "", "", .regular, .manual⟩],
        [⟨1, "a", 0⟩, ⟨2, "b", 0⟩], [⟨5, 1, 2⟩, ⟨5, 2, 2⟩, ⟨5, 3, 2⟩]⟩
      [⟨"All Hosts", "", "select 1", "", .builtIn, .manual, ["a"]⟩,
        ⟨"ops", "", "", "", .regular, .manual, ["a"]⟩,
        ⟨"web", "new", "select 3", "", .regular, .dynamic, ["a"]⟩]
      ⟨"All Hosts", "", "select 1", "", .builtIn, .manual, ["a"]⟩
      (by decide) (by decide) (by decide)).2 1 (by decide)⟩

/-- C21 (counterexample): the label "X" has the id 1 and the host 2 as its member.
One list holds a spec of "X" as a built-in label and, after it, a spec of "X" as a
custom label with manual membership and the host name a.  The call succeeds; for
the label of the first spec the DELETE and an INSERT on `label_membership` were
sent, and its membership is host 1 instead of host 2. -/
theorem C21_same_name_spec_refills_membership :
    (⟨"X", "", "select 1", "", .builtIn, .manual, []⟩ : LabelSpec).LabelType
      = LabelType.builtIn ∧
    selectLabelID
      ⟨[⟨1, "X", "", "select 1", "", .builtIn, .manual⟩], [⟨1, "a", 0⟩, ⟨2, "b", 0⟩],
        [⟨5, 1, 2⟩]⟩ "X" = some 1 ∧
    ApplyLabelSpecs (fun _ _ => false) true false 99
      ⟨[⟨1, "X", "", "select 1", "", .builtIn, .manual⟩], [⟨1, "a", 0⟩, ⟨2, "b", 0⟩],
        [⟨5, 1, 2⟩]⟩
      [⟨"X", "", "select 1", "", .builtIn, .manual, []⟩,
        ⟨"X", "", "select 1", "", .regular, .manual, ["a"]⟩]
      = ⟨⟨[⟨1, "X", "", "select 1", "", .regular, .manual⟩], [⟨1, "a", 0⟩, ⟨2, "b", 0⟩],
            [⟨99, 1, 1⟩]⟩,
          [.upsertLabel ⟨"X", "", "select 1", "", .builtIn, .manual, []⟩,
            .upsertLabel ⟨"X", "", "select 1", "", .regular, .manual, ["a"]⟩,
            .getLabelID "X", .clearMembership 1, .insertMembership 1 ["a"]],
          none⟩ ∧
    Specs.Stmt.clearMembership 1
      ∈ (ApplyLabelSpecs (fun _ _ => false) true false 99
          ⟨[⟨1, "X", "", "select 1", "", .builtIn, .manual⟩], [⟨1, "a", 0⟩, ⟨2, "b", 0⟩],
            [⟨5, 1, 2⟩]⟩
          [⟨"X", "", "select 1", "", .builtIn, .manual, []⟩,
            ⟨"X", "", "select 1", "", .regular, .manual, ["a"]⟩]).log ∧
    Specs.Stmt.insertMembership 1 ["a"]
      ∈ (ApplyLabelSpecs (fun _ _ => false) true false 99
          ⟨[⟨1, "X", "", "select 1", "", .builtIn, .manual⟩], [⟨1, "a", 0⟩, ⟨2, "b", 0⟩],
            [⟨5, 1, 2⟩]⟩
          [⟨"X", "", "select 1", "", .builtIn, .manual, []⟩,
            ⟨"X", "", "select 1", "", .regular, .manual, ["a"]⟩]).log ∧
    (ApplyLabelSpecs (fun _ _ => false) true false 99
        ⟨[⟨1, "X", "", "select 1", "", .builtIn, .manual⟩], [⟨1, "a", 0⟩, ⟨2, "b", 0⟩],
          [⟨5, 1, 2⟩]⟩
        [⟨"X", "", "select 1", "", .builtIn, .manual, []⟩,
          ⟨"X", "", "select 1", "", .regular, .manual, ["a"]⟩]).db.label_membership
      ≠ [⟨5, 1, 2⟩] := by
  decide

end Fleet
